import Mathlib

/-!
# Limit-surface regression program: delta comparison, aggregation, batch classification,
domain rotations and uniform tessellation patterns

A shallow embedding of the comparison core of the `tmr_regression` program
(`types.h`, `regressionTask.cpp`, `regression.cpp`, `common/tess.h`,
`common/tess_uniform.cpp`, `tmrEvaluator.cpp`).

Conventions of the embedding:

* The template parameter `REAL` (and `float`) is modelled by the exact rationals `ℚ`.
* C++ `int` counters are modelled by `Int`; the counters of this program only
  ever receive `+1` / `+bool` updates bounded by the number of surfaces or tasks.
* A failed `assert` is modelled by `none` in `Option`.
* An `int` passed to a `uint8_t` parameter is narrowed modulo 256 (`tess.toUint8`).
* The loops of `tessellate` are modelled by the lists of the values they write, in
  the order of the writes, with exact `int` arithmetic on the level; the `int` arithmetic
  of `patchSize` wraps around at 32 bits (`tess.uniform.toInt32`).
* Code of the OpenSubdiv library (OBJ parsing, topology refiner, the two limit
  evaluators) is outside the repository and is taken as parameters (`Env`).
-/

namespace OsdRegression

/-! ## types.h : Vec3 -/

/-- Struct `Vec3<REAL>`: member `REAL p[3]`. -/
structure Vec3 where
  p0 : ℚ
  p1 : ℚ
  p2 : ℚ
deriving DecidableEq, Repr

namespace Vec3

/-- Value after `Clear()`: all three components zero. -/
def zero : Vec3 := ⟨0, 0, 0⟩

instance : Inhabited Vec3 := ⟨zero⟩

/-- Unary `operator-()`. -/
def neg (a : Vec3) : Vec3 := ⟨-a.p0, -a.p1, -a.p2⟩

/-- Binary `operator-(x)`. -/
def sub (a x : Vec3) : Vec3 := ⟨a.p0 - x.p0, a.p1 - x.p1, a.p2 - x.p2⟩

/-- Binary `operator+(x)`. -/
def add (a x : Vec3) : Vec3 := ⟨a.p0 + x.p0, a.p1 + x.p1, a.p2 + x.p2⟩

/-- Scaling `operator*(s)`. -/
def smul (a : Vec3) (s : ℚ) : Vec3 := ⟨a.p0 * s, a.p1 * s, a.p2 * s⟩

instance : Neg Vec3 := ⟨neg⟩
instance : Sub Vec3 := ⟨sub⟩
instance : Add Vec3 := ⟨add⟩

end Vec3

/-! ## types.h : VectorDelta -/

/-- Class `VectorDelta<REAL>`. The two pointers are `none` while they are `nullptr`. -/
structure VectorDelta where
  vectorA : Option (List Vec3) := none
  vectorB : Option (List Vec3) := none
  numDeltas : Int := 0
  maxDelta : ℚ := 0
  tolerance : ℚ := 0
deriving DecidableEq, Repr

namespace VectorDelta

/-- Constructor `VectorDelta(REAL epsilon = 0.0f)`. -/
def new (epsilon : ℚ) : VectorDelta := { tolerance := epsilon }

/-- Body of `Evaluate` on the two dereferenced samples: component-wise `std::abs(a[k] - b[k])`. -/
def absDiff (a b : Vec3) : Vec3 := ⟨|a.p0 - b.p0|, |a.p1 - b.p1|, |a.p2 - b.p2|⟩

/-- Method `Evaluate(index)`: reads `(*vectorA)[index]` and `(*vectorB)[index]`. -/
def Evaluate (self : VectorDelta) (index : Nat) : Vec3 :=
  absDiff ((self.vectorA.getD []).getD index Vec3.zero) ((self.vectorB.getD []).getD index Vec3.zero)

/-- Method `IsInvalid(delta)`. -/
def IsInvalid (self : VectorDelta) (delta : Vec3) : Bool :=
  decide (delta.p0 > self.tolerance) || decide (delta.p1 > self.tolerance)
    || decide (delta.p2 > self.tolerance)

/-- One iteration of the loop of `Compare` at index `i`. -/
def compareStep (self : VectorDelta) (i : Nat) : VectorDelta :=
  let d := self.Evaluate i
  if self.IsInvalid d then
    let s0 : VectorDelta := { self with numDeltas := self.numDeltas + 1 }
    let s1 : VectorDelta := if s0.maxDelta < d.p0 then { s0 with maxDelta := d.p0 } else s0
    let s2 : VectorDelta := if s1.maxDelta < d.p1 then { s1 with maxDelta := d.p1 } else s1
    if s2.maxDelta < d.p2 then { s2 with maxDelta := d.p2 } else s2
  else self

/-- Method `Compare(a, b)`; `none` when `assert(a.size() == b.size())` fails. -/
def Compare (self : VectorDelta) (a b : List Vec3) : Option VectorDelta :=
  if a.length ≠ b.length then none
  else
    some ((List.range a.length).foldl compareStep
      { self with vectorA := some a, vectorB := some b, numDeltas := 0, maxDelta := 0 })

end VectorDelta

/-! ## types.h : EvalResults -/

/-- Struct `EvalResults<REAL>`: the output arrays of one face evaluation. -/
structure EvalResults where
  evalP : Bool := false
  eval1stDeriv : Bool := false
  eval2ndDeriv : Bool := false
  evalUV : Bool := false
  p : List Vec3 := []
  du : List Vec3 := []
  dv : List Vec3 := []
  duu : List Vec3 := []
  duv : List Vec3 := []
  dvv : List Vec3 := []
  uv : List Vec3 := []
deriving DecidableEq, Repr

/-- Resizing `std::vector::resize(size)`: truncate, or pad with value-initialised elements. -/
def resizeVec (xs : List Vec3) (size : Nat) : List Vec3 :=
  xs.take size ++ List.replicate (size - xs.length) Vec3.zero

/-- Method `EvalResults::Resize(size)`. -/
def EvalResults.Resize (r : EvalResults) (size : Nat) : EvalResults :=
  let r1 : EvalResults :=
    if r.evalP then
      let a : EvalResults := { r with p := resizeVec r.p size }
      if a.eval1stDeriv then
        let b : EvalResults := { a with du := resizeVec a.du size, dv := resizeVec a.dv size }
        if b.eval2ndDeriv then
          { b with duu := resizeVec b.duu size, duv := resizeVec b.duv size,
                   dvv := resizeVec b.dvv size }
        else b
      else a
    else r
  if r1.evalUV then { r1 with uv := resizeVec r1.uv size } else r1

/-! ## types.h : FaceDeltaVectors, FaceDelta, MeshDelta -/

/-- Struct `FaceDeltaVectors<REAL>`: the seven comparisons of one evaluated surface. -/
structure FaceDeltaVectors where
  pDelta : VectorDelta := {}
  duDelta : VectorDelta := {}
  dvDelta : VectorDelta := {}
  duuDelta : VectorDelta := {}
  duvDelta : VectorDelta := {}
  dvvDelta : VectorDelta := {}
  uvDelta : VectorDelta := {}
deriving DecidableEq, Repr

/-- Constructor `FaceDeltaVectors(tol, uvtol)`: derivative tolerances are 5x and 25x `tol`. -/
def FaceDeltaVectors.new (tol uvtol : ℚ) : FaceDeltaVectors :=
  let pTol := tol
  let d1Tol := pTol * 5
  let d2Tol := d1Tol * 5
  { pDelta := { tolerance := pTol },
    duDelta := { tolerance := d1Tol },
    dvDelta := { tolerance := d1Tol },
    duuDelta := { tolerance := d2Tol },
    duvDelta := { tolerance := d2Tol },
    dvvDelta := { tolerance := d2Tol },
    uvDelta := { tolerance := uvtol } }

/-- Class `FaceDelta<REAL>`. -/
structure FaceDelta where
  hasDeltas : Bool := false
  hasGeomDeltas : Bool := false
  hasUVDeltas : Bool := false
  numPDeltas : Int := 0
  numD1Deltas : Int := 0
  numD2Deltas : Int := 0
  numUVDeltas : Int := 0
  maxPDelta : ℚ := 0
  maxD1Delta : ℚ := 0
  maxD2Delta : ℚ := 0
  maxUVDelta : ℚ := 0
deriving DecidableEq, Repr

namespace FaceDelta

/-- Method `Clear()`: `memset` of the whole object to zero. -/
def Clear (_self : FaceDelta) : FaceDelta := {}

/-- Method `AddPDelta`. -/
def AddPDelta (self : FaceDelta) (pDelta : VectorDelta) : FaceDelta :=
  if pDelta.numDeltas ≠ 0 then
    { self with numPDeltas := pDelta.numDeltas, maxPDelta := pDelta.maxDelta,
                hasDeltas := true, hasGeomDeltas := true }
  else self

/-- Method `AddDuDelta`. -/
def AddDuDelta (self : FaceDelta) (duDelta : VectorDelta) : FaceDelta :=
  if duDelta.numDeltas ≠ 0 then
    { self with numD1Deltas := self.numD1Deltas + duDelta.numDeltas,
                maxD1Delta := max self.maxD1Delta duDelta.maxDelta,
                hasDeltas := true, hasGeomDeltas := true }
  else self

/-- Method `AddDvDelta`. -/
def AddDvDelta (self : FaceDelta) (dvDelta : VectorDelta) : FaceDelta :=
  if dvDelta.numDeltas ≠ 0 then
    { self with numD1Deltas := self.numD1Deltas + dvDelta.numDeltas,
                maxD1Delta := max self.maxD1Delta dvDelta.maxDelta,
                hasDeltas := true, hasGeomDeltas := true }
  else self

/-- Method `AddDuuDelta`. -/
def AddDuuDelta (self : FaceDelta) (duuDelta : VectorDelta) : FaceDelta :=
  if duuDelta.numDeltas ≠ 0 then
    { self with numD2Deltas := self.numD2Deltas + duuDelta.numDeltas,
                maxD2Delta := max self.maxD2Delta duuDelta.maxDelta,
                hasDeltas := true, hasGeomDeltas := true }
  else self

/-- Method `AddDuvDelta`. -/
def AddDuvDelta (self : FaceDelta) (duvDelta : VectorDelta) : FaceDelta :=
  if duvDelta.numDeltas ≠ 0 then
    { self with numD2Deltas := self.numD2Deltas + duvDelta.numDeltas,
                maxD2Delta := max self.maxD2Delta duvDelta.maxDelta,
                hasDeltas := true, hasGeomDeltas := true }
  else self

/-- Method `AddDvvDelta`. -/
def AddDvvDelta (self : FaceDelta) (dvvDelta : VectorDelta) : FaceDelta :=
  if dvvDelta.numDeltas ≠ 0 then
    { self with numD2Deltas := self.numD2Deltas + dvvDelta.numDeltas,
                maxD2Delta := max self.maxD2Delta dvvDelta.maxDelta,
                hasDeltas := true, hasGeomDeltas := true }
  else self

/-- Method `AddUVDelta`. -/
def AddUVDelta (self : FaceDelta) (uvDelta : VectorDelta) : FaceDelta :=
  if uvDelta.numDeltas ≠ 0 then
    { self with numUVDeltas := uvDelta.numDeltas, maxUVDelta := uvDelta.maxDelta,
                hasDeltas := true, hasUVDeltas := true }
  else self

/-- Method `AddDeltaVectors`: clear, then add the seven deltas in source order. -/
def AddDeltaVectors (self : FaceDelta) (deltas : FaceDeltaVectors) : FaceDelta :=
  ((((((self.Clear.AddPDelta deltas.pDelta).AddDuDelta deltas.duDelta).AddDvDelta
    deltas.dvDelta).AddDuuDelta deltas.duuDelta).AddDuvDelta deltas.duvDelta).AddDvvDelta
    deltas.dvvDelta).AddUVDelta deltas.uvDelta

end FaceDelta

/-- Class `MeshDelta<REAL>`. -/
structure MeshDelta where
  numFacesWithDeltas : Int := 0
  numFacesWithGeomDeltas : Int := 0
  numFacesWithUVDeltas : Int := 0
  numFacesWithPDeltas : Int := 0
  numFacesWithD1Deltas : Int := 0
  numFacesWithD2Deltas : Int := 0
  maxPDelta : ℚ := 0
  maxD1Delta : ℚ := 0
  maxD2Delta : ℚ := 0
  maxUVDelta : ℚ := 0
deriving DecidableEq, Repr

/-- Integer value of a C++ `bool` in an arithmetic context. -/
def boolToInt (b : Bool) : Int := if b then 1 else 0

/-- Method `MeshDelta::AddFace`. -/
def MeshDelta.AddFace (self : MeshDelta) (faceDelta : FaceDelta) : MeshDelta :=
  { numFacesWithDeltas := self.numFacesWithDeltas + boolToInt faceDelta.hasDeltas,
    numFacesWithGeomDeltas := self.numFacesWithGeomDeltas + boolToInt faceDelta.hasGeomDeltas,
    numFacesWithUVDeltas := self.numFacesWithUVDeltas + boolToInt faceDelta.hasUVDeltas,
    numFacesWithPDeltas := self.numFacesWithPDeltas + boolToInt (decide (faceDelta.numPDeltas > 0)),
    numFacesWithD1Deltas :=
      self.numFacesWithD1Deltas + boolToInt (decide (faceDelta.numD1Deltas > 0)),
    numFacesWithD2Deltas :=
      self.numFacesWithD2Deltas + boolToInt (decide (faceDelta.numD2Deltas > 0)),
    maxPDelta := max self.maxPDelta faceDelta.maxPDelta,
    maxD1Delta := max self.maxD1Delta faceDelta.maxD1Delta,
    maxD2Delta := max self.maxD2Delta faceDelta.maxD2Delta,
    maxUVDelta := max self.maxUVDelta faceDelta.maxUVDelta }

/-! ## common/tess.h -/

namespace tess

/-- Enum `DomainMode`. -/
inductive DomainMode where
  | ISOLINE
  | TRIANGLE
  | QUAD
deriving DecidableEq, Repr

/-- Struct `Patch`: triangle index list and the (u, v) sample coordinates. -/
structure Patch where
  indices : List Int := []
  u : List ℚ := []
  v : List ℚ := []
deriving DecidableEq, Repr

/-- Method `Patch::numTriangles`. -/
def Patch.numTriangles (patch : Patch) : Int := (patch.indices.length : Int) / 3

/-- Method `Patch::numVertices`. -/
def Patch.numVertices (patch : Patch) : Int := (patch.u.length : Int)

/-- Specialisation `rotateDomain<QUAD>(uint8_t rot, u, v)`; `none` is the `assert(0)`. -/
def rotateDomainQuad (rot : Nat) (u v : ℚ) : Option (ℚ × ℚ) :=
  match rot with
  | 0 => some (u, v)
  | 1 => some (1 - v, u)
  | 2 => some (1 - u, 1 - v)
  | 3 => some (v, 1 - u)
  | _ => none

/-- Specialisation `rotateDomainInv<QUAD>(uint8_t rot, u, v)`. -/
def rotateDomainInvQuad (rot : Nat) (u v : ℚ) : Option (ℚ × ℚ) :=
  match rot with
  | 0 => some (u, v)
  | 1 => some (v, 1 - u)
  | 2 => some (1 - u, 1 - v)
  | 3 => some (1 - v, u)
  | _ => none

/-- Specialisation `rotateDomain<TRIANGLE>(uint8_t rot, u, v)`. -/
def rotateDomainTriangle (rot : Nat) (u v : ℚ) : Option (ℚ × ℚ) :=
  match rot with
  | 0 => some (u, v)
  | 2 => some (v, 1 - u - v)
  | 1 => some (1 - u - v, u)
  | _ => none

/-- Specialisation `rotateDomainInv<TRIANGLE>(uint8_t rot, u, v)`. -/
def rotateDomainInvTriangle (rot : Nat) (u v : ℚ) : Option (ℚ × ℚ) :=
  match rot with
  | 0 => some (u, v)
  | 2 => some (1 - u - v, u)
  | 1 => some (v, 1 - u - v)
  | _ => none

/-- Conversion of an `int` argument to the `uint8_t` parameter of the specialisations. -/
def toUint8 (rot : Int) : Nat := (rot % 256).toNat

/-- Entry point `rotateDomain(DomainMode, int rot, u, v)`. -/
def rotateDomain (domain : DomainMode) (rot : Int) (u v : ℚ) : Option (ℚ × ℚ) :=
  match domain with
  | DomainMode.QUAD => rotateDomainQuad (toUint8 rot) u v
  | DomainMode.TRIANGLE => rotateDomainTriangle (toUint8 rot) u v
  | _ => none

/-- Entry point `rotateDomainInv(DomainMode, int rot, u, v)`. -/
def rotateDomainInv (domain : DomainMode) (rot : Int) (u v : ℚ) : Option (ℚ × ℚ) :=
  match domain with
  | DomainMode.QUAD => rotateDomainInvQuad (toUint8 rot) u v
  | DomainMode.TRIANGLE => rotateDomainInvTriangle (toUint8 rot) u v
  | _ => none

end tess

/-! ## tmrEvaluator.cpp : derivative compensation -/

/-- First-derivative overload `quadDomainRotate(rot, du, dv)`; `none` is the `assert(0)`. -/
def quadDomainRotate (rot : Int) (du dv : Vec3) : Option (Vec3 × Vec3) :=
  if rot = 0 then some (du, dv)
  else if rot = 1 then
    let a := dv
    let dv1 := du
    let du1 := -a
    some (du1, dv1)
  else if rot = 2 then
    let du1 := -du
    let dv1 := -dv
    some (du1, dv1)
  else if rot = 3 then
    let a := dv
    let dv1 := -du
    let du1 := a
    some (du1, dv1)
  else none

/-- Function `triangleDomainRotate(rot, du, dv)`; the assignments are kept in source order. -/
def triangleDomainRotate (rot : Int) (du dv : Vec3) : Option (Vec3 × Vec3) :=
  if rot = 0 then some (du, dv)
  else if rot = 1 then
    let a := du
    let du1 := -dv
    let dv1 := a + du1
    some (du1, dv1)
  else if rot = 2 then
    let a := dv
    let dv1 := -du
    let du1 := a + dv1
    some (du1, dv1)
  else none

/-- First-derivative overload `applyDomainRotation(domain, rot, du, dv)`. -/
def applyDomainRotation (domain : tess.DomainMode) (rot : Int) (du dv : Vec3) :
    Option (Vec3 × Vec3) :=
  match domain with
  | tess.DomainMode.QUAD => quadDomainRotate rot du dv
  | tess.DomainMode.TRIANGLE => triangleDomainRotate rot du dv
  | _ => none

/-- Second-derivative overload `quadDomainRotate(rot, duu, duv, dvv)`. -/
def quadDomainRotate2 (rot : Int) (duu duv dvv : Vec3) : Option (Vec3 × Vec3 × Vec3) :=
  if rot = 0 then some (duu, duv, dvv)
  else if rot = 1 then some (dvv, -duv, duu)
  else if rot = 2 then some (duu, duv, dvv)
  else if rot = 3 then some (dvv, -duv, duu)
  else none

/-- Second-derivative overload `applyDomainRotation(domain, rot, duu, duv, dvv)`. -/
def applyDomainRotation2 (domain : tess.DomainMode) (rot : Int) (duu duv dvv : Vec3) :
    Option (Vec3 × Vec3 × Vec3) :=
  match domain with
  | tess.DomainMode.QUAD => quadDomainRotate2 rot duu duv dvv
  | tess.DomainMode.TRIANGLE => some (duu, duv, dvv)
  | _ => none

/-! ## common/tess_uniform.cpp -/

namespace tess

namespace uniform

/-- Value of a 32-bit `int` expression whose exact value is `x`: two's complement
wrap-around into `-2^31 .. 2^31 - 1`. -/
def toInt32 (x : Int) : Int := (x + 2147483648) % 4294967296 - 2147483648

/-- Function `patchSize(domain, lod)`: the pair (ntriangles, nverts); `none` is the `assert(0)`.
Every `int` operation is followed by the 32-bit wrap-around. -/
def patchSize (domain : DomainMode) (lod : Int) : Option (Int × Int) :=
  match domain with
  | DomainMode.QUAD =>
      let ntriangles :=
        if lod > 1 then toInt32 (toInt32 (2 * toInt32 (lod - 1)) * toInt32 (lod - 1)) else 2
      let nverts := if lod > 1 then toInt32 (lod * lod) else 4
      some (ntriangles, nverts)
  | DomainMode.TRIANGLE =>
      let nedgeverts := toInt32 (lod + 2)
      let nverts := Int.tdiv (toInt32 (nedgeverts * toInt32 (nedgeverts + 1))) 2
      let ntriangles := toInt32 (toInt32 (lod + 1) * toInt32 (lod + 1))
      some (ntriangles, nverts)
  | _ => none

/-- Index loop of the QUAD branch (`lod > 1`): `i` outer, `j` inner, two triangles per cell. -/
def quadIndices (lod : Int) : List Int :=
  (List.range (lod - 1).toNat).flatMap fun (i : Nat) =>
    (List.range (lod - 1).toNat).flatMap fun (j : Nat) =>
      let idx0 : Int := (j : Int) * lod + (i : Int)
      let idx1 := idx0 + lod
      let idx2 := idx1 + 1
      let idx3 := idx0 + 1
      [idx0, idx2, idx1, idx0, idx3, idx2]

/-- Coordinate loop of the QUAD branch, `u` array: `j` outer, `i` inner, `index = j*lod + i`. -/
def quadU (lod : Int) : List ℚ :=
  (List.range lod.toNat).flatMap fun (_j : Nat) =>
    (List.range lod.toNat).map fun (i : Nat) => (i : ℚ) / ((lod : ℚ) - 1)

/-- Coordinate loop of the QUAD branch, `v` array. -/
def quadV (lod : Int) : List ℚ :=
  (List.range lod.toNat).flatMap fun (j : Nat) =>
    (List.range lod.toNat).map fun (_i : Nat) => (j : ℚ) / ((lod : ℚ) - 1)

/-- State of the TRIANGLE index loop: `ncols`, `idxbase` and the indices emitted so far. -/
structure TriIndexState where
  ncols : Int
  idxbase : Int
  indices : List Int

/-- One row `i` of the TRIANGLE index loop, followed by `idxbase += ncols` and `--ncols`. -/
def triIndexRow (st : TriIndexState) : TriIndexState :=
  let row := (List.range (st.ncols - 1).toNat).flatMap fun (j : Nat) =>
    let idx0 : Int := st.idxbase + (j : Int)
    let idx1 := idx0 + st.ncols
    let idx2 := idx0 + 1
    let idx3 := idx1 + 1
    [idx0, idx1, idx2] ++ (if (j : Int) < st.ncols - 2 then [idx2, idx1, idx3] else [])
  { ncols := st.ncols - 1, idxbase := st.idxbase + st.ncols, indices := st.indices ++ row }

/-- Index loop of the TRIANGLE branch (`lod >= 1`) with `nrows = nedgeverts`. -/
def triangleIndices (nedgeverts : Int) : List Int :=
  ((List.range (nedgeverts - 1).toNat).foldl (fun st _i => triIndexRow st)
    { ncols := nedgeverts, idxbase := 0, indices := [] }).indices

/-- Coordinate loop of the TRIANGLE branch: the (u, v) pairs in increasing `index`. -/
def triangleUV (nedgeverts : Int) : List (ℚ × ℚ) :=
  (List.range nedgeverts.toNat).flatMap fun (i : Nat) =>
    let ncols : Int := nedgeverts - (i : Int)
    let s : ℚ := (i : ℚ) / (((nedgeverts - 1 : Int) : ℚ))
    (List.range ncols.toNat).map fun (j : Nat) =>
      let t : ℚ := if ncols = 1 then 0 else (j : ℚ) / (((ncols - 1 : Int) : ℚ))
      (s, t * (1 - s))

/-- Function `tessellate(domain, lod, patch)`: the patch after the call. -/
def tessellate (domain : DomainMode) (lod : Int) (patch : Patch) : Patch :=
  if domain = DomainMode.QUAD then
    if lod ≤ 1 then
      { indices := [0, 2, 1, 0, 3, 2], u := [0, 0, 1, 1], v := [0, 1, 1, 0] }
    else
      { indices := quadIndices lod, u := quadU lod, v := quadV lod }
  else if domain = DomainMode.TRIANGLE then
    if lod < 1 then
      { indices := [0, 1, 2], u := [0, 0, 1], v := [0, 1, 0] }
    else
      let nedgeverts := lod + 2
      { indices := triangleIndices nedgeverts,
        u := (triangleUV nedgeverts).map Prod.fst,
        v := (triangleUV nedgeverts).map Prod.snd }
  else patch

end uniform

end tess

/-! ## common/box.h -/

/-- Largest finite `float` (`std::numeric_limits<float>::max()`). -/
def fltMax : ℚ := 340282346638528859811704183484516925440

/-- Struct `box<T, n>`: `min` and `max` hold `n` values each. -/
structure Box where
  min : List ℚ
  max : List ℚ
deriving DecidableEq, Repr

namespace Box

/-- Default constructor `box()` for `n` axes: `min` filled with `tmax`, `max` with `tmin`. -/
def new (n : Nat) : Box := ⟨List.replicate n fltMax, List.replicate n (-fltMax)⟩

/-- Constructor `box(T const* values, int nvalues)` for `n` axes. -/
def ofValues (n : Nat) (values : List ℚ) : Box :=
  let npoints := values.length / n
  if npoints = 0 then new n
  else
    let point (i j : Nat) : ℚ := values.getD (i * n + j) 0
    let p0 := (List.range n).map (point 0)
    (List.range (npoints - 1)).foldl (fun (b : Box) k =>
        let i := k + 1
        { min := (List.range n).map (fun j => Min.min (b.min.getD j 0) (point i j)),
          max := (List.range n).map (fun j => Max.max (b.max.getD j 0) (point i j)) })
      ⟨p0, p0⟩

/-- Method `diagonal()`. -/
def diagonal (b : Box) : List ℚ := List.zipWith (fun hi lo => hi - lo) b.max b.min

end Box

/-- Function `getRelativeTolerance(box, scale)` of regressionTask.cpp (`n > 1` axes). -/
def getRelativeTolerance (box : Box) (scale : ℚ) : ℚ :=
  let diagonal := box.diagonal
  let m0 : ℚ := |diagonal.headD 0|
  let m := diagonal.tail.foldl (fun m d => max m |d|) m0
  max scale (m * scale)

/-! ## options.h, init_shapes.h -/

/-- Enum `Scheme` of the shape utilities. -/
inductive Scheme where
  | kBilinear
  | kCatmark
  | kLoop
deriving DecidableEq, Repr

/-- Struct `ShapeDesc`: name, OBJ text, scheme and handedness of one test shape. -/
structure ShapeDesc where
  name : String
  data : String := ""
  scheme : Scheme := Scheme.kCatmark
  isLeftHanded : Bool := false
deriving DecidableEq, Repr

/-- Enum `Options::FVarBoundary`. -/
inductive FVarBoundary where
  | kDefault
  | kOverride_LinearNone
  | kOverride_LinearCornersOnly
  | kOverride_LinearCornersPlus1
  | kOverride_LinearCornersPlus2
  | kOverride_LinearBoundaries
  | kOverride_LinearAll
deriving DecidableEq, Repr

/-- Enum `Options::MayaLog`. -/
inductive MayaLog where
  | kNever
  | kFailure
  | kAlways
deriving DecidableEq, Repr

/-- Struct `Options` (the members read by the regression core), with its default values. -/
structure Options where
  shapes : List ShapeDesc := []
  fvarBoundary : FVarBoundary := FVarBoundary.kOverride_LinearAll
  fullBatchTesting : Bool := false
  ignoreKnownFailures : Bool := false
  evaluateD1 : Bool := true
  evaluateD2 : Bool := false
  evaluateUV : Bool := true
  ignoreVtx : Bool := false
  multi_threaded : Bool := true
  printProgress : Bool := true
  printSummary : Bool := true
  isolationSharp : Nat := 6
  isolationSmooth : Nat := 2
  tessRate : Nat := 100
  tolerance : ℚ := 5 / 100000
  uvTolerance : ℚ := 2 / 1000
  mayaLog : MayaLog := MayaLog.kNever
  mayaLogPath : String := ""
deriving DecidableEq, Repr

/-! ## External collaborators (OpenSubdiv) -/

/-- Enum `Sdc::SchemeType` of the library. -/
inductive SchemeType where
  | SCHEME_BILINEAR
  | SCHEME_CATMARK
  | SCHEME_LOOP
deriving DecidableEq, Repr

/-- Library function `Sdc::SchemeTypeTraits::GetRegularFaceSize`. -/
def GetRegularFaceSize (scheme : SchemeType) : Nat :=
  match scheme with
  | SchemeType.SCHEME_BILINEAR => 4
  | SchemeType.SCHEME_CATMARK => 4
  | SchemeType.SCHEME_LOOP => 3

/-- One base face as the task reads it from the refiner: vertex count and hole tag. -/
structure BaseFace where
  size : Nat
  isHole : Bool := false
deriving DecidableEq, Repr

/-- The part of `Far::TopologyRefiner` read by the task: scheme type and level-0 faces. -/
structure Refiner where
  schemeType : SchemeType
  faces : List BaseFace
deriving DecidableEq, Repr

/-- The members of the parsed `Shape` that `createMesh` reads. -/
structure Shape where
  scheme : Scheme
  verts : List ℚ
  uvs : List ℚ
  faceuvs : List Int
  bbox : Box
deriving DecidableEq, Repr

/-- Method `Shape::GetNumVertices`. -/
def Shape.GetNumVertices (shape : Shape) : Nat := shape.verts.length / 3

/-- Method `Shape::GetNumUVs`. -/
def Shape.GetNumUVs (shape : Shape) : Nat := shape.uvs.length / 2

/-- Method `Shape::HasUV`. -/
def Shape.HasUV (shape : Shape) : Bool := !(shape.uvs.isEmpty || shape.faceuvs.isEmpty)

/-- Struct `RegressionTask::Mesh`. -/
structure Mesh where
  refiner : Refiner
  pos : List Vec3
  uvs : List Vec3
  name : String
  posbox : Box
  uvbox : Box
deriving DecidableEq, Repr

/-- Signature of `Evaluate(surfIndex, tessCoords, results)`: the results after the call. -/
abbrev Evaluator := Nat → tess.Patch → EvalResults → EvalResults

/-- The library calls the task depends on: OBJ parser, refiner factory, and the two limit
evaluators as built from the options and the mesh. -/
structure Env where
  parseObj : String → Scheme → Option Shape
  createRefiner : Shape → FVarBoundary → Option Refiner
  farEvaluate : Options → Mesh → Evaluator
  tmrEvaluate : Options → Mesh → Evaluator

/-! ## regressionTask.cpp -/

/-- Struct `TessCache`: full and half resolution patterns of both domains. -/
structure TessCache where
  patchQuad : tess.Patch := {}
  patchQuadHalf : tess.Patch := {}
  patchTri : tess.Patch := {}
  patchTriHalf : tess.Patch := {}
deriving DecidableEq, Repr

namespace TessCache

/-- Method `patches(domain)`: the pair (full resolution, half resolution). -/
def patches (self : TessCache) (domain : tess.DomainMode) : tess.Patch × tess.Patch :=
  if domain = tess.DomainMode.TRIANGLE then (self.patchTri, self.patchTriHalf)
  else (self.patchQuad, self.patchQuadHalf)

/-- Method `populate(uint8_t level)`; `none` when `assert((level & 0x1) == 1)` fails. -/
def populate (self : TessCache) (level : Nat) : Option TessCache :=
  if level &&& 1 ≠ 1 then none
  else
    some
      { patchQuad := tess.uniform.tessellate tess.DomainMode.QUAD (level : Int) self.patchQuad,
        patchQuadHalf :=
          tess.uniform.tessellate tess.DomainMode.QUAD ((level / 2 + 1 : Nat) : Int)
            self.patchQuadHalf,
        patchTri := tess.uniform.tessellate tess.DomainMode.TRIANGLE (level : Int) self.patchTri,
        patchTriHalf :=
          tess.uniform.tessellate tess.DomainMode.TRIANGLE ((level / 2 + 1 : Nat) : Int)
            self.patchTriHalf }

end TessCache

/-- Static method `RegressionTask::populateTessCache(uint8_t tessRate)` on the global cache. -/
def populateTessCache (cache : TessCache) (tessRate : Nat) : Option TessCache :=
  cache.populate (tessRate ||| 1)

/-- Method `RegressionTask::createMesh(shapeDesc)`; `none` is the `nullptr` result. -/
def createMesh (env : Env) (options : Options) (shapeDesc : ShapeDesc) : Option Mesh :=
  match env.parseObj shapeDesc.data shapeDesc.scheme with
  | none => none
  | some shape =>
    if shape.scheme ≠ Scheme.kCatmark ∧ shape.scheme ≠ Scheme.kLoop then none
    else if shape.uvs.isEmpty ≠ shape.faceuvs.isEmpty then none
    else
      let numVertices := shape.GetNumVertices
      if numVertices > 0 then
        let pos : List Vec3 := (List.range numVertices).map fun i =>
          ⟨shape.verts.getD (3 * i) 0, shape.verts.getD (3 * i + 1) 0,
           shape.verts.getD (3 * i + 2) 0⟩
        let uvs : List Vec3 :=
          if shape.HasUV then
            let offset : Vec3 := ⟨0, 0, shape.bbox.min.getD 2 0 * (5 / 4)⟩
            (List.range shape.GetNumUVs).map fun i =>
              offset + ⟨shape.uvs.getD (i * 2) 0, shape.uvs.getD (i * 2 + 1) 0, 0⟩
          else []
        match env.createRefiner shape options.fvarBoundary with
        | none => none
        | some refiner =>
          some
            { refiner := refiner, pos := pos, uvs := uvs, name := shapeDesc.name,
              posbox := shape.bbox, uvbox := Box.ofValues 2 shape.uvs }
      else none

/-- Class `RegressionTask`: the task description and its results. The `options` pointer
refers to the options of the owning batch, which are passed to `execute`. -/
structure RegressionTask where
  shapeDesc : ShapeDesc
  meshDelta : MeshDelta := {}
  isKnownFailure : Bool := false
deriving DecidableEq, Repr

/-- Local state of `RegressionTask::execute(bool)` during the loop over the faces.
`logFaceCalls` records the arguments of the `logger.LogFace` calls in order. -/
structure FaceLoopState where
  farResults : EvalResults
  tmrResults : EvalResults
  deltaVecs : FaceDeltaVectors
  faceDelta : FaceDelta
  meshDelta : MeshDelta
  logFaceCalls : List (Nat × FaceDeltaVectors) := []

/-- The position comparison of the lambda `evaluate`: `deltaVecs.pDelta.Compare(...)`. -/
def compareP (farResults tmrResults : EvalResults) (d : FaceDeltaVectors) :
    Option FaceDeltaVectors :=
  (d.pDelta.Compare farResults.p tmrResults.p).bind fun pDelta =>
    some { d with pDelta := pDelta }

/-- The block `if (options->evaluateD1) { duDelta.Compare(...); dvDelta.Compare(...); }`. -/
def compareD1 (options : Options) (farResults tmrResults : EvalResults) (d : FaceDeltaVectors) :
    Option FaceDeltaVectors :=
  if options.evaluateD1 then
    (d.duDelta.Compare farResults.du tmrResults.du).bind fun duDelta =>
      (d.dvDelta.Compare farResults.dv tmrResults.dv).bind fun dvDelta =>
        some { d with duDelta := duDelta, dvDelta := dvDelta }
  else some d

/-- The block `if (options->evaluateD2) { duuDelta / duvDelta / dvvDelta .Compare(...); }`. -/
def compareD2 (options : Options) (farResults tmrResults : EvalResults) (d : FaceDeltaVectors) :
    Option FaceDeltaVectors :=
  if options.evaluateD2 then
    (d.duuDelta.Compare farResults.duu tmrResults.duu).bind fun duuDelta =>
      (d.duvDelta.Compare farResults.duv tmrResults.duv).bind fun duvDelta =>
        (d.dvvDelta.Compare farResults.dvv tmrResults.dvv).bind fun dvvDelta =>
          some { d with duuDelta := duuDelta, duvDelta := duvDelta, dvvDelta := dvvDelta }
  else some d

/-- The statement `if (options->evaluateUV) deltaVecs.uvDelta.Compare(...)`. -/
def compareUV (options : Options) (farResults tmrResults : EvalResults) (d : FaceDeltaVectors) :
    Option FaceDeltaVectors :=
  if options.evaluateUV then
    (d.uvDelta.Compare farResults.uv tmrResults.uv).bind fun uvDelta =>
      some { d with uvDelta := uvDelta }
  else some d

/-- The lambda `evaluate(surfIndex, tessCoords)` of `RegressionTask::execute(bool)`: both
evaluators, the comparisons in source order, then `AddDeltaVectors`, `AddFace`, `LogFace`. -/
def evaluate (options : Options) (farEval tmrEval : Evaluator) (st : FaceLoopState)
    (surfIndex : Nat) (tessCoords : tess.Patch) : Option FaceLoopState :=
  let farResults := farEval surfIndex tessCoords st.farResults
  let tmrResults := tmrEval surfIndex tessCoords st.tmrResults
  match (((compareP farResults tmrResults st.deltaVecs).bind
      (compareD1 options farResults tmrResults)).bind
      (compareD2 options farResults tmrResults)).bind
      (compareUV options farResults tmrResults) with
  | none => none
  | some deltaVecs =>
    let faceDelta := st.faceDelta.AddDeltaVectors deltaVecs
    let meshDelta := st.meshDelta.AddFace faceDelta
    some
      { farResults := farResults, tmrResults := tmrResults, deltaVecs := deltaVecs,
        faceDelta := faceDelta, meshDelta := meshDelta,
        logFaceCalls := st.logFaceCalls ++ [(surfIndex, deltaVecs)] }

/-- Inner loop `for (i = 0; i < faceSize; ++i) evaluate(surfIndex + i, patchHalf)`. -/
def evaluateCorners (options : Options) (farEval tmrEval : Evaluator) (patchHalf : tess.Patch)
    (surfIndex : Nat) (faceSize : Nat) (st : FaceLoopState) : Option FaceLoopState :=
  (List.range faceSize).foldlM
    (fun s i => evaluate options farEval tmrEval s (surfIndex + i) patchHalf) st

/-- The loop over the base faces of `RegressionTask::execute(bool)`, from the face list that
remains and the running `surfIndex`. -/
def processFaces (options : Options) (farEval tmrEval : Evaluator) (regFaceSize : Nat)
    (patch patchHalf : tess.Patch) :
    List BaseFace → Nat → FaceLoopState → Option FaceLoopState
  | [], _, st => some st
  | face :: rest, surfIndex, st =>
    let faceSize := face.size
    let isRegular := decide (faceSize = regFaceSize)
    let visited : Option FaceLoopState :=
      if !face.isHole then
        if isRegular then evaluate options farEval tmrEval st surfIndex patch
        else evaluateCorners options farEval tmrEval patchHalf surfIndex faceSize st
      else some st
    match visited with
    | none => none
    | some st1 =>
      processFaces options farEval tmrEval regFaceSize patch patchHalf rest
        (surfIndex + (if isRegular then 1 else faceSize)) st1

/-- Result of one run of a task: returned status, updated task, and the `LogFace` calls. -/
structure ExecResult where
  status : Bool
  task : RegressionTask
  logFaceCalls : List (Nat × FaceDeltaVectors) := []

/-- The locals of `RegressionTask::execute(bool)` as they stand before the face loop: the
result flags, the tolerances of `deltaVecs`, a cleared `faceDelta`, the task's `meshDelta`. -/
def initialLoopState (options : Options) (mesh : Mesh) (meshDelta : MeshDelta) :
    FaceLoopState :=
  let r0 : EvalResults := {}
  let r1 : EvalResults :=
    if !options.ignoreVtx then
      { r0 with evalP := true, eval1stDeriv := options.evaluateD1,
                eval2ndDeriv := options.evaluateD2 }
    else r0
  let r2 : EvalResults := { r1 with evalUV := options.evaluateUV && !mesh.uvs.isEmpty }
  let pTol := getRelativeTolerance mesh.posbox options.tolerance
  let uvTol := getRelativeTolerance mesh.uvbox options.uvTolerance
  { farResults := r2, tmrResults := r2, deltaVecs := FaceDeltaVectors.new pTol uvTol,
    faceDelta := {}, meshDelta := meshDelta }

/-- The face loop of `RegressionTask::execute(bool)` on a created mesh: regular face size,
domain and cached patches are taken from the refiner's scheme, both evaluators are built
from the options and the mesh, and the loop starts at `surfIndex = 0`. -/
def processMesh (env : Env) (cache : TessCache) (options : Options) (mesh : Mesh)
    (st : FaceLoopState) : Option FaceLoopState :=
  let refiner := mesh.refiner
  let scheme := refiner.schemeType
  let regFaceSize := GetRegularFaceSize scheme
  let domain :=
    if scheme = SchemeType.SCHEME_CATMARK then tess.DomainMode.QUAD
    else tess.DomainMode.TRIANGLE
  let patches := cache.patches domain
  let farEval := env.farEvaluate options mesh
  let tmrEval := env.tmrEvaluate options mesh
  processFaces options farEval tmrEval regFaceSize patches.1 patches.2 refiner.faces 0 st

/-- Method `RegressionTask::execute(bool logMaya)`; `none` when an assertion fails. -/
def RegressionTask.executeLog (env : Env) (cache : TessCache) (options : Options)
    (task : RegressionTask) (_logMaya : Bool) : Option ExecResult :=
  match createMesh env options task.shapeDesc with
  | none => some { status := false, task := task }
  | some mesh =>
    match processMesh env cache options mesh (initialLoopState options mesh task.meshDelta) with
    | none => none
    | some st =>
      some { status := true, task := { task with meshDelta := st.meshDelta },
             logFaceCalls := st.logFaceCalls }

/-- Method `RegressionTask::execute()`: dispatch on `options->mayaLog`. -/
def RegressionTask.execute (env : Env) (cache : TessCache) (options : Options)
    (task : RegressionTask) : Option ExecResult :=
  match options.mayaLog with
  | MayaLog.kAlways => task.executeLog env cache options true
  | MayaLog.kNever => task.executeLog env cache options false
  | MayaLog.kFailure =>
    match task.executeLog env cache options false with
    | none => none
    | some first =>
      if first.task.meshDelta.numFacesWithDeltas > 0 then
        match ({ first.task with meshDelta := {} } : RegressionTask).executeLog env cache
            options true with
        | none => none
        | some second =>
          some { status := first.status && second.status, task := second.task,
                 logFaceCalls := first.logFaceCalls ++ second.logFaceCalls }
      else some first

/-! ## regression.cpp -/

/-- The file-scope counters `_numTasks`, `_pass`, `_fail`, `_knownFail`, `_completed`. -/
structure Globals where
  _numTasks : Int := 0
  _pass : Int := 0
  _fail : Int := 0
  _knownFail : Int := 0
  _completed : Int := 0
deriving DecidableEq, Repr

/-- Table `_skipSet`. -/
def _skipSet : List String :=
  ["catmark_car", "catmark_bishop", "catmark_pawn", "catmark_rook"]

/-- Table `_knownFailures`. -/
def _knownFailures : List String :=
  ["catmark_chaikin1", "catmark_lefthanded", "catmark_righthanded", "loop_chaikin1"]

/-- The zero-terminated character sequence that `c_str()` / `data()` of a string points to:
the characters before the first NUL, followed by the terminator. A `char` of the program
is represented by a character of `String`. -/
def cstrz (s : String) : List Char :=
  s.toList.takeWhile (fun c => c != Char.ofNat 0) ++ [Char.ofNat 0]

/-- Test `std::strcmp(a, b) == 0`. -/
def strcmpEq (a b : String) : Bool := cstrz a == cstrz b

/-- Test `std::strncmp(a, b, n) == 0`. -/
def strncmpEq (a b : String) (n : Nat) : Bool := (cstrz a).take n == (cstrz b).take n

/-- Function `isKnownFailure(shape)`. -/
def isKnownFailure (shape : ShapeDesc) : Bool :=
  _knownFailures.any fun name => strcmpEq shape.name name

/-- Struct `TasksBatch`. -/
structure TasksBatch where
  name : String := "Quick tests"
  options : Options := {}
  tasks : List RegressionTask := []
  pass : Int := 0
  knownFail : Int := 0
  fail : Int := 0
deriving DecidableEq, Repr

namespace TasksBatch

/-- Method `initialize(opts)`: one task per shape that is not in the skip set. -/
def initTasks (self : TasksBatch) (opts : Options) : TasksBatch :=
  let options := opts
  let skipSet := _skipSet
  let tasks := options.shapes.foldl (fun (tasks : List RegressionTask) shape =>
    if skipSet.any (fun skipname => strncmpEq shape.name skipname shape.name.length) then tasks
    else
      let knownFailure := options.ignoreKnownFailures && isKnownFailure shape
      tasks ++ [{ shapeDesc := shape, isKnownFailure := knownFailure }]) self.tasks
  { self with options := options, tasks := tasks }

/-- The lambda `executeTask(task)` of `execute`: runs the task and bumps the counters. -/
def executeTask (env : Env) (cache : TessCache) (g : Globals) (self : TasksBatch)
    (task : RegressionTask) : Option (Globals × TasksBatch × RegressionTask) :=
  match task.execute env cache self.options with
  | none => none
  | some r =>
    let task1 := r.task
    let (g1, b1) : Globals × TasksBatch :=
      if r.status && decide (task1.meshDelta.numFacesWithDeltas = 0) then
        ({ g with _pass := g._pass + 1 }, { self with pass := self.pass + 1 })
      else if task1.meshDelta.numFacesWithDeltas > 0 then
        if task1.isKnownFailure then
          ({ g with _knownFail := g._knownFail + 1 }, { self with knownFail := self.knownFail + 1 })
        else
          ({ g with _fail := g._fail + 1 }, { self with fail := self.fail + 1 })
      else (g, self)
    some ({ g1 with _completed := g1._completed + 1 }, b1, task1)

/-- The loop `for (auto& task : tasks) executeTask(task)` over the tasks that remain; the
executed tasks are collected in `done`. The parallel `std::for_each` runs the same lambda
on every task and is represented by this sequential order. -/
def executeLoop (env : Env) (cache : TessCache) :
    List RegressionTask → Globals → TasksBatch → List RegressionTask →
      Option (Globals × TasksBatch × List RegressionTask)
  | [], g, b, done => some (g, b, done)
  | task :: rest, g, b, done =>
    match executeTask env cache g b task with
    | none => none
    | some (g1, b1, task1) => executeLoop env cache rest g1 b1 (done ++ [task1])

/-- Method `execute()`: run all tasks, then sort them by `numFacesWithDeltas`. -/
def execute (env : Env) (cache : TessCache) (g : Globals) (self : TasksBatch) :
    Option (Globals × TasksBatch) :=
  match executeLoop env cache self.tasks g self [] with
  | none => none
  | some (g1, b1, done) =>
    let sorted := done.mergeSort fun a b =>
      decide (a.meshDelta.numFacesWithDeltas ≤ b.meshDelta.numFacesWithDeltas)
    some (g1, { b1 with tasks := sorted })

end TasksBatch

/-- Function `createBatchVertex`. -/
def createBatchVertex (opts : Options) : TasksBatch :=
  let batch := ({} : TasksBatch).initTasks opts
  { batch with
    name := "vertex interpolation",
    options := { batch.options with evaluateUV := false,
                                    mayaLogPath := batch.options.mayaLogPath ++ "/vtx_default" } }

/-- Function `createBatchFVarLinearAll`. -/
def createBatchFVarLinearAll (opts : Options) : TasksBatch :=
  let batch := ({} : TasksBatch).initTasks opts
  { batch with
    name := "face-varying (bi-linear interpolation)",
    options := { batch.options with ignoreVtx := true,
                                    fvarBoundary := FVarBoundary.kOverride_LinearAll,
                                    mayaLogPath := batch.options.mayaLogPath ++ "/fvar_linear_all" } }

/-- Common body of the five `createBatchFVarLinear*` functions that also set
`isolationSmooth = opts.isolationSharp`; they differ in name, boundary mode and log folder. -/
def createBatchFVarSharp (opts : Options) (name : String) (fvarBoundary : FVarBoundary)
    (dir : String) : TasksBatch :=
  let batch := ({} : TasksBatch).initTasks opts
  { batch with
    name := name,
    options := { batch.options with ignoreVtx := true,
                                    fvarBoundary := fvarBoundary,
                                    isolationSmooth := opts.isolationSharp,
                                    mayaLogPath := batch.options.mayaLogPath ++ "/" ++ dir } }

/-- Function `createBatchFVarLinearNone`. -/
def createBatchFVarLinearNone (opts : Options) : TasksBatch :=
  createBatchFVarSharp opts "face-varying (linear edge-only interpolation)"
    FVarBoundary.kOverride_LinearNone "fvar_linear_none"

/-- Function `createBatchFVarLinearCornersOnly`. -/
def createBatchFVarLinearCornersOnly (opts : Options) : TasksBatch :=
  createBatchFVarSharp opts "face-varying (linear corners-only interpolation)"
    FVarBoundary.kOverride_LinearCornersOnly "fvar_linear_corners_only"

/-- Function `createBatchFVarLinearCornersPlus1`. -/
def createBatchFVarLinearCornersPlus1 (opts : Options) : TasksBatch :=
  createBatchFVarSharp opts "face-varying (linear corners-plus1 interpolation)"
    FVarBoundary.kOverride_LinearCornersPlus1 "fvar_linear_corners_plus1"

/-- Function `createBatchFVarLinearCornersPlus2`. -/
def createBatchFVarLinearCornersPlus2 (opts : Options) : TasksBatch :=
  createBatchFVarSharp opts "face-varying (linear corners-plus2 interpolation)"
    FVarBoundary.kOverride_LinearCornersPlus2 "fvar_linear_corners_plus2"

/-- Function `createBatchFVarLinearBoundaries`. -/
def createBatchFVarLinearBoundaries (opts : Options) : TasksBatch :=
  createBatchFVarSharp opts "face-varying (linear boundaries interpolation)"
    FVarBoundary.kOverride_LinearBoundaries "fvar_linear_boundaries"

/-- The array `batches` of `runStandardBatches`, in source order. -/
def standardBatches (options : Options) : List TasksBatch :=
  [ createBatchVertex options,
    createBatchFVarLinearAll options,
    createBatchFVarLinearNone options,
    createBatchFVarLinearCornersOnly options,
    createBatchFVarLinearCornersPlus1 options,
    createBatchFVarLinearCornersPlus2 options,
    createBatchFVarLinearBoundaries options ]

/-- Conversion of an `int` to `uint32_t`. -/
def toUint32 (x : Int) : Nat := (x % 4294967296).toNat

/-- The loop `for (auto& batch : batches) executeBatch(batch)` of `runStandardBatches`. -/
def executeBatches (env : Env) (cache : TessCache) :
    List TasksBatch → Globals → List TasksBatch → Option (Globals × List TasksBatch)
  | [], g, done => some (g, done)
  | batch :: rest, g, done =>
    match batch.execute env cache g with
    | none => none
    | some (g1, batch1) => executeBatches env cache rest g1 (done ++ [batch1])

/-- Function `runStandardBatches(options)`: the returned `uint32_t failures`, with the
executed batches and the file-scope counters. -/
def runStandardBatches (env : Env) (cache : TessCache) (g : Globals) (options : Options) :
    Option (Globals × List TasksBatch × Nat) :=
  let batches := standardBatches options
  let g0 : Globals :=
    batches.foldl (fun g batch => { g with _numTasks := g._numTasks + batch.tasks.length }) g
  match executeBatches env cache batches g0 [] with
  | none => none
  | some (g1, done) =>
    let failures : Nat :=
      done.foldl (fun failures batch => (failures + toUint32 batch.fail) % 4294967296) 0
    some (g1, done, failures)

/-- Function `runSingleBatch(options)`: the returned `uint32_t`, with the executed batch. -/
def runSingleBatch (env : Env) (cache : TessCache) (g : Globals) (options : Options) :
    Option (Globals × TasksBatch × Nat) :=
  let tests := ({} : TasksBatch).initTasks options
  let g0 : Globals := { g with _numTasks := tests.tasks.length }
  match tests.execute env cache g0 with
  | none => none
  | some (g1, tests1) => some (g1, tests1, toUint32 tests1.fail)

/-- Exit codes `EXIT_SUCCESS` and `EXIT_FAILURE`. -/
def EXIT_SUCCESS : Int := 0

/-- Exit code `EXIT_FAILURE`. -/
def EXIT_FAILURE : Int := 1

/-- Function `main`, from the outcome of `options.initialize(argc, argv)`: `none` when it
threw `std::invalid_argument`. The result is the exit status and `failureCount`. -/
def main (env : Env) (parsed : Option Options) : Option (Int × Nat) :=
  match parsed with
  | none => some (0, 0)
  | some options =>
    match populateTessCache {} (tess.toUint8 options.tessRate) with
    | none => none
    | some cache =>
      let run : Option Nat :=
        if options.fullBatchTesting then
          (runStandardBatches env cache {} options).map fun r => r.2.2
        else (runSingleBatch env cache {} options).map fun r => r.2.2
      match run with
      | none => none
      | some failureCount =>
        some (if failureCount > 0 then EXIT_FAILURE else EXIT_SUCCESS, failureCount)

/-! ## Specification vocabulary

Definitions that follow the wording of the specification; the theorems below compare
them with the embedded code. -/

namespace Spec

/-- A sample pair is tolerance-exceeding when at least one of its three component-wise
absolute differences is strictly greater than the tolerance. -/
def exceeds (tol : ℚ) (x y : Vec3) : Prop :=
  tol < |x.p0 - y.p0| ∨ tol < |x.p1 - y.p1| ∨ tol < |x.p2 - y.p2|

instance (tol : ℚ) (x y : Vec3) : Decidable (exceeds tol x y) := by
  unfold exceeds
  infer_instance

/-- The indices `i < len a` whose sample pair `(a[i], b[i])` is tolerance-exceeding. -/
def exceedingIndices (tol : ℚ) (a b : List Vec3) : List Nat :=
  (List.range a.length).filter fun i =>
    decide (exceeds tol (a.getD i Vec3.zero) (b.getD i Vec3.zero))

/-- The maximum single-component absolute deviation over all samples, exceeding or not
(0 for empty sequences). -/
def maxDeviation (a b : List Vec3) : ℚ :=
  (List.zipWith VectorDelta.absDiff a b).foldl
    (fun m d => max (max (max m d.p0) d.p1) d.p2) 0

/-- Number of evaluated surfaces of a face list: one per regular face with a limit, one per
corner of an irregular face with a limit, none for a hole. -/
def numSurfacesWithLimit (regFaceSize : Nat) (faces : List BaseFace) : Nat :=
  ((faces.filter fun f => !f.isHole).map fun f =>
    if f.size = regFaceSize then 1 else f.size).sum

/-- Number of base faces that have a limit surface (the faces that are not holes). -/
def numFacesWithLimit (faces : List BaseFace) : Nat :=
  (faces.filter fun f => !f.isHole).length

/-- At least one of the seven comparisons of an evaluated surface reported a sample over
tolerance. -/
def anyDelta (d : FaceDeltaVectors) : Bool :=
  decide (d.pDelta.numDeltas ≠ 0) || decide (d.duDelta.numDeltas ≠ 0)
    || decide (d.dvDelta.numDeltas ≠ 0) || decide (d.duuDelta.numDeltas ≠ 0)
    || decide (d.duvDelta.numDeltas ≠ 0) || decide (d.dvvDelta.numDeltas ≠ 0)
    || decide (d.uvDelta.numDeltas ≠ 0)

/-- The tasks of an executed batch whose outcome is `fail`: a delta was found and the task
is not flagged as a known failure. -/
def failedTasks (tasks : List RegressionTask) : List RegressionTask :=
  tasks.filter fun t => decide (t.meshDelta.numFacesWithDeltas > 0) && !t.isKnownFailure

end Spec

/-! ## Concrete inputs used by the counterexamples and witnesses -/

namespace Examples

/-- A parsed Catmark shape with five vertices, no UVs and a unit bounding box. -/
def shape : Shape :=
  { scheme := Scheme.kCatmark,
    verts := [0, 0, 0, 1, 0, 0, 1, 1, 0, 0, 1, 0, 0, 0, 1], uvs := [], faceuvs := [],
    bbox := ⟨[0, 0, 0], [1, 1, 1]⟩ }

/-- Evaluator returning the position `(x, 0, 0)` at every sample of the patch: one result
per patch vertex, in the same order, for every surface. -/
def constEvaluator (x : ℚ) : Evaluator := fun _ tessCoords r =>
  { r with p := List.replicate tessCoords.u.length ⟨x, 0, 0⟩ }

/-- The tessellation cache as `populateTessCache` fills it for tessellation rate 1. -/
def cache : TessCache :=
  { patchQuad := tess.uniform.tessellate tess.DomainMode.QUAD 1 {},
    patchQuadHalf := tess.uniform.tessellate tess.DomainMode.QUAD 1 {},
    patchTri := tess.uniform.tessellate tess.DomainMode.TRIANGLE 1 {},
    patchTriHalf := tess.uniform.tessellate tess.DomainMode.TRIANGLE 1 {} }

/-- Library stand-in: every OBJ parses to `shape`, the refiner has the given base faces,
the Far evaluator returns `(0,0,0)` and the Tmr evaluator returns `(x,0,0)`. -/
def env (faces : List BaseFace) (x : ℚ) : Env :=
  { parseObj := fun _ _ => some shape,
    createRefiner := fun _ _ =>
      some { schemeType := SchemeType.SCHEME_CATMARK, faces := faces },
    farEvaluate := fun _ _ => constEvaluator 0,
    tmrEvaluate := fun _ _ => constEvaluator x }

/-- Library stand-in whose OBJ parser rejects every shape. -/
def brokenEnv : Env :=
  { parseObj := fun _ _ => none,
    createRefiner := fun _ _ => none,
    farEvaluate := fun _ _ => constEvaluator 0,
    tmrEvaluate := fun _ _ => constEvaluator 0 }

/-- Options comparing positions only, with absolute tolerance 1/2 and tessellation rate 1. -/
def positionOnly : Options :=
  { evaluateD1 := false, evaluateD2 := false, evaluateUV := false, tessRate := 1,
    tolerance := 1 / 2, uvTolerance := 1 / 2 }

/-- Options that compare positions only, under absolute tolerance 1/2, and never log. -/
def IsPositionOnly (o : Options) : Prop :=
  o.evaluateD1 = false ∧ o.evaluateD2 = false ∧ o.evaluateUV = false ∧ o.tolerance = 1 / 2 ∧
    o.mayaLog = MayaLog.kNever

/-- The `positionOnly` options with the single shape `name` to test. -/
def singleShape (name : String) : Options :=
  { positionOnly with shapes := [{ name := name }] }

/-- A fresh task for a shape named `name`. -/
def task (name : String) : RegressionTask := { shapeDesc := { name := name } }

/-- A mesh with a single pentagon that has a limit surface. -/
def pentagon : List BaseFace := [{ size := 5 }]

/-- The mesh that `createMesh` builds from `shape` for the stand-in `env faces x`. -/
def mesh (faces : List BaseFace) (name : String) : Mesh :=
  { refiner := { schemeType := SchemeType.SCHEME_CATMARK, faces := faces },
    pos := [⟨0, 0, 0⟩, ⟨1, 0, 0⟩, ⟨1, 1, 0⟩, ⟨0, 1, 0⟩, ⟨0, 0, 1⟩], uvs := [], name := name,
    posbox := ⟨[0, 0, 0], [1, 1, 1]⟩, uvbox := Box.new 2 }

end Examples

/-! ## Invariants used in the proofs -/

/-- A comparison slot that reports no delta and holds a non-negative tolerance. -/
def VectorDelta.Quiet (d : VectorDelta) : Prop :=
  d.numDeltas = 0 ∧ d.maxDelta = 0 ∧ 0 ≤ d.tolerance

/-- All seven comparison slots are quiet. -/
def FaceDeltaVectors.Quiet (d : FaceDeltaVectors) : Prop :=
  d.pDelta.Quiet ∧ d.duDelta.Quiet ∧ d.dvDelta.Quiet ∧ d.duuDelta.Quiet ∧ d.duvDelta.Quiet ∧
    d.dvvDelta.Quiet ∧ d.uvDelta.Quiet

/-- Loop state of a run in which both evaluators have agreed so far: equal result buffers,
quiet comparison slots and an all-zero mesh summary. -/
def FaceLoopState.Agreeing (st : FaceLoopState) : Prop :=
  st.farResults = st.tmrResults ∧ st.deltaVecs.Quiet ∧ st.meshDelta = {}

/-! ## Specification vocabulary for offsets and tessellation patterns -/

namespace Spec

/-- Largest absolute component of a fixed offset: `max_k |delta[k]|`. -/
def offsetMagnitude (delta : Vec3) : ℚ := max (max |delta.p0| |delta.p1|) |delta.p2|

/-- The sequence `B[i] = A[i] + delta`. -/
def offsetBy (delta : Vec3) (a : List Vec3) : List Vec3 := a.map fun x => x + delta

/-- The triangles of a flat index list: its consecutive triples, in order. -/
def triples : List Int → List (Int × Int × Int)
  | a :: b :: c :: rest => (a, b, c) :: triples rest
  | _ => []

/-- The triangles of a patch. -/
def triangles (p : tess.Patch) : List (Int × Int × Int) := triples p.indices

/-- The `(u, v)` coordinate of the vertex with index `k`. -/
def point (p : tess.Patch) (k : Int) : ℚ × ℚ := (p.u.getD k.toNat 0, p.v.getD k.toNat 0)

/-- Signed area form `(u1-u0)*(v2-v0) - (u2-u0)*(v1-v0)` of a triangle in the `(u, v)`
plane (twice the signed area). -/
def orientation (p : tess.Patch) (t : Int × Int × Int) : ℚ :=
  ((point p t.2.1).1 - (point p t.1).1) * ((point p t.2.2).2 - (point p t.1).2)
    - ((point p t.2.2).1 - (point p t.1).1) * ((point p t.2.1).2 - (point p t.1).2)

/-- Absolute area of a triangle of a patch. -/
def area (p : tess.Patch) (t : Int × Int × Int) : ℚ := |orientation p t| / 2

/-- Sum of the absolute areas of the triangles of a patch. -/
def totalArea (p : tess.Patch) : ℚ := ((triangles p).map (area p)).sum

/-- The two triangles of the grid cell of the QUAD pattern whose lower corner is the
vertex `idx0 = j*lod + i`. -/
def quadCell (lod : Int) (i j : Nat) : List (Int × Int × Int) :=
  let idx0 : Int := (j : Int) * lod + (i : Int)
  [(idx0, idx0 + lod + 1, idx0 + lod), (idx0, idx0 + 1, idx0 + lod + 1)]

/-- Index of the first vertex of row `i` of the TRIANGLE pattern, row `k` holding `n - k`
consecutive vertices. -/
def rowStart (n : Nat) : Nat → Nat
  | 0 => 0
  | i + 1 => rowStart n i + (n - i)

/-- The triangles of the cell at row `i`, column `j` of the TRIANGLE pattern with `n` rows:
the upward triangle and, except at the last column `j = n - i - 2`, the downward one. -/
def triangleCell (n i j : Nat) : List (Int × Int × Int) :=
  let ncols : Int := (n : Int) - (i : Int)
  let idx0 : Int := (rowStart n i : Int) + (j : Int)
  (idx0, idx0 + ncols, idx0 + 1) ::
    (if i + j + 2 < n then [(idx0 + 1, idx0 + ncols, idx0 + ncols + 1)] else [])

end Spec

namespace Spec

/-- A well-formed index list: its length is a multiple of 3, every index refers to a vertex
of the patch, every vertex index occurs in the list, and no triangle holds the same vertex
index twice. -/
def WellFormed (p : tess.Patch) : Prop :=
  p.indices.length % 3 = 0 ∧
  (∀ k ∈ p.indices, 0 ≤ k ∧ k < (p.u.length : Int)) ∧
  (∀ k : Nat, k < p.u.length → (k : Int) ∈ p.indices) ∧
  (∀ t ∈ triangles p, t.1 ≠ t.2.1 ∧ t.1 ≠ t.2.2 ∧ t.2.1 ≠ t.2.2)

instance (p : tess.Patch) : Decidable (WellFormed p) := by
  unfold WellFormed
  infer_instance

/-- A single consistent winding: every triangle of the patch has a non-zero signed area
form, and any two triangles of the patch have it of the same sign. -/
def ConsistentWinding (p : tess.Patch) : Prop :=
  (∀ t ∈ triangles p, orientation p t ≠ 0) ∧
  (∀ t ∈ triangles p, ∀ s ∈ triangles p, (0 < orientation p t ↔ 0 < orientation p s))

instance (p : tess.Patch) : Decidable (ConsistentWinding p) := by
  unfold ConsistentWinding
  infer_instance

end Spec

/-! ## Closed forms used in the proofs -/

/-- The indices that row `i` of the TRIANGLE index loop emits, written with the closed
forms `ncols = n - i` and `idxbase = Spec.rowStart n i` of the loop variables. -/
def tess.uniform.triangleRow (n i : Nat) : List Int :=
  (List.range (n - 1 - i)).flatMap fun (j : Nat) =>
    let ncols : Int := (n : Int) - (i : Int)
    let idx0 : Int := (Spec.rowStart n i : Int) + (j : Int)
    [idx0, idx0 + ncols, idx0 + 1] ++
      (if i + j + 2 < n then [idx0 + 1, idx0 + ncols, idx0 + ncols + 1] else [])

/-! ## Specification vocabulary for face and mesh summaries -/

namespace Spec

/-- The maximum of a category of comparisons: the largest `maxDelta` among the members of
the category that have a non-zero count, and 0 when there is none. -/
def categoryMax (members : List VectorDelta) : ℚ :=
  match (members.filter fun m => decide (m.numDeltas ≠ 0)).map fun m => m.maxDelta with
  | [] => 0
  | x :: xs => xs.foldl max x

/-- No counter and no maximum of `b` is below the one of `a`. -/
def meshLe (a b : MeshDelta) : Prop :=
  a.numFacesWithDeltas ≤ b.numFacesWithDeltas ∧
  a.numFacesWithGeomDeltas ≤ b.numFacesWithGeomDeltas ∧
  a.numFacesWithUVDeltas ≤ b.numFacesWithUVDeltas ∧
  a.numFacesWithPDeltas ≤ b.numFacesWithPDeltas ∧
  a.numFacesWithD1Deltas ≤ b.numFacesWithD1Deltas ∧
  a.numFacesWithD2Deltas ≤ b.numFacesWithD2Deltas ∧
  a.maxPDelta ≤ b.maxPDelta ∧ a.maxD1Delta ≤ b.maxD1Delta ∧
  a.maxD2Delta ≤ b.maxD2Delta ∧ a.maxUVDelta ≤ b.maxUVDelta

instance (a b : MeshDelta) : Decidable (meshLe a b) := by
  unfold meshLe
  infer_instance

/-- Number of surface indices that a list of faces takes up: 1 for a regular face, the
face size for an irregular one, holes included. -/
def surfaceBase (regFaceSize : Nat) (faces : List BaseFace) : Nat :=
  (faces.map fun g => if g.size = regFaceSize then 1 else g.size).sum

/-- Largest extent of a box: the maximum over its axes `i` of `|max[i] - min[i]|`, stated by
its two defining properties. -/
def IsMaxExtent (box : Box) (m : ℚ) : Prop :=
  (∀ i, i < box.min.length → |box.max.getD i 0 - box.min.getD i 0| ≤ m) ∧
  (∃ i, i < box.min.length ∧ m = |box.max.getD i 0 - box.min.getD i 0|)

instance (box : Box) (m : ℚ) : Decidable (IsMaxExtent box m) := by
  unfold IsMaxExtent
  infer_instance

end Spec

namespace Examples

/-- A face summary with two position deltas, the largest being 3. -/
def faceP : FaceDelta :=
  { hasDeltas := true, hasGeomDeltas := true, numPDeltas := 2, maxPDelta := 3 }

/-- A face summary with one UV delta of 1/2. -/
def faceUV : FaceDelta :=
  { hasDeltas := true, hasUVDeltas := true, numUVDeltas := 1, maxUVDelta := 1 / 2 }

/-- A face summary without deltas. -/
def faceNone : FaceDelta := {}

end Examples

namespace Examples

/-- Seven comparisons of which only `du` has a count, with a negative `maxDelta`. -/
def negativeMaxVectors : FaceDeltaVectors :=
  { duDelta := { numDeltas := 1, maxDelta := -1 } }

/-- Seven comparisons as `Compare` leaves them: `p` with 2 deltas up to 3, `dv` with 1 delta
of 4, `duu` with 1 delta of 1/2, the other counts 0. -/
def someVectors : FaceDeltaVectors :=
  { pDelta := { numDeltas := 2, maxDelta := 3 },
    dvDelta := { numDeltas := 1, maxDelta := 4 },
    duuDelta := { numDeltas := 1, maxDelta := 1 / 2 } }

end Examples

namespace Examples

/-- A regular face of a Catmull-Clark mesh. -/
def quadFace : BaseFace := { size := 4 }

/-- A pentagon without a limit surface. -/
def holeFace : BaseFace := { size := 5, isHole := true }

/-- The loop state in which `execute(bool)` starts on the mesh `quad, hole, quad` for a
fresh task under the `positionOnly` options. -/
def holeLoopState : FaceLoopState :=
  initialLoopState positionOnly (mesh [quadFace, holeFace, quadFace] "quads") {}

end Examples

/-! ## init_shapes.cpp, regressionTask.cpp : countSurfaces -/

/-- Function `countSurfaces(refiner)` of regressionTask.cpp. -/
def countSurfaces (refiner : Refiner) : Nat :=
  let regFaceSize := GetRegularFaceSize refiner.schemeType
  refiner.faces.foldl (fun surfCount face =>
    let faceSize := face.size
    surfCount + (if faceSize = regFaceSize then 1 else faceSize)) 0

/-- One initialiser `{ "name", name.c_str(), scheme, isLeftHanded }` of the table `_shapes`.
The OBJ texts (`catmark_cube.c_str()`, ...) come from `shapes/all.h`, which is outside the
sources; they are taken as the parameter `objData`, indexed by the name of the string
constant. The entries of the Loop part leave `isLeftHanded` at its default `false`. -/
def shapeEntry (objData : String → String) (name : String) (scheme : Scheme)
    (isLeftHanded : Bool) : ShapeDesc :=
  { name := name, data := objData name, scheme := scheme, isLeftHanded := isLeftHanded }

/-- Table `_shapes`, in source order. -/
def _shapes (objData : String → String) : List ShapeDesc :=
  [shapeEntry objData "catmark_cube" Scheme.kCatmark false,
   shapeEntry objData "catmark_cube_corner0" Scheme.kCatmark false,
   shapeEntry objData "catmark_cube_corner1" Scheme.kCatmark false,
   shapeEntry objData "catmark_cube_corner2" Scheme.kCatmark false,
   shapeEntry objData "catmark_cube_corner3" Scheme.kCatmark false,
   shapeEntry objData "catmark_cube_corner4" Scheme.kCatmark false,
   shapeEntry objData "catmark_cube_creases0" Scheme.kCatmark false,
   shapeEntry objData "catmark_cube_creases1" Scheme.kCatmark false,
   shapeEntry objData "catmark_cube_creases2" Scheme.kCatmark false,
   shapeEntry objData "catmark_cubes_infsharp" Scheme.kCatmark false,
   shapeEntry objData "catmark_cubes_semisharp" Scheme.kCatmark false,
   shapeEntry objData "catmark_dart_edgecorner" Scheme.kCatmark false,
   shapeEntry objData "catmark_dart_edgeonly" Scheme.kCatmark false,
   shapeEntry objData "catmark_edgecorner" Scheme.kCatmark false,
   shapeEntry objData "catmark_edgenone" Scheme.kCatmark false,
   shapeEntry objData "catmark_edgeonly" Scheme.kCatmark false,
   shapeEntry objData "catmark_fan" Scheme.kCatmark false,
   shapeEntry objData "catmark_flap" Scheme.kCatmark false,
   shapeEntry objData "catmark_flap2" Scheme.kCatmark false,
   shapeEntry objData "catmark_fvar_bound0" Scheme.kCatmark false,
   shapeEntry objData "catmark_fvar_bound1" Scheme.kCatmark false,
   shapeEntry objData "catmark_fvar_bound2" Scheme.kCatmark false,
   shapeEntry objData "catmark_fvar_bound3" Scheme.kCatmark false,
   shapeEntry objData "catmark_fvar_bound4" Scheme.kCatmark false,
   shapeEntry objData "catmark_fvar_project0" Scheme.kCatmark false,
   shapeEntry objData "catmark_chaikin0" Scheme.kCatmark false,
   shapeEntry objData "catmark_chaikin1" Scheme.kCatmark false,
   shapeEntry objData "catmark_chaikin2" Scheme.kCatmark false,
   shapeEntry objData "catmark_gregory_test0" Scheme.kCatmark false,
   shapeEntry objData "catmark_gregory_test1" Scheme.kCatmark false,
   shapeEntry objData "catmark_gregory_test2" Scheme.kCatmark false,
   shapeEntry objData "catmark_gregory_test3" Scheme.kCatmark false,
   shapeEntry objData "catmark_gregory_test4" Scheme.kCatmark false,
   shapeEntry objData "catmark_gregory_test5" Scheme.kCatmark false,
   shapeEntry objData "catmark_gregory_test6" Scheme.kCatmark false,
   shapeEntry objData "catmark_gregory_test7" Scheme.kCatmark false,
   shapeEntry objData "catmark_gregory_test8" Scheme.kCatmark false,
   shapeEntry objData "catmark_hole_test1" Scheme.kCatmark false,
   shapeEntry objData "catmark_hole_test2" Scheme.kCatmark false,
   shapeEntry objData "catmark_hole_test3" Scheme.kCatmark false,
   shapeEntry objData "catmark_hole_test4" Scheme.kCatmark false,
   shapeEntry objData "catmark_inf_crease0" Scheme.kCatmark false,
   shapeEntry objData "catmark_inf_crease1" Scheme.kCatmark false,
   shapeEntry objData "catmark_lefthanded" Scheme.kCatmark true,
   shapeEntry objData "catmark_righthanded" Scheme.kCatmark false,
   shapeEntry objData "catmark_nonman_bareverts" Scheme.kCatmark false,
   shapeEntry objData "catmark_nonman_edges" Scheme.kCatmark false,
   shapeEntry objData "catmark_nonman_edge100" Scheme.kCatmark false,
   shapeEntry objData "catmark_nonman_quadpole8" Scheme.kCatmark false,
   shapeEntry objData "catmark_nonman_quadpole64" Scheme.kCatmark false,
   shapeEntry objData "catmark_nonman_quadpole360" Scheme.kCatmark false,
   shapeEntry objData "catmark_nonman_verts" Scheme.kCatmark false,
   shapeEntry objData "catmark_nonquads" Scheme.kCatmark false,
   shapeEntry objData "catmark_pole8" Scheme.kCatmark false,
   shapeEntry objData "catmark_pole64" Scheme.kCatmark false,
   shapeEntry objData "catmark_pole360" Scheme.kCatmark false,
   shapeEntry objData "catmark_pyramid" Scheme.kCatmark false,
   shapeEntry objData "catmark_pyramid_creases0" Scheme.kCatmark false,
   shapeEntry objData "catmark_pyramid_creases1" Scheme.kCatmark false,
   shapeEntry objData "catmark_pyramid_creases2" Scheme.kCatmark false,
   shapeEntry objData "catmark_quadstrips" Scheme.kCatmark false,
   shapeEntry objData "catmark_single_crease" Scheme.kCatmark false,
   shapeEntry objData "catmark_smoothtris0" Scheme.kCatmark false,
   shapeEntry objData "catmark_smoothtris1" Scheme.kCatmark false,
   shapeEntry objData "catmark_tent" Scheme.kCatmark false,
   shapeEntry objData "catmark_tent_creases0" Scheme.kCatmark false,
   shapeEntry objData "catmark_tent_creases1" Scheme.kCatmark false,
   shapeEntry objData "catmark_toroidal_tet" Scheme.kCatmark false,
   shapeEntry objData "catmark_torus" Scheme.kCatmark false,
   shapeEntry objData "catmark_torus_creases0" Scheme.kCatmark false,
   shapeEntry objData "catmark_torus_creases1" Scheme.kCatmark false,
   shapeEntry objData "catmark_val2_interior" Scheme.kCatmark false,
   shapeEntry objData "catmark_val2_back2back" Scheme.kCatmark false,
   shapeEntry objData "catmark_val2_foldover" Scheme.kCatmark false,
   shapeEntry objData "catmark_val2_nonman" Scheme.kCatmark false,
   shapeEntry objData "catmark_xord_interior" Scheme.kCatmark false,
   shapeEntry objData "catmark_xord_boundary" Scheme.kCatmark false,
   shapeEntry objData "catmark_bishop" Scheme.kCatmark false,
   shapeEntry objData "catmark_car" Scheme.kCatmark false,
   shapeEntry objData "catmark_helmet" Scheme.kCatmark false,
   shapeEntry objData "catmark_pawn" Scheme.kCatmark false,
   shapeEntry objData "catmark_rook" Scheme.kCatmark false,
   shapeEntry objData "loop_chaikin0" Scheme.kLoop false,
   shapeEntry objData "loop_chaikin1" Scheme.kLoop false,
   shapeEntry objData "loop_cube" Scheme.kLoop false,
   shapeEntry objData "loop_cube_asymmetric" Scheme.kLoop false,
   shapeEntry objData "loop_cube_creases0" Scheme.kLoop false,
   shapeEntry objData "loop_cube_creases1" Scheme.kLoop false,
   shapeEntry objData "loop_cubes_semisharp" Scheme.kLoop false,
   shapeEntry objData "loop_cubes_infsharp" Scheme.kLoop false,
   shapeEntry objData "loop_fvar_bound0" Scheme.kLoop false,
   shapeEntry objData "loop_fvar_bound1" Scheme.kLoop false,
   shapeEntry objData "loop_fvar_bound2" Scheme.kLoop false,
   shapeEntry objData "loop_fvar_bound3" Scheme.kLoop false,
   shapeEntry objData "loop_icos_semisharp" Scheme.kLoop false,
   shapeEntry objData "loop_icos_infsharp" Scheme.kLoop false,
   shapeEntry objData "loop_icosahedron" Scheme.kLoop false,
   shapeEntry objData "loop_nonman_edge100" Scheme.kLoop false,
   shapeEntry objData "loop_nonman_verts" Scheme.kLoop false,
   shapeEntry objData "loop_nonman_edges" Scheme.kLoop false,
   shapeEntry objData "loop_pole360" Scheme.kLoop false,
   shapeEntry objData "loop_pole64" Scheme.kLoop false,
   shapeEntry objData "loop_pole8" Scheme.kLoop false,
   shapeEntry objData "loop_saddle_edgecorner" Scheme.kLoop false,
   shapeEntry objData "loop_saddle_edgeonly" Scheme.kLoop false,
   shapeEntry objData "loop_tetrahedron" Scheme.kLoop false,
   shapeEntry objData "loop_toroidal_tet" Scheme.kLoop false,
   shapeEntry objData "loop_triangle_edgecorner" Scheme.kLoop false,
   shapeEntry objData "loop_triangle_edgeonly" Scheme.kLoop false,
   shapeEntry objData "loop_triangle_edgenone" Scheme.kLoop false,
   shapeEntry objData "loop_val2_interior" Scheme.kLoop false,
   shapeEntry objData "loop_xord_interior" Scheme.kLoop false,
   shapeEntry objData "loop_xord_boundary" Scheme.kLoop false]

/-- Function `findShape(name)`: the first table entry for which
`strncmp(shape.name.data(), name, shape.name.size()) == 0`; `none` is `nullptr`. -/
def findShape (objData : String → String) (name : String) : Option ShapeDesc :=
  (_shapes objData).find? fun shape => strncmpEq shape.name name shape.name.length

/-! ## Specification vocabulary for rotations, surface indices and boundary edges -/

namespace Spec

/-- The coordinate rotation with index 1 applied `k` times. -/
def rotateTimes (domain : tess.DomainMode) : Nat → ℚ × ℚ → Option (ℚ × ℚ)
  | 0, p => some p
  | k + 1, p => (rotateTimes domain k p).bind fun q => tess.rotateDomain domain 1 q.1 q.2

/-- Number `N` of rotations of a domain: 4 for QUAD, 3 for TRIANGLE. -/
def numRotations (domain : tess.DomainMode) : Nat :=
  match domain with
  | tess.DomainMode.QUAD => 4
  | tess.DomainMode.TRIANGLE => 3
  | tess.DomainMode.ISOLINE => 0

/-- A valid rotation index of a domain. -/
def ValidRotation (domain : tess.DomainMode) (rot : Nat) : Prop :=
  (domain = tess.DomainMode.QUAD ∨ domain = tess.DomainMode.TRIANGLE) ∧ rot < numRotations domain

instance (domain : tess.DomainMode) (rot : Nat) : Decidable (ValidRotation domain rot) := by
  unfold ValidRotation
  infer_instance

/-- The comparisons that the face `f` causes when its first surface index is `base`: none
for a hole, one at `base` with the full-resolution patch for a regular face, and one at each
of `base, ..., base + size - 1` with the half-resolution patch for an irregular face. -/
def faceVisits (regFaceSize : Nat) (patch patchHalf : tess.Patch) (f : BaseFace) (base : Nat) :
    List (Nat × tess.Patch) :=
  if f.isHole then []
  else if f.size = regFaceSize then [(base, patch)]
  else (List.range f.size).map fun i => (base + i, patchHalf)

/-- The comparisons of a mesh in order: those of each face `f`, at the first surface index
`base(f)`, the sum over the faces before `f` of 1 for a regular face and of the face size
otherwise. -/
def visits (regFaceSize : Nat) (patch patchHalf : tess.Patch) (faces : List BaseFace) :
    List (Nat × tess.Patch) :=
  (List.range faces.length).flatMap fun k =>
    match faces[k]? with
    | some f => faceVisits regFaceSize patch patchHalf f (surfaceBase regFaceSize (faces.take k))
    | none => []

/-- The seven counts of the comparisons of a surface are non-negative. -/
def NonNegCounts (d : FaceDeltaVectors) : Prop :=
  0 ≤ d.pDelta.numDeltas ∧ 0 ≤ d.duDelta.numDeltas ∧ 0 ≤ d.dvDelta.numDeltas ∧
  0 ≤ d.duuDelta.numDeltas ∧ 0 ≤ d.duvDelta.numDeltas ∧ 0 ≤ d.dvvDelta.numDeltas ∧
  0 ≤ d.uvDelta.numDeltas

instance (d : FaceDeltaVectors) : Decidable (NonNegCounts d) := by
  unfold NonNegCounts
  infer_instance

/-- The relations between the six counters of a mesh summary. -/
def CountersConsistent (m : MeshDelta) : Prop :=
  m.numFacesWithGeomDeltas ≤ m.numFacesWithDeltas ∧
  m.numFacesWithUVDeltas ≤ m.numFacesWithDeltas ∧
  m.numFacesWithDeltas ≤ m.numFacesWithGeomDeltas + m.numFacesWithUVDeltas ∧
  m.numFacesWithPDeltas ≤ m.numFacesWithGeomDeltas ∧
  m.numFacesWithD1Deltas ≤ m.numFacesWithGeomDeltas ∧
  m.numFacesWithD2Deltas ≤ m.numFacesWithGeomDeltas ∧
  m.numFacesWithGeomDeltas ≤
    m.numFacesWithPDeltas + m.numFacesWithD1Deltas + m.numFacesWithD2Deltas

instance (m : MeshDelta) : Decidable (CountersConsistent m) := by
  unfold CountersConsistent
  infer_instance

/-- Number of vertices of a patch on each of the four boundary edges of the unit square:
`v = 0`, `u = 1`, `v = 1`, `u = 0`. -/
def edgeVertexCounts (p : tess.Patch) : List Nat :=
  [p.v.count 0, p.u.count 1, p.v.count 1, p.u.count 0]

end Spec

/-- The half-resolution patch `half` has half as many segments as the full-resolution patch
`full` along each of the four boundary edges:
`2 * (vertices of half on the edge - 1) = vertices of full on the edge - 1`. -/
def Spec.HalfSegments (half full : tess.Patch) : Prop :=
  ∀ e : Nat, e < 4 →
    2 * (((Spec.edgeVertexCounts half).getD e 0 : Int) - 1) =
      ((Spec.edgeVertexCounts full).getD e 0 : Int) - 1

/-- The greatest level at which no `int` expression of `tessellate` and of `patchSize`
exceeds 32 bits; the largest one is the argument `ntriangles * 3` of `reserve`, which is
`6 * (lod - 1)^2` for QUAD and `3 * (lod + 1)^2` for TRIANGLE. -/
def Spec.maxLevel (domain : tess.DomainMode) : Int :=
  match domain with
  | tess.DomainMode.QUAD => 18919
  | tess.DomainMode.TRIANGLE => 26753
  | _ => 0

/-! ## Vec3 and VectorDelta lemmas -/

theorem Vec3.neg_mk (x y z : ℚ) : -(⟨x, y, z⟩ : Vec3) = ⟨-x, -y, -z⟩ := rfl

theorem Vec3.add_mk (x y z x' y' z' : ℚ) :
    (⟨x, y, z⟩ : Vec3) + ⟨x', y', z'⟩ = ⟨x + x', y + y', z + z'⟩ := rfl

theorem Vec3.sub_mk (x y z x' y' z' : ℚ) :
    (⟨x, y, z⟩ : Vec3) - ⟨x', y', z'⟩ = ⟨x - x', y - y', z - z'⟩ := rfl

theorem ite_lt_eq_max (m d : ℚ) : (if m < d then d else m) = max m d := by
  rcases lt_or_le m d with h | h
  · simp [h, max_eq_right (le_of_lt h)]
  · simp [not_lt.mpr h, max_eq_left h]

namespace VectorDelta

/-- Closed form of one loop iteration of `Compare`. -/
theorem compareStep_eq (s : VectorDelta) (i : Nat) :
    s.compareStep i =
      if s.IsInvalid (s.Evaluate i) then
        { s with numDeltas := s.numDeltas + 1,
                 maxDelta := max (max (max s.maxDelta (s.Evaluate i).p0) (s.Evaluate i).p1)
                   (s.Evaluate i).p2 }
      else s := by
  unfold compareStep
  by_cases h : s.IsInvalid (s.Evaluate i) = true
  · simp only [h, if_true]
    rw [← ite_lt_eq_max s.maxDelta, ← ite_lt_eq_max _ (s.Evaluate i).p1,
      ← ite_lt_eq_max _ (s.Evaluate i).p2]
    split_ifs <;> simp_all
  · simp [h]

end VectorDelta

theorem filter_length_cons_pos {α : Type} (p : α → Bool) (a : α) (l : List α) (h : p a = true) :
    (List.filter p (a :: l)).length = (List.filter p l).length + 1 := by
  simp [List.filter_cons, h]

theorem filter_length_cons_neg {α : Type} (p : α → Bool) (a : α) (l : List α)
    (h : ¬ p a = true) : (List.filter p (a :: l)).length = (List.filter p l).length := by
  simp [List.filter_cons, h]

namespace VectorDelta

/-- With the two sequences installed, `IsInvalid (Evaluate i)` is the specification's
tolerance test on the sample pair at index `i`. -/
theorem isInvalid_evaluate_iff (s : VectorDelta) (A B : List Vec3) (i : Nat)
    (hA : s.vectorA = some A) (hB : s.vectorB = some B) :
    s.IsInvalid (s.Evaluate i) = true ↔
      Spec.exceeds s.tolerance (A.getD i Vec3.zero) (B.getD i Vec3.zero) := by
  simp [IsInvalid, Evaluate, absDiff, Spec.exceeds, hA, hB, or_assoc]

/-- Loop invariant of `Compare` over a list of indices. -/
theorem foldl_compareStep (A B : List Vec3) (l : List Nat) :
    ∀ s : VectorDelta, s.vectorA = some A → s.vectorB = some B →
      (l.foldl compareStep s).vectorA = some A ∧
      (l.foldl compareStep s).vectorB = some B ∧
      (l.foldl compareStep s).tolerance = s.tolerance ∧
      (l.foldl compareStep s).numDeltas = s.numDeltas +
        ((l.filter fun i => decide (Spec.exceeds s.tolerance (A.getD i Vec3.zero)
          (B.getD i Vec3.zero))).length : Int) ∧
      s.maxDelta ≤ (l.foldl compareStep s).maxDelta ∧
      (∀ i ∈ l, Spec.exceeds s.tolerance (A.getD i Vec3.zero) (B.getD i Vec3.zero) →
        |(A.getD i Vec3.zero).p0 - (B.getD i Vec3.zero).p0| ≤ (l.foldl compareStep s).maxDelta ∧
        |(A.getD i Vec3.zero).p1 - (B.getD i Vec3.zero).p1| ≤ (l.foldl compareStep s).maxDelta ∧
        |(A.getD i Vec3.zero).p2 - (B.getD i Vec3.zero).p2| ≤ (l.foldl compareStep s).maxDelta) ∧
      ((l.foldl compareStep s).maxDelta = s.maxDelta ∨
        ∃ i ∈ l, Spec.exceeds s.tolerance (A.getD i Vec3.zero) (B.getD i Vec3.zero) ∧
          ((l.foldl compareStep s).maxDelta = |(A.getD i Vec3.zero).p0 - (B.getD i Vec3.zero).p0| ∨
           (l.foldl compareStep s).maxDelta = |(A.getD i Vec3.zero).p1 - (B.getD i Vec3.zero).p1| ∨
           (l.foldl compareStep s).maxDelta = |(A.getD i Vec3.zero).p2 - (B.getD i Vec3.zero).p2|)) := by
  induction l with
  | nil => intro s hA hB; simp [hA, hB]
  | cons i l ih =>
    intro s hA hB
    have hiff := isInvalid_evaluate_iff s A B i hA hB
    have hev : s.Evaluate i = absDiff (A.getD i Vec3.zero) (B.getD i Vec3.zero) := by
      simp [Evaluate, hA, hB]
    simp only [List.foldl_cons]
    by_cases hx : Spec.exceeds s.tolerance (A.getD i Vec3.zero) (B.getD i Vec3.zero)
    · have hinv : s.IsInvalid (s.Evaluate i) = true := hiff.mpr hx
      have hstep := compareStep_eq s i
      rw [if_pos hinv] at hstep
      set s1 := s.compareStep i with hs1
      have h1A : s1.vectorA = some A := by rw [hstep]; exact hA
      have h1B : s1.vectorB = some B := by rw [hstep]; exact hB
      have h1t : s1.tolerance = s.tolerance := by rw [hstep]
      have h1n : s1.numDeltas = s.numDeltas + 1 := by rw [hstep]
      have h1m : s1.maxDelta = max (max (max s.maxDelta |(A.getD i Vec3.zero).p0 - (B.getD i Vec3.zero).p0|)
          |(A.getD i Vec3.zero).p1 - (B.getD i Vec3.zero).p1|)
          |(A.getD i Vec3.zero).p2 - (B.getD i Vec3.zero).p2| := by
        rw [hstep, hev]; rfl
      obtain ⟨rA, rB, rt, rn, rm, rub, rat⟩ := ih s1 h1A h1B
      rw [h1t] at rt rn rub rat
      refine ⟨rA, rB, rt, ?_, ?_, ?_, ?_⟩
      · rw [rn, h1n, filter_length_cons_pos _ i l (decide_eq_true hx)]
        push_cast
        ring
      · refine le_trans ?_ rm
        rw [h1m]
        exact le_trans (le_max_left _ _) (le_trans (le_max_left _ _) (le_max_left _ _))
      · intro j hj hxj
        rcases List.mem_cons.mp hj with rfl | hj'
        · refine ⟨le_trans ?_ rm, le_trans ?_ rm, le_trans ?_ rm⟩ <;> rw [h1m]
          · exact le_trans (le_max_right _ _) (le_trans (le_max_left _ _) (le_max_left _ _))
          · exact le_trans (le_max_right _ _) (le_max_left _ _)
          · exact le_max_right _ _
        · exact rub j hj' hxj
      · rcases rat with heq | ⟨j, hj, hxj, hval⟩
        · -- maximum unchanged after index i: it is attained at i or is the old one
          rw [heq, h1m]
          rcases max_choice (max (max s.maxDelta |(A.getD i Vec3.zero).p0 - (B.getD i Vec3.zero).p0|)
              |(A.getD i Vec3.zero).p1 - (B.getD i Vec3.zero).p1|)
              |(A.getD i Vec3.zero).p2 - (B.getD i Vec3.zero).p2| with h3 | h3
          · rw [h3]
            rcases max_choice (max s.maxDelta |(A.getD i Vec3.zero).p0 - (B.getD i Vec3.zero).p0|)
              |(A.getD i Vec3.zero).p1 - (B.getD i Vec3.zero).p1| with h2 | h2
            · rw [h2]
              rcases max_choice s.maxDelta |(A.getD i Vec3.zero).p0 - (B.getD i Vec3.zero).p0|
                with h1 | h1
              · left; exact h1
              · right; exact ⟨i, List.mem_cons_self _ _, hx, Or.inl h1⟩
            · right; exact ⟨i, List.mem_cons_self _ _, hx, Or.inr (Or.inl h2)⟩
          · right; exact ⟨i, List.mem_cons_self _ _, hx, Or.inr (Or.inr h3)⟩
        · right; exact ⟨j, List.mem_cons_of_mem _ hj, hxj, hval⟩
    · have hinv : ¬ s.IsInvalid (s.Evaluate i) = true := fun h => hx (hiff.mp h)
      have hstep := compareStep_eq s i
      rw [if_neg hinv] at hstep
      rw [hstep]
      obtain ⟨rA, rB, rt, rn, rm, rub, rat⟩ := ih s hA hB
      refine ⟨rA, rB, rt, ?_, rm, ?_, ?_⟩
      · rw [rn, filter_length_cons_neg _ i l (by simpa using hx)]
      · intro j hj hxj
        rcases List.mem_cons.mp hj with rfl | hj'
        · exact absurd hxj hx
        · exact rub j hj' hxj
      · rcases rat with heq | ⟨j, hj, hxj, hval⟩
        · left; exact heq
        · right; exact ⟨j, List.mem_cons_of_mem _ hj, hxj, hval⟩

end VectorDelta
theorem Spec.mem_exceedingIndices (tol : ℚ) (a b : List Vec3) (i : Nat) :
    i ∈ Spec.exceedingIndices tol a b ↔
      i < a.length ∧ Spec.exceeds tol (a.getD i Vec3.zero) (b.getD i Vec3.zero) := by
  unfold Spec.exceedingIndices
  rw [List.mem_filter, List.mem_range, decide_eq_true_iff]

namespace VectorDelta

/-- The state in which the loop of `Compare` starts does not depend on the previous
`numDeltas`, `maxDelta` or sequence pointers. -/
theorem compare_eq_of_tolerance (s t : VectorDelta) (a b : List Vec3)
    (h : t.tolerance = s.tolerance) : t.Compare a b = s.Compare a b := by
  unfold Compare
  rw [h]

/-- Summary of a completed `Compare` on equal-length sequences: the installed sequences,
the kept tolerance, the count of tolerance-exceeding indices, and the bounds on `maxDelta`
that the loop maintains. -/
theorem compare_summary (self : VectorDelta) (a b : List Vec3) (hlen : a.length = b.length) :
    ∃ r : VectorDelta, self.Compare a b = some r ∧
      r.vectorA = some a ∧ r.vectorB = some b ∧ r.tolerance = self.tolerance ∧
      r.numDeltas = ((Spec.exceedingIndices self.tolerance a b).length : Int) ∧
      (∀ i ∈ Spec.exceedingIndices self.tolerance a b,
        |(a.getD i Vec3.zero).p0 - (b.getD i Vec3.zero).p0| ≤ r.maxDelta ∧
        |(a.getD i Vec3.zero).p1 - (b.getD i Vec3.zero).p1| ≤ r.maxDelta ∧
        |(a.getD i Vec3.zero).p2 - (b.getD i Vec3.zero).p2| ≤ r.maxDelta) ∧
      (r.maxDelta = 0 ∨ ∃ i ∈ Spec.exceedingIndices self.tolerance a b,
          r.maxDelta = |(a.getD i Vec3.zero).p0 - (b.getD i Vec3.zero).p0| ∨
          r.maxDelta = |(a.getD i Vec3.zero).p1 - (b.getD i Vec3.zero).p1| ∨
          r.maxDelta = |(a.getD i Vec3.zero).p2 - (b.getD i Vec3.zero).p2|) := by
  have hc : self.Compare a b = some ((List.range a.length).foldl compareStep
      { self with vectorA := some a, vectorB := some b, numDeltas := 0, maxDelta := 0 }) := by
    unfold Compare
    rw [if_neg (not_not.mpr hlen)]
  obtain ⟨rA, rB, rt, rn, _, rub, rat⟩ := foldl_compareStep a b (List.range a.length)
    { self with vectorA := some a, vectorB := some b, numDeltas := 0, maxDelta := 0 } rfl rfl
  simp only at rub rat
  refine ⟨_, hc, rA, rB, rt, ?_, ?_, ?_⟩
  · rw [rn]
    simp [Spec.exceedingIndices]
  · exact fun i hi =>
      rub i (List.mem_range.mpr ((Spec.mem_exceedingIndices _ a b i).mp hi).1)
        ((Spec.mem_exceedingIndices _ a b i).mp hi).2
  · rcases rat with h0 | ⟨i, hi, hx, hval⟩
    · exact Or.inl h0
    · exact Or.inr
        ⟨i, (Spec.mem_exceedingIndices _ a b i).mpr ⟨List.mem_range.mp hi, hx⟩, hval⟩

/-- C1: for equal-length sequences `a`, `b`, `Compare` completes and sets `numDeltas` to
the number of indices at which at least one of the three component-wise absolute
differences is strictly greater than the tolerance; the tolerance field is unchanged, and
the result is the same from any previous state holding the same tolerance (so it does
not depend on the previous `numDeltas` / `maxDelta`). -/
theorem compare_numDeltas_counts_exceeding (self : VectorDelta) (a b : List Vec3)
    (hlen : a.length = b.length) :
    ∃ r : VectorDelta, self.Compare a b = some r ∧
      r.numDeltas = ((Spec.exceedingIndices self.tolerance a b).length : Int) ∧
      r.tolerance = self.tolerance ∧
      ∀ other : VectorDelta, other.tolerance = self.tolerance →
        other.Compare a b = some r := by
  obtain ⟨r, hr, _, _, rt, rn, _, _⟩ := compare_summary self a b hlen
  refine ⟨r, hr, rn, rt, ?_⟩
  intro other ho
  rw [compare_eq_of_tolerance self other a b ho, hr]

/-- Witness for C1: two samples, the second one exceeding the tolerance. -/
theorem compare_numDeltas_counts_exceeding_witness :
    ([⟨0, 0, 0⟩, ⟨0, 0, 0⟩] : List Vec3).length = ([⟨0, 1, 0⟩, ⟨0, 0, 3⟩] : List Vec3).length ∧
    ∃ r : VectorDelta,
      (VectorDelta.new 1).Compare [⟨0, 0, 0⟩, ⟨0, 0, 0⟩] [⟨0, 1, 0⟩, ⟨0, 0, 3⟩] = some r ∧
      r.numDeltas = ((Spec.exceedingIndices (VectorDelta.new 1).tolerance
        [⟨0, 0, 0⟩, ⟨0, 0, 0⟩] [⟨0, 1, 0⟩, ⟨0, 0, 3⟩]).length : Int) ∧
      r.tolerance = (VectorDelta.new 1).tolerance ∧
      ∀ other : VectorDelta, other.tolerance = (VectorDelta.new 1).tolerance →
        other.Compare [⟨0, 0, 0⟩, ⟨0, 0, 0⟩] [⟨0, 1, 0⟩, ⟨0, 0, 3⟩] = some r :=
  ⟨rfl, compare_numDeltas_counts_exceeding (VectorDelta.new 1) [⟨0, 0, 0⟩, ⟨0, 0, 0⟩]
    [⟨0, 1, 0⟩, ⟨0, 0, 3⟩] rfl⟩

/-- C2 (counterexample): one sample pair deviating by 1 under tolerance 2. `Compare` leaves
`maxDelta` at 0, while the maximum deviation over all samples is 1. -/
theorem compare_maxDelta_ignores_valid_samples :
    ((VectorDelta.new 2).Compare [⟨0, 0, 0⟩] [⟨1, 0, 0⟩]).map (fun r => r.maxDelta) = some 0 ∧
    Spec.maxDeviation [⟨0, 0, 0⟩] [⟨1, 0, 0⟩] = 1 := by
  constructor
  · simp [Compare, VectorDelta.new, List.range_succ, compareStep_eq, IsInvalid, Evaluate, absDiff]
    norm_num
  · simp [Spec.maxDeviation, absDiff]

/-- C2 (amended): for equal-length sequences, after `Compare` the field `maxDelta` is the
largest single-component absolute deviation among the tolerance-exceeding samples: it
bounds every component of every exceeding sample, it is attained by a component of an
exceeding sample when there is one, and it is 0 when no sample exceeds the tolerance. -/
theorem compare_maxDelta_over_exceeding (self : VectorDelta) (a b : List Vec3)
    (hlen : a.length = b.length) :
    ∃ r : VectorDelta, self.Compare a b = some r ∧
      (∀ i ∈ Spec.exceedingIndices self.tolerance a b,
        |(a.getD i Vec3.zero).p0 - (b.getD i Vec3.zero).p0| ≤ r.maxDelta ∧
        |(a.getD i Vec3.zero).p1 - (b.getD i Vec3.zero).p1| ≤ r.maxDelta ∧
        |(a.getD i Vec3.zero).p2 - (b.getD i Vec3.zero).p2| ≤ r.maxDelta) ∧
      (Spec.exceedingIndices self.tolerance a b ≠ [] →
        ∃ i ∈ Spec.exceedingIndices self.tolerance a b,
          r.maxDelta = |(a.getD i Vec3.zero).p0 - (b.getD i Vec3.zero).p0| ∨
          r.maxDelta = |(a.getD i Vec3.zero).p1 - (b.getD i Vec3.zero).p1| ∨
          r.maxDelta = |(a.getD i Vec3.zero).p2 - (b.getD i Vec3.zero).p2|) ∧
      (Spec.exceedingIndices self.tolerance a b = [] → r.maxDelta = 0) := by
  obtain ⟨r, hr, _, _, _, _, hub, hat⟩ := compare_summary self a b hlen
  refine ⟨r, hr, hub, ?_, ?_⟩
  · intro hne
    rcases hat with h0 | hex
    · obtain ⟨i, hi⟩ := List.exists_mem_of_ne_nil _ hne
      refine ⟨i, hi, Or.inl ?_⟩
      have := (hub i hi).1
      rw [h0] at this ⊢
      exact le_antisymm (abs_nonneg _) this
    · exact hex
  · intro hnil
    rcases hat with h0 | ⟨i, hi, _⟩
    · exact h0
    · rw [hnil] at hi
      exact absurd hi (List.not_mem_nil i)

/-- Witness for C2 (amended): the input of the counterexample. -/
theorem compare_maxDelta_over_exceeding_witness :
    ([⟨0, 0, 0⟩] : List Vec3).length = ([⟨1, 0, 0⟩] : List Vec3).length ∧
    ∃ r : VectorDelta, (VectorDelta.new 2).Compare [⟨0, 0, 0⟩] [⟨1, 0, 0⟩] = some r ∧
      (∀ i ∈ Spec.exceedingIndices (VectorDelta.new 2).tolerance [⟨0, 0, 0⟩] [⟨1, 0, 0⟩],
        |(([⟨0, 0, 0⟩] : List Vec3).getD i Vec3.zero).p0 -
            (([⟨1, 0, 0⟩] : List Vec3).getD i Vec3.zero).p0| ≤ r.maxDelta ∧
        |(([⟨0, 0, 0⟩] : List Vec3).getD i Vec3.zero).p1 -
            (([⟨1, 0, 0⟩] : List Vec3).getD i Vec3.zero).p1| ≤ r.maxDelta ∧
        |(([⟨0, 0, 0⟩] : List Vec3).getD i Vec3.zero).p2 -
            (([⟨1, 0, 0⟩] : List Vec3).getD i Vec3.zero).p2| ≤ r.maxDelta) ∧
      (Spec.exceedingIndices (VectorDelta.new 2).tolerance [⟨0, 0, 0⟩] [⟨1, 0, 0⟩] ≠ [] →
        ∃ i ∈ Spec.exceedingIndices (VectorDelta.new 2).tolerance [⟨0, 0, 0⟩] [⟨1, 0, 0⟩],
          r.maxDelta = |(([⟨0, 0, 0⟩] : List Vec3).getD i Vec3.zero).p0 -
            (([⟨1, 0, 0⟩] : List Vec3).getD i Vec3.zero).p0| ∨
          r.maxDelta = |(([⟨0, 0, 0⟩] : List Vec3).getD i Vec3.zero).p1 -
            (([⟨1, 0, 0⟩] : List Vec3).getD i Vec3.zero).p1| ∨
          r.maxDelta = |(([⟨0, 0, 0⟩] : List Vec3).getD i Vec3.zero).p2 -
            (([⟨1, 0, 0⟩] : List Vec3).getD i Vec3.zero).p2|) ∧
      (Spec.exceedingIndices (VectorDelta.new 2).tolerance [⟨0, 0, 0⟩] [⟨1, 0, 0⟩] = [] →
        r.maxDelta = 0) :=
  ⟨rfl, compare_maxDelta_over_exceeding (VectorDelta.new 2) [⟨0, 0, 0⟩] [⟨1, 0, 0⟩] rfl⟩

end VectorDelta
/-! ## Domain rotations -/

/-- C8: for QUAD with `rot` in 0..3 and TRIANGLE with `rot` in 0..2, and every `(u, v)`,
`rotateDomainInv` undoes `rotateDomain` and `rotateDomain` undoes `rotateDomainInv`
(exact arithmetic); both calls return a coordinate. -/
theorem rotateDomain_rotateDomainInv_roundtrip (domain : tess.DomainMode) (rot : Int)
    (u v : ℚ)
    (hvalid : (domain = tess.DomainMode.QUAD ∧ 0 ≤ rot ∧ rot ≤ 3) ∨
      (domain = tess.DomainMode.TRIANGLE ∧ 0 ≤ rot ∧ rot ≤ 2)) :
    ((tess.rotateDomain domain rot u v).bind fun p => tess.rotateDomainInv domain rot p.1 p.2)
        = some (u, v) ∧
    ((tess.rotateDomainInv domain rot u v).bind fun p => tess.rotateDomain domain rot p.1 p.2)
        = some (u, v) := by
  rcases hvalid with ⟨hd, h0, h3⟩ | ⟨hd, h0, h2⟩
  · subst hd
    have : rot = 0 ∨ rot = 1 ∨ rot = 2 ∨ rot = 3 := by omega
    rcases this with h | h | h | h <;> subst h <;>
      simp [tess.rotateDomain, tess.rotateDomainInv, tess.toUint8, tess.rotateDomainQuad,
        tess.rotateDomainInvQuad]
  · subst hd
    have : rot = 0 ∨ rot = 1 ∨ rot = 2 := by omega
    rcases this with h | h | h <;> subst h <;>
      simp [tess.rotateDomain, tess.rotateDomainInv, tess.toUint8, tess.rotateDomainTriangle,
        tess.rotateDomainInvTriangle] <;> ring

/-- Witness for C8: TRIANGLE, `rot = 2`, at `(1/4, 1/2)`. -/
theorem rotateDomain_rotateDomainInv_roundtrip_witness :
    ((tess.DomainMode.TRIANGLE = tess.DomainMode.QUAD ∧ (0 : Int) ≤ 2 ∧ (2 : Int) ≤ 3) ∨
      (tess.DomainMode.TRIANGLE = tess.DomainMode.TRIANGLE ∧ (0 : Int) ≤ 2 ∧ (2 : Int) ≤ 2)) ∧
    ((tess.rotateDomain tess.DomainMode.TRIANGLE 2 (1 / 4) (1 / 2)).bind fun p =>
        tess.rotateDomainInv tess.DomainMode.TRIANGLE 2 p.1 p.2) = some (1 / 4, 1 / 2) ∧
    ((tess.rotateDomainInv tess.DomainMode.TRIANGLE 2 (1 / 4) (1 / 2)).bind fun p =>
        tess.rotateDomain tess.DomainMode.TRIANGLE 2 p.1 p.2) = some (1 / 4, 1 / 2) :=
  ⟨Or.inr ⟨rfl, by decide, by decide⟩,
    rotateDomain_rotateDomainInv_roundtrip tess.DomainMode.TRIANGLE 2 (1 / 4) (1 / 2)
      (Or.inr ⟨rfl, by decide, by decide⟩)⟩

/-- C9 (counterexample): for `rot = 2` with `du = (1,0,0)` and `dv = (0,0,0)` the code returns
`du' = (-1,0,0)`, `dv' = (-1,0,0)`, not the claimed `du' = dv`, `dv' = -du + du'`. -/
theorem triangleDomainRotate_rot2_not_as_claimed :
    triangleDomainRotate 2 ⟨1, 0, 0⟩ ⟨0, 0, 0⟩ = some (⟨-1, 0, 0⟩, ⟨-1, 0, 0⟩) ∧
    triangleDomainRotate 2 ⟨1, 0, 0⟩ ⟨0, 0, 0⟩ ≠
      some ((⟨0, 0, 0⟩ : Vec3), -(⟨1, 0, 0⟩ : Vec3) + (⟨0, 0, 0⟩ : Vec3)) := by
  simp [triangleDomainRotate, Vec3.neg_mk, Vec3.add_mk]

/-- C9 (amended): `triangleDomainRotate` yields for `rot = 1`: `du' = -dv` and
`dv' = du + du'`; for `rot = 2`: `dv' = -du` and `du' = dv + dv'`, the second value of each
case being computed from the already-updated first one. -/
theorem triangleDomainRotate_first_derivatives (du dv : Vec3) :
    triangleDomainRotate 1 du dv = some (-dv, du + -dv) ∧
    triangleDomainRotate 2 du dv = some (dv + -du, -du) := by
  simp [triangleDomainRotate]

/-- C10: the QUAD first-derivative compensation yields `(-dv, du)` for `rot = 1`,
`(-du, -dv)` for `rot = 2` and `(dv, -du)` for `rot = 3`. -/
theorem quadDomainRotate_first_derivatives (du dv : Vec3) :
    quadDomainRotate 1 du dv = some (-dv, du) ∧
    quadDomainRotate 2 du dv = some (-du, -dv) ∧
    quadDomainRotate 3 du dv = some (dv, -du) := by
  simp [quadDomainRotate]
/-! ## Aggregation lemmas -/

theorem FaceDelta.addPDelta_hasDeltas (fd : FaceDelta) (d : VectorDelta) :
    (fd.AddPDelta d).hasDeltas = (fd.hasDeltas || decide (d.numDeltas ≠ 0)) := by
  unfold FaceDelta.AddPDelta
  split_ifs with h <;> simp [h]

theorem FaceDelta.addDuDelta_hasDeltas (fd : FaceDelta) (d : VectorDelta) :
    (fd.AddDuDelta d).hasDeltas = (fd.hasDeltas || decide (d.numDeltas ≠ 0)) := by
  unfold FaceDelta.AddDuDelta
  split_ifs with h <;> simp [h]

theorem FaceDelta.addDvDelta_hasDeltas (fd : FaceDelta) (d : VectorDelta) :
    (fd.AddDvDelta d).hasDeltas = (fd.hasDeltas || decide (d.numDeltas ≠ 0)) := by
  unfold FaceDelta.AddDvDelta
  split_ifs with h <;> simp [h]

theorem FaceDelta.addDuuDelta_hasDeltas (fd : FaceDelta) (d : VectorDelta) :
    (fd.AddDuuDelta d).hasDeltas = (fd.hasDeltas || decide (d.numDeltas ≠ 0)) := by
  unfold FaceDelta.AddDuuDelta
  split_ifs with h <;> simp [h]

theorem FaceDelta.addDuvDelta_hasDeltas (fd : FaceDelta) (d : VectorDelta) :
    (fd.AddDuvDelta d).hasDeltas = (fd.hasDeltas || decide (d.numDeltas ≠ 0)) := by
  unfold FaceDelta.AddDuvDelta
  split_ifs with h <;> simp [h]

theorem FaceDelta.addDvvDelta_hasDeltas (fd : FaceDelta) (d : VectorDelta) :
    (fd.AddDvvDelta d).hasDeltas = (fd.hasDeltas || decide (d.numDeltas ≠ 0)) := by
  unfold FaceDelta.AddDvvDelta
  split_ifs with h <;> simp [h]

theorem FaceDelta.addUVDelta_hasDeltas (fd : FaceDelta) (d : VectorDelta) :
    (fd.AddUVDelta d).hasDeltas = (fd.hasDeltas || decide (d.numDeltas ≠ 0)) := by
  unfold FaceDelta.AddUVDelta
  split_ifs with h <;> simp [h]

/-- The flag `hasDeltas` computed by `AddDeltaVectors` says that one of the seven
comparisons has a non-zero count. -/
theorem FaceDelta.addDeltaVectors_hasDeltas (fd : FaceDelta) (d : FaceDeltaVectors) :
    (fd.AddDeltaVectors d).hasDeltas = Spec.anyDelta d := by
  unfold FaceDelta.AddDeltaVectors
  rw [FaceDelta.addUVDelta_hasDeltas, FaceDelta.addDvvDelta_hasDeltas,
    FaceDelta.addDuvDelta_hasDeltas, FaceDelta.addDuuDelta_hasDeltas,
    FaceDelta.addDvDelta_hasDeltas, FaceDelta.addDuDelta_hasDeltas,
    FaceDelta.addPDelta_hasDeltas]
  simp [FaceDelta.Clear, Spec.anyDelta]

/-- What a completed call of the lambda `evaluate` leaves in the loop state. -/
theorem evaluate_some (options : Options) (farEval tmrEval : Evaluator) (st st1 : FaceLoopState)
    (surfIndex : Nat) (tessCoords : tess.Patch)
    (h : evaluate options farEval tmrEval st surfIndex tessCoords = some st1) :
    st1.farResults = farEval surfIndex tessCoords st.farResults ∧
    st1.tmrResults = tmrEval surfIndex tessCoords st.tmrResults ∧
    st1.faceDelta = st.faceDelta.AddDeltaVectors st1.deltaVecs ∧
    st1.meshDelta = st.meshDelta.AddFace st1.faceDelta ∧
    st1.logFaceCalls = st.logFaceCalls ++ [(surfIndex, st1.deltaVecs)] := by
  unfold evaluate at h
  simp only at h
  split at h
  · exact absurd h (by simp)
  · injection h with h
    subst h
    exact ⟨rfl, rfl, rfl, rfl, rfl⟩

/-- A completed `evaluate` raises `numFacesWithDeltas` by one exactly when one of the
comparisons of the evaluated surface has a non-zero count. -/
theorem evaluate_numFacesWithDeltas (options : Options) (farEval tmrEval : Evaluator)
    (st st1 : FaceLoopState) (surfIndex : Nat) (tessCoords : tess.Patch)
    (h : evaluate options farEval tmrEval st surfIndex tessCoords = some st1) :
    st1.meshDelta.numFacesWithDeltas =
      st.meshDelta.numFacesWithDeltas + boolToInt (Spec.anyDelta st1.deltaVecs) := by
  obtain ⟨_, _, hf, hm, _⟩ := evaluate_some options farEval tmrEval st st1 surfIndex tessCoords h
  rw [hm, hf]
  simp [MeshDelta.AddFace, FaceDelta.addDeltaVectors_hasDeltas]
/-! ## Loop lemmas for the face loop -/

/-- An invariant of the step function is an invariant of `List.foldlM` in `Option`. -/
theorem foldlM_option_invariant {σ α : Type} (f : σ → α → Option σ) (P : σ → Prop)
    (hstep : ∀ s a s1, P s → f s a = some s1 → P s1) :
    ∀ (l : List α) (s s1 : σ), P s → l.foldlM f s = some s1 → P s1 := by
  intro l
  induction l with
  | nil =>
    intro s s1 hP h
    simp only [List.foldlM_nil, pure, Option.some.injEq] at h
    exact h ▸ hP
  | cons a l ih =>
    intro s s1 hP h
    simp only [List.foldlM_cons, bind, Option.bind_eq_some] at h
    obtain ⟨s2, h2, h3⟩ := h
    exact ih s2 s1 (hstep s a s2 hP h2) h3

/-- A step function that always succeeds under an invariant makes `List.foldlM` succeed. -/
theorem foldlM_option_total {σ α : Type} (f : σ → α → Option σ) (P : σ → Prop)
    (hstep : ∀ s a, P s → ∃ s1, f s a = some s1 ∧ P s1) :
    ∀ (l : List α) (s : σ), P s → ∃ s1, l.foldlM f s = some s1 ∧ P s1 := by
  intro l
  induction l with
  | nil => intro s hP; exact ⟨s, rfl, hP⟩
  | cons a l ih =>
    intro s hP
    obtain ⟨s2, h2, hP2⟩ := hstep s a hP
    obtain ⟨s3, h3, hP3⟩ := ih s2 hP2
    refine ⟨s3, ?_, hP3⟩
    simp only [List.foldlM_cons, bind, Option.bind_eq_some]
    exact ⟨s2, h2, h3⟩

/-- An invariant of the lambda `evaluate` is an invariant of the whole face loop. -/
theorem processFaces_invariant (options : Options) (farEval tmrEval : Evaluator)
    (regFaceSize : Nat) (patch patchHalf : tess.Patch) (P : FaceLoopState → Prop)
    (hstep : ∀ st s t st1, t = patch ∨ t = patchHalf → P st →
      evaluate options farEval tmrEval st s t = some st1 → P st1) :
    ∀ (faces : List BaseFace) (surfIndex : Nat) (st st1 : FaceLoopState), P st →
      processFaces options farEval tmrEval regFaceSize patch patchHalf faces surfIndex st
        = some st1 → P st1 := by
  intro faces
  induction faces with
  | nil =>
    intro surfIndex st st1 hP h
    simp only [processFaces, Option.some.injEq] at h
    exact h ▸ hP
  | cons face rest ih =>
    intro surfIndex st st1 hP h
    simp only [processFaces] at h
    split at h
    · exact absurd h (by simp)
    · rename_i st2 hv
      refine ih _ st2 st1 ?_ h
      split_ifs at hv with hh hr
      · exact hstep st surfIndex patch st2 (Or.inl rfl) hP hv
      · exact foldlM_option_invariant _ P
          (fun s a s1 hs h1 => hstep s _ _ s1 (Or.inr rfl) hs h1) _ st st2 hP hv
      · simp only [Option.some.injEq] at hv
        exact hv ▸ hP

/-- If the lambda `evaluate` always completes under an invariant, so does the face loop. -/
theorem processFaces_total (options : Options) (farEval tmrEval : Evaluator)
    (regFaceSize : Nat) (patch patchHalf : tess.Patch) (P : FaceLoopState → Prop)
    (hstep : ∀ st s t, t = patch ∨ t = patchHalf → P st →
      ∃ st1, evaluate options farEval tmrEval st s t = some st1 ∧ P st1) :
    ∀ (faces : List BaseFace) (surfIndex : Nat) (st : FaceLoopState), P st →
      ∃ st1, processFaces options farEval tmrEval regFaceSize patch patchHalf faces surfIndex st
        = some st1 ∧ P st1 := by
  intro faces
  induction faces with
  | nil => intro surfIndex st hP; exact ⟨st, rfl, hP⟩
  | cons face rest ih =>
    intro surfIndex st hP
    simp only [processFaces]
    have hv : ∃ st2, (if (!face.isHole) = true then
          if decide (face.size = regFaceSize) = true then
            evaluate options farEval tmrEval st surfIndex patch
          else evaluateCorners options farEval tmrEval patchHalf surfIndex face.size st
        else some st) = some st2 ∧ P st2 := by
      split_ifs with hh hr
      · exact hstep st surfIndex patch (Or.inl rfl) hP
      · exact foldlM_option_total _ P (fun s a hs => hstep s _ _ (Or.inr rfl) hs) _ st hP
      · exact ⟨st, rfl, hP⟩
    obtain ⟨st2, h2, hP2⟩ := hv
    rw [h2]
    exact ih _ st2 hP2

/-- The inner corner loop makes one `LogFace` call per corner. -/
theorem evaluateCorners_log_length (options : Options) (farEval tmrEval : Evaluator)
    (patchHalf : tess.Patch) (surfIndex faceSize : Nat) (st st1 : FaceLoopState)
    (h : evaluateCorners options farEval tmrEval patchHalf surfIndex faceSize st = some st1) :
    st1.logFaceCalls.length = st.logFaceCalls.length + faceSize := by
  unfold evaluateCorners at h
  have key : ∀ (l : List Nat) (s s1 : FaceLoopState),
      l.foldlM (fun s i => evaluate options farEval tmrEval s (surfIndex + i) patchHalf) s
        = some s1 → s1.logFaceCalls.length = s.logFaceCalls.length + l.length := by
    intro l
    induction l with
    | nil =>
      intro s s1 h
      simp only [List.foldlM_nil, pure, Option.some.injEq] at h
      subst h; rfl
    | cons a l ih =>
      intro s s1 h
      simp only [List.foldlM_cons, bind, Option.bind_eq_some] at h
      obtain ⟨s2, h2, h3⟩ := h
      rw [ih s2 s1 h3, (evaluate_some _ _ _ _ _ _ _ h2).2.2.2.2]
      simp only [List.length_append, List.length_cons, List.length_nil]
      omega
  have := key _ st st1 h
  rwa [List.length_range] at this

/-- The face loop makes one `LogFace` call per evaluated surface. -/
theorem processFaces_log_length (options : Options) (farEval tmrEval : Evaluator)
    (regFaceSize : Nat) (patch patchHalf : tess.Patch) :
    ∀ (faces : List BaseFace) (surfIndex : Nat) (st st1 : FaceLoopState),
      processFaces options farEval tmrEval regFaceSize patch patchHalf faces surfIndex st
        = some st1 →
      st1.logFaceCalls.length
        = st.logFaceCalls.length + Spec.numSurfacesWithLimit regFaceSize faces := by
  intro faces
  induction faces with
  | nil =>
    intro surfIndex st st1 h
    simp only [processFaces, Option.some.injEq] at h
    subst h
    simp [Spec.numSurfacesWithLimit]
  | cons face rest ih =>
    intro surfIndex st st1 h
    simp only [processFaces] at h
    split at h
    · exact absurd h (by simp)
    · rename_i st2 hv
      rw [ih _ st2 st1 h]
      split_ifs at hv with hh hr
      · rw [(evaluate_some _ _ _ _ _ _ _ hv).2.2.2.2]
        have hr' : face.size = regFaceSize := by simpa using hr
        simp only [Bool.not_eq_true', Bool.not_eq_true] at hh
        simp [Spec.numSurfacesWithLimit, List.filter_cons, hh, hr']
        omega
      · rw [evaluateCorners_log_length _ _ _ _ _ _ _ _ hv]
        have hr' : ¬ face.size = regFaceSize := by simpa using hr
        simp only [Bool.not_eq_true', Bool.not_eq_true] at hh
        simp [Spec.numSurfacesWithLimit, List.filter_cons, hh, hr']
        omega
      · simp only [Option.some.injEq] at hv
        subst hv
        have hh' : face.isHole = true := by simpa using hh
        simp [Spec.numSurfacesWithLimit, List.filter_cons, hh']
/-! ## The pentagon run -/

namespace Examples

/-- Comparing `n` samples `(0,0,0)` with `n` samples `(1,0,0)` under tolerance 1/2 counts
`n` deltas. -/
theorem compare_unit_offset (d : VectorDelta) (n : Nat) (ht : d.tolerance = 1 / 2) :
    ∃ r, d.Compare (List.replicate n ⟨0, 0, 0⟩) (List.replicate n ⟨1, 0, 0⟩) = some r ∧
      r.numDeltas = (n : Int) ∧ r.tolerance = 1 / 2 := by
  obtain ⟨r, hr, _, _, htol, hn, _, _⟩ := VectorDelta.compare_summary d
    (List.replicate n ⟨0, 0, 0⟩) (List.replicate n ⟨1, 0, 0⟩) (by simp)
  refine ⟨r, hr, ?_, htol.trans ht⟩
  rw [hn, ht]
  have hall : Spec.exceedingIndices (1 / 2) (List.replicate n (⟨0, 0, 0⟩ : Vec3))
      (List.replicate n ⟨1, 0, 0⟩) = List.range n := by
    unfold Spec.exceedingIndices
    rw [List.length_replicate]
    apply List.filter_eq_self.mpr
    intro i hi
    have hi' : i < n := List.mem_range.mp hi
    have h0 : (List.replicate n (⟨0, 0, 0⟩ : Vec3)).getD i Vec3.zero = ⟨0, 0, 0⟩ := by
      rw [List.getD_eq_getElem _ _ (by simpa using hi')]
      simp
    have h1 : (List.replicate n (⟨1, 0, 0⟩ : Vec3)).getD i Vec3.zero = ⟨1, 0, 0⟩ := by
      rw [List.getD_eq_getElem _ _ (by simpa using hi')]
      simp
    rw [h0, h1]
    simp only [Spec.exceeds, decide_eq_true_eq]
    left
    norm_num
  rw [hall, List.length_range]

/-- One evaluation of the two constant evaluators `0` and `1` with position-only options:
it completes, keeps the position tolerance and raises `numFacesWithDeltas` by one. -/
theorem evaluate_unit_offset (options : Options) (ho : IsPositionOnly options)
    (st : FaceLoopState) (s : Nat) (t : tess.Patch) (hpos : 0 < t.u.length)
    (ht : st.deltaVecs.pDelta.tolerance = 1 / 2) :
    ∃ st1, evaluate options (constEvaluator 0) (constEvaluator 1) st s t = some st1 ∧
      st1.deltaVecs.pDelta.tolerance = 1 / 2 ∧
      st1.meshDelta.numFacesWithDeltas = st.meshDelta.numFacesWithDeltas + 1 ∧
      st1.logFaceCalls.length = st.logFaceCalls.length + 1 := by
  obtain ⟨r, hr, hn, htol⟩ := compare_unit_offset st.deltaVecs.pDelta t.u.length ht
  obtain ⟨h1, h2, h3, _, _⟩ := ho
  have hn0 : r.numDeltas ≠ 0 := by
    rw [hn]
    exact_mod_cast Nat.pos_iff_ne_zero.mp hpos
  have he : evaluate options (constEvaluator 0) (constEvaluator 1) st s t =
      some
        { farResults := constEvaluator 0 s t st.farResults,
          tmrResults := constEvaluator 1 s t st.tmrResults,
          deltaVecs := { st.deltaVecs with pDelta := r },
          faceDelta := st.faceDelta.AddDeltaVectors { st.deltaVecs with pDelta := r },
          meshDelta := st.meshDelta.AddFace
            (st.faceDelta.AddDeltaVectors { st.deltaVecs with pDelta := r }),
          logFaceCalls := st.logFaceCalls ++ [(s, { st.deltaVecs with pDelta := r })] } := by
    simp [evaluate, compareP, compareD1, compareD2, compareUV, h1, h2, h3, constEvaluator]
    rw [hr]
    rfl
  refine ⟨_, he, htol, ?_, ?_⟩
  · rw [evaluate_numFacesWithDeltas _ _ _ _ _ _ _ he]
    simp [Spec.anyDelta, hn0, boolToInt]
  · simp

end Examples
/-- When every face with a limit is regular, the evaluated surfaces are the faces. -/
theorem Spec.numSurfacesWithLimit_of_regular (regFaceSize : Nat) (faces : List BaseFace)
    (h : ∀ f ∈ faces, f.isHole = false → f.size = regFaceSize) :
    Spec.numSurfacesWithLimit regFaceSize faces = Spec.numFacesWithLimit faces := by
  induction faces with
  | nil => simp [Spec.numSurfacesWithLimit, Spec.numFacesWithLimit]
  | cons f rest ih =>
    have ih' := ih (fun g hg => h g (List.mem_cons_of_mem _ hg))
    unfold Spec.numSurfacesWithLimit Spec.numFacesWithLimit at ih' ⊢
    by_cases hh : f.isHole = true
    · simp [List.filter_cons, hh]
      simpa using ih'
    · have hh' : f.isHole = false := by simpa using hh
      have := h f (List.mem_cons_self _ _) hh'
      simp [List.filter_cons, hh', this]
      omega

/-- The mesh-level counter equals its start value plus the number of `LogFace` calls, that
is evaluated surfaces, for which a comparison reported a delta. -/
theorem processFaces_numFacesWithDeltas (options : Options) (farEval tmrEval : Evaluator)
    (regFaceSize : Nat) (patch patchHalf : tess.Patch) (n0 : Int)
    (faces : List BaseFace) (surfIndex : Nat) (st st1 : FaceLoopState)
    (h0 : st.meshDelta.numFacesWithDeltas
      = n0 + ((st.logFaceCalls.filter fun c => Spec.anyDelta c.2).length : Int))
    (h : processFaces options farEval tmrEval regFaceSize patch patchHalf faces surfIndex st
      = some st1) :
    st1.meshDelta.numFacesWithDeltas
      = n0 + ((st1.logFaceCalls.filter fun c => Spec.anyDelta c.2).length : Int) := by
  refine processFaces_invariant options farEval tmrEval regFaceSize patch patchHalf
    (fun s => s.meshDelta.numFacesWithDeltas
      = n0 + ((s.logFaceCalls.filter fun c => Spec.anyDelta c.2).length : Int))
    ?_ faces surfIndex st st1 h0 h
  intro s i t s1 _ hs he
  have hn := evaluate_numFacesWithDeltas _ _ _ _ _ _ _ he
  have hl := (evaluate_some _ _ _ _ _ _ _ he).2.2.2.2
  simp only at hs ⊢
  rw [hn, hs, hl, List.filter_append, List.length_append]
  by_cases ha : Spec.anyDelta s1.deltaVecs = true
  · simp [List.filter_cons, ha, boolToInt]
    ring
  · simp [List.filter_cons, ha, boolToInt]

/-- C6 (amended): after `RegressionTask::execute(bool)` has processed a mesh,
`numFacesWithDeltas` has grown by the number of evaluated surfaces (one per regular face
with a limit, one per corner of an irregular face with a limit) for which at least one
comparison reported a delta; each evaluated surface is counted at most once, so the growth
is at most the number of evaluated surfaces, which is the number of faces with a limit
surface when all of these are regular. -/
theorem executeLog_numFacesWithDeltas_counts_surfaces (env : Env) (cache : TessCache)
    (options : Options) (task : RegressionTask) (logMaya : Bool) (mesh : Mesh) (r : ExecResult)
    (hmesh : createMesh env options task.shapeDesc = some mesh)
    (hrun : task.executeLog env cache options logMaya = some r) :
    r.task.meshDelta.numFacesWithDeltas = task.meshDelta.numFacesWithDeltas
      + ((r.logFaceCalls.filter fun c => Spec.anyDelta c.2).length : Int) ∧
    r.logFaceCalls.length
      = Spec.numSurfacesWithLimit (GetRegularFaceSize mesh.refiner.schemeType)
          mesh.refiner.faces ∧
    r.task.meshDelta.numFacesWithDeltas ≤ task.meshDelta.numFacesWithDeltas
      + (Spec.numSurfacesWithLimit (GetRegularFaceSize mesh.refiner.schemeType)
          mesh.refiner.faces : Int) ∧
    ((∀ f ∈ mesh.refiner.faces, f.isHole = false →
        f.size = GetRegularFaceSize mesh.refiner.schemeType) →
      r.task.meshDelta.numFacesWithDeltas ≤ task.meshDelta.numFacesWithDeltas
        + (Spec.numFacesWithLimit mesh.refiner.faces : Int)) := by
  unfold RegressionTask.executeLog at hrun
  rw [hmesh] at hrun
  simp only at hrun
  split at hrun
  · exact absurd hrun (by simp)
  · rename_i st hst
    injection hrun with hrun
    subst hrun
    unfold processMesh at hst
    have hcount := processFaces_numFacesWithDeltas _ _ _ _ _ _ task.meshDelta.numFacesWithDeltas
      _ _ _ st (by simp [initialLoopState]) hst
    have hlen := processFaces_log_length _ _ _ _ _ _ _ _ _ st hst
    simp only [initialLoopState, List.length_nil, zero_add] at hlen
    have hle : ((st.logFaceCalls.filter fun c => Spec.anyDelta c.2).length : Int)
        ≤ (st.logFaceCalls.length : Int) := by
      exact_mod_cast List.length_filter_le _ _
    refine ⟨hcount, hlen, ?_, ?_⟩
    · simp only
      rw [hcount, ← hlen]
      omega
    · intro hreg
      simp only
      rw [← Spec.numSurfacesWithLimit_of_regular _ _ hreg, hcount, ← hlen]
      omega
namespace Examples

/-- For the stand-in library `env faces x`, `createMesh` succeeds with `mesh faces name`. -/
theorem createMesh_env (faces : List BaseFace) (x : ℚ) (options : Options) (name : String) :
    createMesh (env faces x) options (task name).shapeDesc = some (mesh faces name) := by
  simp [createMesh, env, shape, task, mesh, Shape.GetNumVertices, Shape.HasUV, Box.ofValues,
    List.range_succ]

/-- With position-only options the position tolerance of `mesh` is 1/2. -/
theorem initialLoopState_tolerance (options : Options) (ho : IsPositionOnly options)
    (faces : List BaseFace) (name : String) (md : MeshDelta) :
    (initialLoopState options (mesh faces name) md).deltaVecs.pDelta.tolerance = 1 / 2 := by
  simp [initialLoopState, FaceDeltaVectors.new, getRelativeTolerance, Box.diagonal, mesh,
    ho.2.2.2.1]

/-- The run of the evaluators `0` and `1` over any face list: it completes, and every
evaluated surface is counted in `numFacesWithDeltas`. -/
theorem executeLog_unit_offset (options : Options) (ho : IsPositionOnly options)
    (faces : List BaseFace) (cache : TessCache) (name : String) (logMaya : Bool)
    (hfull : 0 < (cache.patches tess.DomainMode.QUAD).1.u.length)
    (hhalf : 0 < (cache.patches tess.DomainMode.QUAD).2.u.length) :
    ∃ r, (task name).executeLog (env faces 1) cache options logMaya = some r ∧
      r.status = true ∧
      r.task.meshDelta.numFacesWithDeltas = (Spec.numSurfacesWithLimit 4 faces : Int) ∧
      r.task.isKnownFailure = false ∧ r.task.shapeDesc = (task name).shapeDesc := by
  have htot := processFaces_total options (constEvaluator 0) (constEvaluator 1) 4
    (cache.patches tess.DomainMode.QUAD).1 (cache.patches tess.DomainMode.QUAD).2
    (fun st => st.deltaVecs.pDelta.tolerance = 1 / 2 ∧
      st.meshDelta.numFacesWithDeltas = (st.logFaceCalls.length : Int))
    (fun st s t hpatch hP => by
      have hpos : 0 < t.u.length := by
        rcases hpatch with rfl | rfl
        · exact hfull
        · exact hhalf
      obtain ⟨st1, h1, ht, hn, hl⟩ := evaluate_unit_offset options ho st s t hpos hP.1
      refine ⟨st1, h1, ht, ?_⟩
      rw [hn, hl, hP.2]
      push_cast
      rfl)
    faces 0 (initialLoopState options (mesh faces name) {})
    ⟨initialLoopState_tolerance options ho faces name {}, by simp [initialLoopState]⟩
  obtain ⟨st1, h1, _, hn⟩ := htot
  have hlen := processFaces_log_length _ _ _ _ _ _ _ _ _ st1 h1
  have hpm : processMesh (env faces 1) cache options (mesh faces name)
      (initialLoopState options (mesh faces name) {}) = some st1 := by
    unfold processMesh
    simpa [mesh, env, GetRegularFaceSize] using h1
  refine ⟨{ status := true, task := { task name with meshDelta := st1.meshDelta },
            logFaceCalls := st1.logFaceCalls }, ?_, rfl, ?_, rfl, rfl⟩
  · unfold RegressionTask.executeLog
    rw [createMesh_env]
    simp only [task] at hpm ⊢
    rw [hpm]
  · simp only
    rw [hn, hlen]
    simp [initialLoopState]

/-- The options `positionOnly` are position-only. -/
theorem isPositionOnly_positionOnly : IsPositionOnly positionOnly :=
  ⟨rfl, rfl, rfl, rfl, rfl⟩

/-- The options `singleShape name` are position-only. -/
theorem isPositionOnly_singleShape (name : String) : IsPositionOnly (singleShape name) :=
  ⟨rfl, rfl, rfl, rfl, rfl⟩

/-- In the never-log mode `execute()` is `execute(false)`. -/
theorem execute_unit_offset (options : Options) (ho : IsPositionOnly options)
    (faces : List BaseFace) (cache : TessCache) (name : String)
    (hfull : 0 < (cache.patches tess.DomainMode.QUAD).1.u.length)
    (hhalf : 0 < (cache.patches tess.DomainMode.QUAD).2.u.length) :
    ∃ r, (task name).execute (env faces 1) cache options = some r ∧
      r.status = true ∧
      r.task.meshDelta.numFacesWithDeltas = (Spec.numSurfacesWithLimit 4 faces : Int) ∧
      r.task.isKnownFailure = false ∧ r.task.shapeDesc = (task name).shapeDesc := by
  unfold RegressionTask.execute
  rw [ho.2.2.2.2]
  exact executeLog_unit_offset options ho faces cache name false hfull hhalf

/-- The cache `cache` is what `populateTessCache` produces for rate 1. -/
theorem populateTessCache_one : populateTessCache {} 1 = some cache := rfl

/-- The full-resolution QUAD patch of `cache` has four sample points. -/
theorem cache_quad_full : (cache.patches tess.DomainMode.QUAD).1.u.length = 4 := rfl

/-- The half-resolution QUAD patch of `cache` has four sample points. -/
theorem cache_quad_half : (cache.patches tess.DomainMode.QUAD).2.u.length = 4 := rfl

end Examples

/-- C6 (counterexample): a mesh of one pentagon with a limit surface, evaluators that
disagree everywhere. The single face is counted five times, once per corner sub-patch. -/
theorem executeLog_counts_pentagon_five_times :
    ((Examples.task "pentagon").executeLog (Examples.env Examples.pentagon 1) Examples.cache
        Examples.positionOnly false).map (fun r => r.task.meshDelta.numFacesWithDeltas)
      = some 5 ∧
    Spec.numFacesWithLimit Examples.pentagon = 1 := by
  obtain ⟨r, hr, _, hn, _⟩ := Examples.executeLog_unit_offset Examples.positionOnly
    Examples.isPositionOnly_positionOnly Examples.pentagon Examples.cache "pentagon" false
    (by rw [Examples.cache_quad_full]; decide) (by rw [Examples.cache_quad_half]; decide)
  refine ⟨?_, by decide⟩
  rw [hr, Option.map_some', hn]
  decide

/-- Witness for C6 (amended): the pentagon run. -/
theorem executeLog_numFacesWithDeltas_counts_surfaces_witness :
    ∃ r, (Examples.task "pentagon").executeLog (Examples.env Examples.pentagon 1)
        Examples.cache Examples.positionOnly false = some r ∧
      r.task.meshDelta.numFacesWithDeltas
        = (Examples.task "pentagon").meshDelta.numFacesWithDeltas
          + ((r.logFaceCalls.filter fun c => Spec.anyDelta c.2).length : Int) ∧
      r.logFaceCalls.length = Spec.numSurfacesWithLimit
        (GetRegularFaceSize (Examples.mesh Examples.pentagon "pentagon").refiner.schemeType)
        (Examples.mesh Examples.pentagon "pentagon").refiner.faces := by
  obtain ⟨r, hr, _⟩ := Examples.executeLog_unit_offset Examples.positionOnly
    Examples.isPositionOnly_positionOnly Examples.pentagon Examples.cache "pentagon" false
    (by rw [Examples.cache_quad_full]; decide) (by rw [Examples.cache_quad_half]; decide)
  have h := executeLog_numFacesWithDeltas_counts_surfaces (Examples.env Examples.pentagon 1)
    Examples.cache Examples.positionOnly (Examples.task "pentagon") false
    (Examples.mesh Examples.pentagon "pentagon") r
    (Examples.createMesh_env Examples.pentagon 1 Examples.positionOnly "pentagon") hr
  exact ⟨r, hr, h.1, h.2.1⟩
/-! ## Identical evaluators -/

/-- Comparing a sequence with itself under a non-negative tolerance leaves the slot quiet. -/
theorem VectorDelta.compare_self_quiet (d : VectorDelta) (x : List Vec3) (ht : 0 ≤ d.tolerance) :
    ∃ r, d.Compare x x = some r ∧ r.Quiet := by
  obtain ⟨r, hr, _, _, rt, rn, _, hat⟩ := VectorDelta.compare_summary d x x rfl
  have hnil : Spec.exceedingIndices d.tolerance x x = [] := by
    apply List.eq_nil_iff_forall_not_mem.mpr
    intro i hi
    have := ((Spec.mem_exceedingIndices _ x x i).mp hi).2
    simp only [Spec.exceeds, sub_self, abs_zero] at this
    rcases this with h | h | h <;> exact absurd h (not_lt.mpr ht)
  refine ⟨r, hr, ?_, ?_, rt ▸ ht⟩
  · rw [rn, hnil]; rfl
  · rcases hat with h0 | ⟨i, hi, _⟩
    · exact h0
    · rw [hnil] at hi
      exact absurd hi (List.not_mem_nil i)

theorem compareP_same_quiet (r : EvalResults) (d : FaceDeltaVectors) (hd : d.Quiet) :
    ∃ d1, compareP r r d = some d1 ∧ d1.Quiet := by
  obtain ⟨hp, hdu, hdv, hduu, hduv, hdvv, huv⟩ := hd
  obtain ⟨p, h1, hq⟩ := VectorDelta.compare_self_quiet d.pDelta r.p hp.2.2
  exact ⟨{ d with pDelta := p }, by simp [compareP, h1], hq, hdu, hdv, hduu, hduv, hdvv, huv⟩

theorem compareD1_same_quiet (options : Options) (r : EvalResults) (d : FaceDeltaVectors)
    (hd : d.Quiet) : ∃ d1, compareD1 options r r d = some d1 ∧ d1.Quiet := by
  obtain ⟨hp, hdu, hdv, hduu, hduv, hdvv, huv⟩ := hd
  unfold compareD1
  split_ifs
  · obtain ⟨a, h1, hq1⟩ := VectorDelta.compare_self_quiet d.duDelta r.du hdu.2.2
    obtain ⟨b, h2, hq2⟩ := VectorDelta.compare_self_quiet d.dvDelta r.dv hdv.2.2
    exact ⟨{ d with duDelta := a, dvDelta := b }, by simp [h1, h2], hp, hq1, hq2, hduu, hduv,
      hdvv, huv⟩
  · exact ⟨d, rfl, hp, hdu, hdv, hduu, hduv, hdvv, huv⟩

theorem compareD2_same_quiet (options : Options) (r : EvalResults) (d : FaceDeltaVectors)
    (hd : d.Quiet) : ∃ d1, compareD2 options r r d = some d1 ∧ d1.Quiet := by
  obtain ⟨hp, hdu, hdv, hduu, hduv, hdvv, huv⟩ := hd
  unfold compareD2
  split_ifs
  · obtain ⟨a, h1, hq1⟩ := VectorDelta.compare_self_quiet d.duuDelta r.duu hduu.2.2
    obtain ⟨b, h2, hq2⟩ := VectorDelta.compare_self_quiet d.duvDelta r.duv hduv.2.2
    obtain ⟨c, h3, hq3⟩ := VectorDelta.compare_self_quiet d.dvvDelta r.dvv hdvv.2.2
    exact ⟨{ d with duuDelta := a, duvDelta := b, dvvDelta := c }, by simp [h1, h2, h3], hp, hdu,
      hdv, hq1, hq2, hq3, huv⟩
  · exact ⟨d, rfl, hp, hdu, hdv, hduu, hduv, hdvv, huv⟩

theorem compareUV_same_quiet (options : Options) (r : EvalResults) (d : FaceDeltaVectors)
    (hd : d.Quiet) : ∃ d1, compareUV options r r d = some d1 ∧ d1.Quiet := by
  obtain ⟨hp, hdu, hdv, hduu, hduv, hdvv, huv⟩ := hd
  unfold compareUV
  split_ifs
  · obtain ⟨a, h1, hq1⟩ := VectorDelta.compare_self_quiet d.uvDelta r.uv huv.2.2
    exact ⟨{ d with uvDelta := a }, by simp [h1], hp, hdu, hdv, hduu, hduv, hdvv, hq1⟩
  · exact ⟨d, rfl, hp, hdu, hdv, hduu, hduv, hdvv, huv⟩

/-- Quiet comparison slots aggregate to the cleared face summary. -/
theorem FaceDelta.addDeltaVectors_quiet (fd : FaceDelta) (d : FaceDeltaVectors) (hd : d.Quiet) :
    fd.AddDeltaVectors d = {} := by
  obtain ⟨hp, hdu, hdv, hduu, hduv, hdvv, huv⟩ := hd
  simp [FaceDelta.AddDeltaVectors, FaceDelta.AddPDelta, FaceDelta.AddDuDelta,
    FaceDelta.AddDvDelta, FaceDelta.AddDuuDelta, FaceDelta.AddDuvDelta, FaceDelta.AddDvvDelta,
    FaceDelta.AddUVDelta, FaceDelta.Clear, hp.1, hdu.1, hdv.1, hduu.1, hduv.1, hdvv.1, huv.1]

/-- With evaluators that agree on every call, `evaluate` completes and keeps the state
agreeing. -/
theorem evaluate_agreeing (options : Options) (farEval tmrEval : Evaluator)
    (hsame : ∀ s t r, farEval s t r = tmrEval s t r) (st : FaceLoopState) (s : Nat)
    (t : tess.Patch) (hst : st.Agreeing) :
    ∃ st1, evaluate options farEval tmrEval st s t = some st1 ∧ st1.Agreeing := by
  obtain ⟨hres, hq, hm⟩ := hst
  unfold evaluate
  simp only
  rw [hsame, hres]
  obtain ⟨d1, h1, q1⟩ := compareP_same_quiet (tmrEval s t st.tmrResults) st.deltaVecs hq
  obtain ⟨d2, h2, q2⟩ := compareD1_same_quiet options (tmrEval s t st.tmrResults) d1 q1
  obtain ⟨d3, h3, q3⟩ := compareD2_same_quiet options (tmrEval s t st.tmrResults) d2 q2
  obtain ⟨d4, h4, q4⟩ := compareUV_same_quiet options (tmrEval s t st.tmrResults) d3 q3
  simp only [h1, h2, h3, h4, Option.some_bind]
  refine ⟨_, rfl, rfl, q4, ?_⟩
  simp only
  rw [FaceDelta.addDeltaVectors_quiet _ _ q4, hm]
  simp [MeshDelta.AddFace, boolToInt]

/-- The tolerance used is never below a non-negative absolute tolerance. -/
theorem getRelativeTolerance_nonneg (box : Box) (scale : ℚ) (h : 0 ≤ scale) :
    0 ≤ getRelativeTolerance box scale := by
  unfold getRelativeTolerance
  exact le_trans h (le_max_left _ _)

/-- The loop state set up by `execute(bool)` for a fresh task is agreeing. -/
theorem initialLoopState_agreeing (options : Options) (mesh : Mesh)
    (htol : 0 ≤ options.tolerance) (huv : 0 ≤ options.uvTolerance) :
    (initialLoopState options mesh {}).Agreeing := by
  have hp := getRelativeTolerance_nonneg mesh.posbox options.tolerance htol
  have hu := getRelativeTolerance_nonneg mesh.uvbox options.uvTolerance huv
  refine ⟨rfl, ?_, rfl⟩
  simp only [initialLoopState, FaceDeltaVectors.new, FaceDeltaVectors.Quiet, VectorDelta.Quiet,
    true_and]
  refine ⟨hp, ?_, ?_, ?_, ?_, ?_, hu⟩ <;> positivity
/-! ## Task runs -/

/-- A run of `execute(bool)` on a mesh whose evaluators agree on every call completes with
status `true` and an all-zero mesh summary. -/
theorem executeLog_agreeing (env : Env) (cache : TessCache) (options : Options)
    (task : RegressionTask) (logMaya : Bool) (mesh : Mesh)
    (hmesh : createMesh env options task.shapeDesc = some mesh)
    (htol : 0 ≤ options.tolerance) (huv : 0 ≤ options.uvTolerance)
    (hsame : ∀ s t r, env.farEvaluate options mesh s t r = env.tmrEvaluate options mesh s t r)
    (hfresh : task.meshDelta = {}) :
    ∃ r, task.executeLog env cache options logMaya = some r ∧ r.status = true ∧
      r.task = task := by
  obtain ⟨st, hst, _, _, hm⟩ := processFaces_total options (env.farEvaluate options mesh)
    (env.tmrEvaluate options mesh) (GetRegularFaceSize mesh.refiner.schemeType)
    (cache.patches (if mesh.refiner.schemeType = SchemeType.SCHEME_CATMARK
      then tess.DomainMode.QUAD else tess.DomainMode.TRIANGLE)).1
    (cache.patches (if mesh.refiner.schemeType = SchemeType.SCHEME_CATMARK
      then tess.DomainMode.QUAD else tess.DomainMode.TRIANGLE)).2
    FaceLoopState.Agreeing
    (fun st s t _ h => evaluate_agreeing options _ _ hsame st s t h)
    mesh.refiner.faces 0 (initialLoopState options mesh {})
    (initialLoopState_agreeing options mesh htol huv)
  have hpm : processMesh env cache options mesh (initialLoopState options mesh task.meshDelta)
      = some st := by
    rw [hfresh]
    exact hst
  refine ⟨{ status := true, task := { task with meshDelta := st.meshDelta },
            logFaceCalls := st.logFaceCalls }, ?_, rfl, ?_⟩
  · unfold RegressionTask.executeLog
    rw [hmesh]
    simp only
    rw [hpm]
  · simp only
    rw [hm, ← hfresh]

/-- What `execute(bool)` keeps: the shape and the known-failure flag of the task; when it
returns `false` the task is unchanged. -/
theorem executeLog_keeps (env : Env) (cache : TessCache) (options : Options)
    (task : RegressionTask) (logMaya : Bool) (r : ExecResult)
    (h : task.executeLog env cache options logMaya = some r) :
    r.task.shapeDesc = task.shapeDesc ∧ r.task.isKnownFailure = task.isKnownFailure ∧
    (r.status = false → r.task = task) ∧
    (r.status = true ↔ (createMesh env options task.shapeDesc).isSome = true) := by
  unfold RegressionTask.executeLog at h
  split at h
  · rename_i hm
    injection h with h
    subst h
    simp [hm]
  · rename_i mesh hm
    split at h
    · exact absurd h (by simp)
    · injection h with h
      subst h
      simp [hm]

/-- The counter `numFacesWithDeltas` never decreases during `execute(bool)`. -/
theorem executeLog_numFacesWithDeltas_mono (env : Env) (cache : TessCache) (options : Options)
    (task : RegressionTask) (logMaya : Bool) (r : ExecResult)
    (h : task.executeLog env cache options logMaya = some r) :
    task.meshDelta.numFacesWithDeltas ≤ r.task.meshDelta.numFacesWithDeltas := by
  unfold RegressionTask.executeLog at h
  split at h
  · injection h with h
    subst h
    exact le_refl _
  · rename_i mesh hm
    split at h
    · exact absurd h (by simp)
    · rename_i st hst
      injection h with h
      subst h
      unfold processMesh at hst
      have := processFaces_numFacesWithDeltas _ _ _ _ _ _ task.meshDelta.numFacesWithDeltas
        _ _ _ st (by simp [initialLoopState]) hst
      simp only
      rw [this]
      omega

/-- When `createMesh` fails, `execute(bool)` returns `false` and leaves the task as it was. -/
theorem executeLog_of_createMesh_none (env : Env) (cache : TessCache) (options : Options)
    (task : RegressionTask) (logMaya : Bool)
    (hmesh : createMesh env options task.shapeDesc = none) :
    task.executeLog env cache options logMaya = some { status := false, task := task } := by
  unfold RegressionTask.executeLog
  rw [hmesh]

/-- What `execute()` keeps in every logging mode. -/
theorem execute_keeps (env : Env) (cache : TessCache) (options : Options)
    (task : RegressionTask) (r : ExecResult)
    (h : task.execute env cache options = some r) :
    r.task.shapeDesc = task.shapeDesc ∧ r.task.isKnownFailure = task.isKnownFailure ∧
    (0 ≤ task.meshDelta.numFacesWithDeltas → 0 ≤ r.task.meshDelta.numFacesWithDeltas) := by
  unfold RegressionTask.execute at h
  split at h
  · obtain ⟨h1, h2, _⟩ := executeLog_keeps _ _ _ _ _ _ h
    exact ⟨h1, h2, fun h0 => le_trans h0 (executeLog_numFacesWithDeltas_mono _ _ _ _ _ _ h)⟩
  · obtain ⟨h1, h2, _⟩ := executeLog_keeps _ _ _ _ _ _ h
    exact ⟨h1, h2, fun h0 => le_trans h0 (executeLog_numFacesWithDeltas_mono _ _ _ _ _ _ h)⟩
  · split at h
    · exact absurd h (by simp)
    · rename_i first hfirst
      obtain ⟨h1, h2, _⟩ := executeLog_keeps _ _ _ _ _ _ hfirst
      split_ifs at h with hpos
      · split at h
        · exact absurd h (by simp)
        · rename_i second hsecond
          injection h with h
          subst h
          obtain ⟨k1, k2, _⟩ := executeLog_keeps _ _ _ _ _ _ hsecond
          refine ⟨k1.trans h1, k2.trans h2, fun _ => ?_⟩
          have := executeLog_numFacesWithDeltas_mono _ _ _ _ _ _ hsecond
          simpa using this
      · injection h with h
        subst h
        exact ⟨h1, h2, fun h0 =>
          le_trans h0 (executeLog_numFacesWithDeltas_mono _ _ _ _ _ _ hfirst)⟩
/-! ## Batch classification -/

namespace TasksBatch

/-- The lambda `executeTask` on a task whose run completed without a delta: `pass`. -/
theorem executeTask_pass (env : Env) (cache : TessCache) (g : Globals) (b : TasksBatch)
    (task : RegressionTask) (r : ExecResult)
    (h : task.execute env cache b.options = some r) (hs : r.status = true)
    (h0 : r.task.meshDelta.numFacesWithDeltas = 0) :
    b.executeTask env cache g task =
      some ({ g with _pass := g._pass + 1, _completed := g._completed + 1 },
        { b with pass := b.pass + 1 }, r.task) := by
  unfold executeTask
  rw [h]
  simp [hs, h0]

/-- The lambda `executeTask` on a task that ends with a positive delta count:
`knownFail` or `fail` according to the known-failure flag. -/
theorem executeTask_delta (env : Env) (cache : TessCache) (g : Globals) (b : TasksBatch)
    (task : RegressionTask) (r : ExecResult)
    (h : task.execute env cache b.options = some r)
    (hpos : 0 < r.task.meshDelta.numFacesWithDeltas) :
    b.executeTask env cache g task =
      some (if r.task.isKnownFailure then
          ({ g with _knownFail := g._knownFail + 1, _completed := g._completed + 1 },
            { b with knownFail := b.knownFail + 1 }, r.task)
        else
          ({ g with _fail := g._fail + 1, _completed := g._completed + 1 },
            { b with fail := b.fail + 1 }, r.task)) := by
  unfold executeTask
  rw [h]
  have hne : ¬ r.task.meshDelta.numFacesWithDeltas = 0 := by omega
  by_cases hk : r.task.isKnownFailure = true <;> simp [hne, hpos, hk]

/-- The lambda `executeTask` on a task that returns `false` without a delta: only the
global `_completed` counter moves. -/
theorem executeTask_uncounted (env : Env) (cache : TessCache) (g : Globals) (b : TasksBatch)
    (task : RegressionTask) (r : ExecResult)
    (h : task.execute env cache b.options = some r) (hs : r.status = false)
    (h0 : r.task.meshDelta.numFacesWithDeltas = 0) :
    b.executeTask env cache g task =
      some ({ g with _completed := g._completed + 1 }, b, r.task) := by
  unfold executeTask
  rw [h]
  simp [hs, h0]

end TasksBatch

/-- C5: for every created mesh, non-negative `tolerance` and `uvTolerance`, and evaluators
that return identical results on every call, a fresh task completes with status `true`,
its `meshDelta` stays all-zero (`numFacesWithDeltas = 0`, every other counter and maximum
0), and the batch counts it as `pass` and as nothing else. -/
theorem execute_identical_evaluators_pass (env : Env) (cache : TessCache) (options : Options)
    (task : RegressionTask) (mesh : Mesh)
    (hmesh : createMesh env options task.shapeDesc = some mesh)
    (htol : 0 ≤ options.tolerance) (huv : 0 ≤ options.uvTolerance)
    (hsame : ∀ s t r, env.farEvaluate options mesh s t r = env.tmrEvaluate options mesh s t r)
    (hfresh : task.meshDelta = {}) :
    ∃ r, task.execute env cache options = some r ∧ r.status = true ∧
      r.task.meshDelta = {} ∧
      ∀ (g : Globals) (b : TasksBatch), b.options = options →
        ∃ g1 b1, b.executeTask env cache g task = some (g1, b1, r.task) ∧
          b1.pass = b.pass + 1 ∧ b1.knownFail = b.knownFail ∧ b1.fail = b.fail := by
  have hlog : ∀ logMaya, ∃ r, task.executeLog env cache options logMaya = some r ∧
      r.status = true ∧ r.task = task :=
    fun logMaya => executeLog_agreeing env cache options task logMaya mesh hmesh htol huv hsame
      hfresh
  have hex : ∃ r, task.execute env cache options = some r ∧ r.status = true ∧ r.task = task := by
    unfold RegressionTask.execute
    split
    · exact hlog true
    · exact hlog false
    · obtain ⟨r, hr, hs, ht⟩ := hlog false
      rw [hr]
      simp only
      have h0 : ¬ r.task.meshDelta.numFacesWithDeltas > 0 := by
        rw [ht, hfresh]
        decide
      rw [if_neg h0]
      exact ⟨r, rfl, hs, ht⟩
  obtain ⟨r, hr, hs, ht⟩ := hex
  have hmd : r.task.meshDelta = {} := by rw [ht, hfresh]
  refine ⟨r, hr, hs, hmd, ?_⟩
  intro g b hb
  subst hb
  refine ⟨_, _, TasksBatch.executeTask_pass env cache g b task r hr hs (by rw [hmd]), rfl, rfl,
    rfl⟩

/-- Witness for C5: the stand-in library with both evaluators equal, on a pentagon. -/
theorem execute_identical_evaluators_pass_witness :
    ∃ r, (Examples.task "pentagon").execute (Examples.env Examples.pentagon 0) Examples.cache
        Examples.positionOnly = some r ∧ r.status = true ∧
      r.task.meshDelta = {} ∧
      ∀ (g : Globals) (b : TasksBatch), b.options = Examples.positionOnly →
        ∃ g1 b1, b.executeTask (Examples.env Examples.pentagon 0) Examples.cache g
            (Examples.task "pentagon") = some (g1, b1, r.task) ∧
          b1.pass = b.pass + 1 ∧ b1.knownFail = b.knownFail ∧ b1.fail = b.fail :=
  execute_identical_evaluators_pass (Examples.env Examples.pentagon 0) Examples.cache
    Examples.positionOnly (Examples.task "pentagon") (Examples.mesh Examples.pentagon "pentagon")
    (Examples.createMesh_env Examples.pentagon 0 Examples.positionOnly "pentagon")
    (by norm_num [Examples.positionOnly]) (by norm_num [Examples.positionOnly])
    (fun _ _ _ => rfl) rfl
/-! ## Input errors -/

/-- The five ways in which `createMesh` returns `nullptr`. -/
theorem createMesh_eq_none_iff (env : Env) (options : Options) (d : ShapeDesc) :
    createMesh env options d = none ↔
      (env.parseObj d.data d.scheme = none ∨
        ∃ shape, env.parseObj d.data d.scheme = some shape ∧
          ((shape.scheme ≠ Scheme.kCatmark ∧ shape.scheme ≠ Scheme.kLoop) ∨
            shape.uvs.isEmpty ≠ shape.faceuvs.isEmpty ∨
            shape.GetNumVertices = 0 ∨
            env.createRefiner shape options.fvarBoundary = none)) := by
  unfold createMesh
  cases hp : env.parseObj d.data d.scheme with
  | none => simp
  | some shape =>
    simp only [Option.some.injEq, false_or, exists_eq_left', reduceCtorEq]
    by_cases h1 : shape.scheme ≠ Scheme.kCatmark ∧ shape.scheme ≠ Scheme.kLoop
    · simp [h1]
    · rw [if_neg h1]
      by_cases h2 : shape.uvs.isEmpty ≠ shape.faceuvs.isEmpty
      · simp [h2]
      · rw [if_neg h2]
        by_cases h3 : shape.GetNumVertices > 0
        · rw [if_pos h3]
          cases hr : env.createRefiner shape options.fvarBoundary with
          | none => simp
          | some refiner =>
            simp only [reduceCtorEq, false_iff, not_or, or_false]
            exact ⟨h1, h2, by omega⟩
        · rw [if_neg h3]
          have : shape.GetNumVertices = 0 := by omega
          simp [this]

/-- When `createMesh` fails for a task without deltas, `execute()` returns `false` in every
logging mode and leaves the task as it was. -/
theorem execute_of_createMesh_none (env : Env) (cache : TessCache) (options : Options)
    (task : RegressionTask) (hmesh : createMesh env options task.shapeDesc = none)
    (hfresh : task.meshDelta.numFacesWithDeltas = 0) :
    task.execute env cache options = some { status := false, task := task } := by
  have hlog := fun logMaya => executeLog_of_createMesh_none env cache options task logMaya hmesh
  unfold RegressionTask.execute
  split
  · exact hlog true
  · exact hlog false
  · rw [hlog false]
    simp only
    rw [if_neg (by rw [hfresh]; decide)]

/-! ## Known failures and task creation -/

/-- A string without NUL characters is its own C string. -/
theorem cstrz_of_no_nul (s : String) (h : Char.ofNat 0 ∉ s.toList) :
    cstrz s = s.toList ++ [Char.ofNat 0] := by
  unfold cstrz
  congr 1
  apply List.takeWhile_eq_self_iff.mpr
  intro c hc
  simp only [bne_iff_ne, ne_eq]
  intro hc0
  exact h (hc0 ▸ hc)

/-- On strings without NUL characters, `strcmp(a, b) == 0` is equality of the strings. -/
theorem strcmpEq_iff (a b : String) (ha : Char.ofNat 0 ∉ a.toList)
    (hb : Char.ofNat 0 ∉ b.toList) : strcmpEq a b = true ↔ a = b := by
  unfold strcmpEq
  rw [cstrz_of_no_nul a ha, cstrz_of_no_nul b hb, beq_iff_eq]
  constructor
  · intro h
    have := List.append_cancel_right h
    exact String.ext this
  · intro h
    rw [h]

/-- For a shape name without NUL characters, `isKnownFailure` is membership of the name in
the table `_knownFailures`. -/
theorem isKnownFailure_iff (shape : ShapeDesc) (h : Char.ofNat 0 ∉ shape.name.toList) :
    isKnownFailure shape = true ↔ shape.name ∈ _knownFailures := by
  unfold isKnownFailure
  rw [List.any_eq_true]
  constructor
  · rintro ⟨name, hmem, heq⟩
    have hname : Char.ofNat 0 ∉ name.toList := by
      simp only [_knownFailures, List.mem_cons, List.mem_singleton, List.not_mem_nil,
        or_false] at hmem
      rcases hmem with rfl | rfl | rfl | rfl <;> decide
    rw [(strcmpEq_iff shape.name name h hname).mp heq]
    exact hmem
  · intro hmem
    exact ⟨shape.name, hmem, (strcmpEq_iff shape.name shape.name h h).mpr rfl⟩

/-- The tasks that `initTasks` creates: one fresh task per shape outside the skip set, in
shape order, flagged as known failure when the mode is on and the shape is in the table. -/
theorem TasksBatch.initTasks_tasks (self : TasksBatch) (opts : Options) :
    (self.initTasks opts).tasks = self.tasks ++
      ((opts.shapes.filter fun shape =>
          !(_skipSet.any fun skipname => strncmpEq shape.name skipname shape.name.length)).map
        fun shape =>
          ({ shapeDesc := shape,
             isKnownFailure := opts.ignoreKnownFailures && isKnownFailure shape } :
            RegressionTask)) := by
  unfold TasksBatch.initTasks
  simp only
  generalize self.tasks = acc
  induction opts.shapes generalizing acc with
  | nil => simp
  | cons shape rest ih =>
    simp only [List.foldl_cons]
    rw [ih]
    by_cases hskip : (_skipSet.any fun skipname =>
        strncmpEq shape.name skipname shape.name.length) = true
    · simp [List.filter_cons, hskip]
    · simp [List.filter_cons, hskip]
/-- C3: for a task created by `TasksBatch::initialize` (shape name without NUL characters)
whose run completed, `executeTask` increments exactly one of `pass`, `knownFail`, `fail`,
by one: `pass` iff `numFacesWithDeltas == 0`; otherwise `knownFail` iff the mode
`ignoreKnownFailures` was requested and the shape name is an entry of `_knownFailures`;
otherwise `fail`. The task's flag is
`isKnownFailure = options.ignoreKnownFailures && isKnownFailure(shape)`. -/
theorem executeTask_classification (env : Env) (cache : TessCache) (g : Globals)
    (opts : Options) (b : TasksBatch) (task : RegressionTask) (r : ExecResult)
    (hmem : task ∈ (({} : TasksBatch).initTasks opts).tasks)
    (hnul : Char.ofNat 0 ∉ task.shapeDesc.name.toList)
    (hrun : task.execute env cache b.options = some r) (hdone : r.status = true) :
    task.isKnownFailure = (opts.ignoreKnownFailures && isKnownFailure task.shapeDesc) ∧
    ∃ g1 b1, b.executeTask env cache g task = some (g1, b1, r.task) ∧
      (b1.pass, b1.knownFail, b1.fail) =
        if r.task.meshDelta.numFacesWithDeltas = 0 then (b.pass + 1, b.knownFail, b.fail)
        else if opts.ignoreKnownFailures = true ∧ task.shapeDesc.name ∈ _knownFailures then
          (b.pass, b.knownFail + 1, b.fail)
        else (b.pass, b.knownFail, b.fail + 1) := by
  rw [TasksBatch.initTasks_tasks] at hmem
  simp only [List.nil_append, List.mem_map, List.mem_filter] at hmem
  obtain ⟨shape, _, rfl⟩ := hmem
  simp only at hnul ⊢
  refine ⟨trivial, ?_⟩
  obtain ⟨_, hkf, hnn⟩ := execute_keeps env cache b.options _ r hrun
  have hnonneg : 0 ≤ r.task.meshDelta.numFacesWithDeltas := hnn (le_refl _)
  by_cases h0 : r.task.meshDelta.numFacesWithDeltas = 0
  · refine ⟨_, _, TasksBatch.executeTask_pass env cache g b _ r hrun hdone h0, ?_⟩
    rw [if_pos h0]
  · have hpos : 0 < r.task.meshDelta.numFacesWithDeltas := by omega
    have hstep := TasksBatch.executeTask_delta env cache g b _ r hrun hpos
    rw [if_neg h0]
    simp only at hkf
    by_cases hk : opts.ignoreKnownFailures = true ∧ shape.name ∈ _knownFailures
    · have hflag : r.task.isKnownFailure = true := by
        rw [hkf, hk.1, (isKnownFailure_iff shape hnul).mpr hk.2]
        rfl
      rw [hflag] at hstep
      exact ⟨_, _, hstep, by rw [if_pos hk]⟩
    · have hflag : r.task.isKnownFailure = false := by
        rw [hkf]
        by_cases hi : opts.ignoreKnownFailures = true
        · have : ¬ isKnownFailure shape = true :=
            fun h => hk ⟨hi, (isKnownFailure_iff shape hnul).mp h⟩
          simp [this]
        · simp [hi]
      rw [hflag] at hstep
      exact ⟨_, _, hstep, by rw [if_neg hk]⟩

/-- Witness for C3: the pentagon shape with disagreeing evaluators, in a batch created from
the single-shape options. -/
theorem executeTask_classification_witness :
    Examples.task "pentagon" ∈
        (({} : TasksBatch).initTasks (Examples.singleShape "pentagon")).tasks ∧
    Char.ofNat 0 ∉ (Examples.task "pentagon").shapeDesc.name.toList ∧
    ∃ r, (Examples.task "pentagon").execute (Examples.env Examples.pentagon 1) Examples.cache
          (({} : TasksBatch).initTasks (Examples.singleShape "pentagon")).options = some r ∧
      r.status = true ∧
      ∃ g1 b1, (({} : TasksBatch).initTasks (Examples.singleShape "pentagon")).executeTask
            (Examples.env Examples.pentagon 1) Examples.cache {} (Examples.task "pentagon")
          = some (g1, b1, r.task) ∧
        (b1.pass, b1.knownFail, b1.fail) =
          if r.task.meshDelta.numFacesWithDeltas = 0 then
            ((({} : TasksBatch).initTasks (Examples.singleShape "pentagon")).pass + 1,
              (({} : TasksBatch).initTasks (Examples.singleShape "pentagon")).knownFail,
              (({} : TasksBatch).initTasks (Examples.singleShape "pentagon")).fail)
          else if (Examples.singleShape "pentagon").ignoreKnownFailures = true ∧
              (Examples.task "pentagon").shapeDesc.name ∈ _knownFailures then
            ((({} : TasksBatch).initTasks (Examples.singleShape "pentagon")).pass,
              (({} : TasksBatch).initTasks (Examples.singleShape "pentagon")).knownFail + 1,
              (({} : TasksBatch).initTasks (Examples.singleShape "pentagon")).fail)
          else
            ((({} : TasksBatch).initTasks (Examples.singleShape "pentagon")).pass,
              (({} : TasksBatch).initTasks (Examples.singleShape "pentagon")).knownFail,
              (({} : TasksBatch).initTasks (Examples.singleShape "pentagon")).fail + 1) := by
  obtain ⟨r, hr, hs, _⟩ := Examples.execute_unit_offset (Examples.singleShape "pentagon")
    (Examples.isPositionOnly_singleShape "pentagon") Examples.pentagon Examples.cache "pentagon"
    (by rw [Examples.cache_quad_full]; decide) (by rw [Examples.cache_quad_half]; decide)
  exact ⟨by decide, by decide, r, hr, hs,
    (executeTask_classification (Examples.env Examples.pentagon 1) Examples.cache {}
      (Examples.singleShape "pentagon")
      (({} : TasksBatch).initTasks (Examples.singleShape "pentagon"))
      (Examples.task "pentagon") r (by decide) (by decide) hr hs).2⟩
/-! ## Failure count and exit status -/

namespace TasksBatch

/-- One `executeTask` call raises `fail` by one exactly when the executed task ends as a
failed task; options and `tasks` of the batch are untouched. -/
theorem executeTask_fail (env : Env) (cache : TessCache) (g g1 : Globals) (b b1 : TasksBatch)
    (task task1 : RegressionTask)
    (h : b.executeTask env cache g task = some (g1, b1, task1)) :
    b1.options = b.options ∧ b1.tasks = b.tasks ∧
      b1.fail = b.fail + ((Spec.failedTasks [task1]).length : Int) := by
  unfold executeTask at h
  split at h
  · exact absurd h (by simp)
  · rename_i r hr
    simp only [Option.some.injEq, Prod.mk.injEq] at h
    obtain ⟨_, hb, ht⟩ := h
    subst ht
    by_cases hp : (r.status && decide (r.task.meshDelta.numFacesWithDeltas = 0)) = true
    · rw [if_pos hp] at hb
      subst hb
      have h0 : r.task.meshDelta.numFacesWithDeltas = 0 := by
        simp only [Bool.and_eq_true, decide_eq_true_eq] at hp
        exact hp.2
      simp [Spec.failedTasks, h0]
    · rw [if_neg hp] at hb
      by_cases hpos : r.task.meshDelta.numFacesWithDeltas > 0
      · rw [if_pos hpos] at hb
        by_cases hk : r.task.isKnownFailure = true
        · rw [if_pos hk] at hb
          subst hb
          simp [Spec.failedTasks, hk]
        · rw [if_neg hk] at hb
          subst hb
          simp [Spec.failedTasks, hk, hpos]
      · rw [if_neg hpos] at hb
        subst hb
        simp [Spec.failedTasks, hpos]

/-- The task loop of `execute`: `fail` grows by the number of failed tasks among the
executed ones, which are appended to `done` one per task. -/
theorem executeLoop_fail (env : Env) (cache : TessCache) :
    ∀ (tasks : List RegressionTask) (g g1 : Globals) (b b1 : TasksBatch)
      (done done1 : List RegressionTask),
      executeLoop env cache tasks g b done = some (g1, b1, done1) →
      b1.options = b.options ∧
      ∃ results, done1 = done ++ results ∧ results.length = tasks.length ∧
        b1.fail = b.fail + ((Spec.failedTasks results).length : Int) := by
  intro tasks
  induction tasks with
  | nil =>
    intro g g1 b b1 done done1 h
    simp only [executeLoop, Option.some.injEq, Prod.mk.injEq] at h
    obtain ⟨_, hb, hd⟩ := h
    subst hb hd
    exact ⟨rfl, [], by simp, rfl, by simp [Spec.failedTasks]⟩
  | cons task rest ih =>
    intro g g1 b b1 done done1 h
    simp only [executeLoop] at h
    split at h
    · exact absurd h (by simp)
    · rename_i g2 b2 task2 hstep
      obtain ⟨ho, _, hf⟩ := executeTask_fail env cache g g2 b b2 task task2 hstep
      obtain ⟨ho2, results, hd, hl, hf2⟩ := ih g2 g1 b2 b1 (done ++ [task2]) done1 h
      refine ⟨ho2.trans ho, task2 :: results, ?_, ?_, ?_⟩
      · rw [hd]; simp
      · simp [hl]
      · rw [hf2, hf]
        simp only [Spec.failedTasks, List.filter_cons, List.filter_nil]
        split_ifs
        · simp
          ring
        · simp

/-- Method `execute()`: afterwards `fail` has grown by the number of failed tasks of the
batch, whose task list is a rearrangement of the executed tasks. -/
theorem execute_fail (env : Env) (cache : TessCache) (g g1 : Globals) (b b1 : TasksBatch)
    (h : b.execute env cache g = some (g1, b1)) :
    b1.tasks.length = b.tasks.length ∧
      b1.fail = b.fail + ((Spec.failedTasks b1.tasks).length : Int) := by
  unfold execute at h
  split at h
  · exact absurd h (by simp)
  · rename_i g2 b2 done hloop
    simp only [Option.some.injEq, Prod.mk.injEq] at h
    obtain ⟨_, hb⟩ := h
    subst hb
    obtain ⟨_, results, hd, hl, hf⟩ := executeLoop_fail env cache _ _ _ _ _ _ _ hloop
    simp only [List.nil_append] at hd
    subst hd
    refine ⟨by simp [hl], ?_⟩
    simp only
    rw [hf]
    have hperm := List.mergeSort_perm done (fun a b =>
      decide (a.meshDelta.numFacesWithDeltas ≤ b.meshDelta.numFacesWithDeltas))
    have := (hperm.filter (fun t =>
      decide (t.meshDelta.numFacesWithDeltas > 0) && !t.isKnownFailure)).length_eq
    unfold Spec.failedTasks
    rw [this]

/-- A batch made by `initTasks` from an empty batch has at most one task per shape. -/
theorem initTasks_length_le (opts : Options) :
    (({} : TasksBatch).initTasks opts).tasks.length ≤ opts.shapes.length := by
  rw [initTasks_tasks]
  simp only [List.nil_append, List.length_map]
  exact List.length_filter_le _ _

end TasksBatch

/-- The failed tasks of a list are at most as many as the tasks. -/
theorem Spec.failedTasks_length_le (tasks : List RegressionTask) :
    (Spec.failedTasks tasks).length ≤ tasks.length :=
  List.length_filter_le _ _

/-- The conversion to `uint32_t` keeps a count below 2^32. -/
theorem toUint32_natCast (n : Nat) (h : n < 4294967296) : toUint32 (n : Int) = n := by
  unfold toUint32
  omega
/-- Function `runSingleBatch`: the returned count is the number of failed tasks. -/
theorem runSingleBatch_failures (env : Env) (cache : TessCache) (g g1 : Globals)
    (options : Options) (tests : TasksBatch) (n : Nat)
    (hsize : options.shapes.length < 4294967296)
    (h : runSingleBatch env cache g options = some (g1, tests, n)) :
    n = (Spec.failedTasks tests.tasks).length := by
  unfold runSingleBatch at h
  simp only at h
  split at h
  · exact absurd h (by simp)
  · rename_i g2 tests1 hex
    simp only [Option.some.injEq, Prod.mk.injEq] at h
    obtain ⟨_, ht, hn⟩ := h
    subst ht
    obtain ⟨hl, hf⟩ := TasksBatch.execute_fail env cache _ _ _ _ hex
    have h0 : (({} : TasksBatch).initTasks options).fail = 0 := rfl
    rw [h0, zero_add] at hf
    rw [← hn, hf]
    apply toUint32_natCast
    have := Spec.failedTasks_length_le tests1.tasks
    have := TasksBatch.initTasks_length_le options
    omega

/-- The batch loop of `runStandardBatches`: every executed batch reports as `fail` the
number of its failed tasks, and keeps its number of tasks within the bound `m`. -/
theorem executeBatches_fail (env : Env) (cache : TessCache) (m : Nat) :
    ∀ (batches : List TasksBatch) (g g1 : Globals) (done done1 : List TasksBatch),
      executeBatches env cache batches g done = some (g1, done1) →
      (∀ b ∈ batches, b.fail = 0 ∧ b.tasks.length ≤ m) →
      (∀ b ∈ done, b.fail = ((Spec.failedTasks b.tasks).length : Int) ∧ b.tasks.length ≤ m) →
      (∀ b ∈ done1, b.fail = ((Spec.failedTasks b.tasks).length : Int) ∧ b.tasks.length ≤ m) ∧
        done1.length = done.length + batches.length := by
  intro batches
  induction batches with
  | nil =>
    intro g g1 done done1 h _ hdone
    simp only [executeBatches, Option.some.injEq, Prod.mk.injEq] at h
    obtain ⟨_, hd⟩ := h
    subst hd
    exact ⟨hdone, by simp⟩
  | cons batch rest ih =>
    intro g g1 done done1 h hb hdone
    simp only [executeBatches] at h
    split at h
    · exact absurd h (by simp)
    · rename_i g2 batch1 hex
      obtain ⟨hl, hf⟩ := TasksBatch.execute_fail env cache _ _ _ _ hex
      obtain ⟨h0, hm⟩ := hb batch (List.mem_cons_self _ _)
      have := ih g2 g1 (done ++ [batch1]) done1 h
        (fun b hb' => hb b (List.mem_cons_of_mem _ hb'))
        (by
          intro b hb'
          rcases List.mem_append.mp hb' with hb' | hb'
          · exact hdone b hb'
          · rw [List.mem_singleton] at hb'
            subst hb'
            exact ⟨by rw [hf, h0, zero_add], by omega⟩)
      refine ⟨this.1, ?_⟩
      rw [this.2]
      simp only [List.length_append, List.length_cons, List.length_nil]
      omega

/-- The accumulation `failures += batch->fail.load()` in `uint32_t` equals the exact sum of
the failed-task counts as long as the total stays below 2^32. -/
theorem foldl_failures (m : Nat) :
    ∀ (done : List TasksBatch) (acc : Nat),
      (∀ b ∈ done, b.fail = ((Spec.failedTasks b.tasks).length : Int) ∧ b.tasks.length ≤ m) →
      acc + done.length * m < 4294967296 →
      done.foldl (fun failures batch => (failures + toUint32 batch.fail) % 4294967296) acc
        = acc + (done.map fun b => (Spec.failedTasks b.tasks).length).sum := by
  intro done
  induction done with
  | nil => intro acc _ _; simp
  | cons b rest ih =>
    intro acc hP hsz
    obtain ⟨hf, hm⟩ := hP b (List.mem_cons_self _ _)
    have hle := Spec.failedTasks_length_le b.tasks
    simp only [List.length_cons] at hsz
    have hsz' : acc + (Spec.failedTasks b.tasks).length + rest.length * m < 4294967296 := by
      have : (rest.length + 1) * m = rest.length * m + m := by ring
      omega
    have hu : toUint32 b.fail = (Spec.failedTasks b.tasks).length := by
      rw [hf]
      exact toUint32_natCast _ (by omega)
    simp only [List.foldl_cons, List.map_cons, List.sum_cons]
    rw [hu, Nat.mod_eq_of_lt (by omega),
      ih _ (fun b' hb' => hP b' (List.mem_cons_of_mem _ hb')) hsz']
    omega

/-- Every batch of `runStandardBatches` starts with `fail = 0` and at most one task per
shape. -/
theorem standardBatches_fresh (options : Options) :
    ∀ b ∈ standardBatches options, b.fail = 0 ∧ b.tasks.length ≤ options.shapes.length := by
  intro b hb
  have hl := TasksBatch.initTasks_length_le options
  simp only [standardBatches, List.mem_cons, List.mem_singleton, List.not_mem_nil,
    or_false] at hb
  rcases hb with rfl | rfl | rfl | rfl | rfl | rfl | rfl <;> exact ⟨rfl, hl⟩

/-- Function `runStandardBatches`: the returned count is the number of failed tasks summed
over the seven batches. -/
theorem runStandardBatches_failures (env : Env) (cache : TessCache) (g g1 : Globals)
    (options : Options) (batches : List TasksBatch) (n : Nat)
    (hsize : 7 * options.shapes.length < 4294967296)
    (h : runStandardBatches env cache g options = some (g1, batches, n)) :
    n = (batches.map fun b => (Spec.failedTasks b.tasks).length).sum := by
  unfold runStandardBatches at h
  simp only at h
  split at h
  · exact absurd h (by simp)
  · rename_i g2 done hex
    simp only [Option.some.injEq, Prod.mk.injEq] at h
    obtain ⟨_, hd, hn⟩ := h
    subst hd
    obtain ⟨hP, hlen⟩ := executeBatches_fail env cache options.shapes.length _ _ _ _ _ hex
      (standardBatches_fresh options) (by simp)
    have hlen7 : done.length = 7 := by
      rw [hlen]
      simp [standardBatches]
    rw [← hn, foldl_failures options.shapes.length done 0 hP (by rw [hlen7]; omega)]
    simp
/-- The parity assertion of `TessCache::populate` never fails for a rate rounded by
`tessRate |= 0x1`. -/
theorem populateTessCache_isSome (cache : TessCache) (tessRate : Nat) :
    ∃ c, populateTessCache cache tessRate = some c := by
  unfold populateTessCache TessCache.populate
  have h : (tessRate ||| 1) &&& 1 = 1 := by
    apply Nat.eq_of_testBit_eq
    intro i
    rw [Nat.testBit_and, Nat.testBit_or]
    cases i with
    | zero => simp
    | succ j => simp [Nat.testBit_succ]
  rw [if_neg (not_not.mpr h)]
  exact ⟨_, rfl⟩

/-- The task loop completes when every task run completes. -/
theorem TasksBatch.executeLoop_total (env : Env) (cache : TessCache) :
    ∀ (tasks : List RegressionTask) (g : Globals) (b : TasksBatch) (done : List RegressionTask),
      (∀ t ∈ tasks, ∃ r, t.execute env cache b.options = some r) →
      ∃ res, TasksBatch.executeLoop env cache tasks g b done = some res := by
  intro tasks
  induction tasks with
  | nil => intro g b done _; exact ⟨_, rfl⟩
  | cons task rest ih =>
    intro g b done hall
    obtain ⟨r, hr⟩ := hall task (List.mem_cons_self _ _)
    have hstep : ∃ res, b.executeTask env cache g task = some res := by
      unfold TasksBatch.executeTask
      rw [hr]
      exact ⟨_, rfl⟩
    obtain ⟨⟨g1, b1, task1⟩, hstep⟩ := hstep
    have ho := (TasksBatch.executeTask_fail env cache g g1 b b1 task task1 hstep).1
    simp only [TasksBatch.executeLoop]
    rw [hstep]
    exact ih g1 b1 (done ++ [task1])
      (fun t ht => by rw [ho]; exact hall t (List.mem_cons_of_mem _ ht))

/-- A full single-batch run on the pentagon shape with disagreeing evaluators completes. -/
theorem Examples.main_pentagon_completes :
    ∃ code n, main (Examples.env Examples.pentagon 1) (some (Examples.singleShape "pentagon"))
      = some (code, n) := by
  have hcache : populateTessCache {} (tess.toUint8 (Examples.singleShape "pentagon").tessRate)
      = some Examples.cache := rfl
  have htasks : (({} : TasksBatch).initTasks (Examples.singleShape "pentagon")).tasks
      = [Examples.task "pentagon"] := by decide
  obtain ⟨⟨g1, b1, done⟩, hloop⟩ := TasksBatch.executeLoop_total
    (Examples.env Examples.pentagon 1) Examples.cache [Examples.task "pentagon"]
    { ({} : Globals) with _numTasks := 1 }
    (({} : TasksBatch).initTasks (Examples.singleShape "pentagon")) []
    (fun t ht => by
      rw [List.mem_singleton] at ht
      subst ht
      obtain ⟨r, hr, _⟩ := Examples.execute_unit_offset (Examples.singleShape "pentagon")
        (Examples.isPositionOnly_singleShape "pentagon") Examples.pentagon Examples.cache
        "pentagon" (by rw [Examples.cache_quad_full]; decide)
        (by rw [Examples.cache_quad_half]; decide)
      exact ⟨r, hr⟩)
  have hsingle : ∃ res, runSingleBatch (Examples.env Examples.pentagon 1) Examples.cache {}
      (Examples.singleShape "pentagon") = some res := by
    unfold runSingleBatch TasksBatch.execute
    simp only [htasks, List.length_singleton, Nat.cast_one]
    rw [hloop]
    exact ⟨_, rfl⟩
  obtain ⟨⟨g2, tests, n⟩, hsingle⟩ := hsingle
  unfold main
  simp only
  rw [hcache]
  have hfull : (Examples.singleShape "pentagon").fullBatchTesting = false := rfl
  simp only [hfull, Bool.false_eq_true, if_false, hsingle, Option.map_some']
  exact ⟨_, _, rfl⟩

/-- For a task that starts without deltas, `execute()` returns `true` exactly when the mesh
could be created; the delta count it leaves is non-negative, and 0 when it returns `false`. -/
theorem execute_status (env : Env) (cache : TessCache) (options : Options)
    (task : RegressionTask) (r : ExecResult)
    (hfresh : task.meshDelta.numFacesWithDeltas = 0)
    (h : task.execute env cache options = some r) :
    (r.status = true ↔ (createMesh env options task.shapeDesc).isSome = true) ∧
    0 ≤ r.task.meshDelta.numFacesWithDeltas ∧
    (r.status = false → r.task.meshDelta.numFacesWithDeltas = 0) := by
  have hnn := (execute_keeps env cache options task r h).2.2 (by rw [hfresh])
  have hlog : ∀ (t : RegressionTask) (logMaya : Bool) (r1 : ExecResult),
      t.executeLog env cache options logMaya = some r1 →
      (r1.status = true ↔ (createMesh env options t.shapeDesc).isSome = true) ∧
      (r1.status = false → r1.task = t) := fun t logMaya r1 h1 =>
    ⟨(executeLog_keeps env cache options t logMaya r1 h1).2.2.2,
      (executeLog_keeps env cache options t logMaya r1 h1).2.2.1⟩
  unfold RegressionTask.execute at h
  split at h
  · obtain ⟨h1, h2⟩ := hlog task true r h
    exact ⟨h1, hnn, fun hs => by rw [h2 hs, hfresh]⟩
  · obtain ⟨h1, h2⟩ := hlog task false r h
    exact ⟨h1, hnn, fun hs => by rw [h2 hs, hfresh]⟩
  · split at h
    · exact absurd h (by simp)
    · rename_i first hfirst
      obtain ⟨h1, h2⟩ := hlog task false first hfirst
      split_ifs at h with hpos
      · split at h
        · exact absurd h (by simp)
        · rename_i second hsecond
          injection h with h
          subst h
          obtain ⟨k1, k2⟩ := hlog _ true second hsecond
          have hsd := (executeLog_keeps env cache options task false first hfirst).1
          simp only at k1 k2
          rw [hsd] at k1
          have hs1 : first.status = true := by
            by_contra hc
            have hc' : first.status = false := by simpa using hc
            rw [h2 hc', hfresh] at hpos
            exact absurd hpos (by decide)
          refine ⟨?_, hnn, ?_⟩
          · simp only [Bool.and_eq_true, hs1, true_and]
            exact k1
          · intro hs
            simp only [hs1, Bool.true_and] at hs
            rw [k2 hs]
      · injection h with h
        subst h
        exact ⟨h1, hnn, fun hs => by rw [h2 hs, hfresh]⟩

namespace TasksBatch

/-- One `executeTask` call on a task that starts without deltas raises the sum
`pass + knownFail + fail` by one exactly when the mesh of the task could be created. -/
theorem executeTask_counted (env : Env) (cache : TessCache) (g g1 : Globals)
    (b b1 : TasksBatch) (task task1 : RegressionTask)
    (hfresh : task.meshDelta.numFacesWithDeltas = 0)
    (h : b.executeTask env cache g task = some (g1, b1, task1)) :
    b1.pass + b1.knownFail + b1.fail = b.pass + b.knownFail + b.fail
      + (([task].filter fun t => (createMesh env b.options t.shapeDesc).isSome).length : Int) := by
  unfold executeTask at h
  split at h
  · exact absurd h (by simp)
  · rename_i r hr
    obtain ⟨hst, hnn, hzero⟩ := execute_status env cache b.options task r hfresh hr
    simp only [Option.some.injEq, Prod.mk.injEq] at h
    obtain ⟨_, hb, _⟩ := h
    by_cases hs : r.status = true
    · have hsome : (createMesh env b.options task.shapeDesc).isSome = true := hst.mp hs
      by_cases h0 : r.task.meshDelta.numFacesWithDeltas = 0
      · rw [if_pos (by simp [hs, h0])] at hb
        subst hb
        simp [hsome]
        ring
      · have hpos : r.task.meshDelta.numFacesWithDeltas > 0 := by omega
        rw [if_neg (by simp [h0]), if_pos hpos] at hb
        by_cases hk : r.task.isKnownFailure = true
        · rw [if_pos hk] at hb
          subst hb
          simp [hsome]
          ring
        · rw [if_neg hk] at hb
          subst hb
          simp [hsome]
          ring
    · have hs' : r.status = false := by simpa using hs
      have hnone : ¬ (createMesh env b.options task.shapeDesc).isSome = true :=
        fun hc => hs (hst.mpr hc)
      have h0 := hzero hs'
      rw [if_neg (by simp [hs']), if_neg (by rw [h0]; decide)] at hb
      subst hb
      simp [hnone]

/-- The task loop of `execute` on tasks that start without deltas: the sum
`pass + knownFail + fail` grows by the number of tasks whose mesh could be created. -/
theorem executeLoop_counted (env : Env) (cache : TessCache) :
    ∀ (tasks : List RegressionTask) (g g1 : Globals) (b b1 : TasksBatch)
      (done done1 : List RegressionTask),
      (∀ t ∈ tasks, t.meshDelta.numFacesWithDeltas = 0) →
      executeLoop env cache tasks g b done = some (g1, b1, done1) →
      b1.pass + b1.knownFail + b1.fail = b.pass + b.knownFail + b.fail
        + ((tasks.filter fun t => (createMesh env b.options t.shapeDesc).isSome).length : Int) := by
  intro tasks
  induction tasks with
  | nil =>
    intro g g1 b b1 done done1 _ h
    simp only [executeLoop, Option.some.injEq, Prod.mk.injEq] at h
    obtain ⟨_, hb, _⟩ := h
    subst hb
    simp
  | cons task rest ih =>
    intro g g1 b b1 done done1 hfresh h
    simp only [executeLoop] at h
    split at h
    · exact absurd h (by simp)
    · rename_i g2 b2 task2 hstep
      have ho := (executeTask_fail env cache g g2 b b2 task task2 hstep).1
      have h1 := executeTask_counted env cache g g2 b b2 task task2
        (hfresh task (List.mem_cons_self _ _)) hstep
      have h2 := ih g2 g1 b2 b1 (done ++ [task2]) done1
        (fun t ht => hfresh t (List.mem_cons_of_mem _ ht)) h
      rw [ho] at h2
      rw [h2, h1]
      by_cases hc : (createMesh env b.options task.shapeDesc).isSome = true
      · simp [List.filter_cons, hc]
        ring
      · simp [List.filter_cons, hc]

/-- Method `execute()` on a batch whose tasks start without deltas: every task is still in
the batch afterwards, and `pass + knownFail + fail` has grown by the number of tasks whose
mesh could be created. -/
theorem execute_counted (env : Env) (cache : TessCache) (g g1 : Globals) (b b1 : TasksBatch)
    (hfresh : ∀ t ∈ b.tasks, t.meshDelta.numFacesWithDeltas = 0)
    (h : b.execute env cache g = some (g1, b1)) :
    b1.tasks.length = b.tasks.length ∧
    b1.pass + b1.knownFail + b1.fail = b.pass + b.knownFail + b.fail
      + ((b.tasks.filter fun t => (createMesh env b.options t.shapeDesc).isSome).length : Int) := by
  refine ⟨(execute_fail env cache g g1 b b1 h).1, ?_⟩
  unfold execute at h
  split at h
  · exact absurd h (by simp)
  · rename_i g2 b2 done hloop
    simp only [Option.some.injEq, Prod.mk.injEq] at h
    obtain ⟨_, hb⟩ := h
    subst hb
    exact executeLoop_counted env cache _ _ _ _ b2 _ _ hfresh hloop

end TasksBatch
/-- C7 (amended): a task with an input error (unparsable shape, unsupported scheme,
incomplete UVs, no vertex positions, no refiner) makes `RegressionTask::execute` return
`false` with the task unchanged; the batch then increments none of `pass`, `knownFail`
and `fail` for it (only the global `_completed`), and the remaining tasks of the batch are
still executed. After a batch of fresh tasks has run, `pass + knownFail + fail` has grown by
the number of tasks whose mesh could be created, the tasks without an input error. -/
theorem executeTask_input_error_uncounted (env : Env) (cache : TessCache) (g : Globals)
    (b : TasksBatch) (task : RegressionTask)
    (hcause : env.parseObj task.shapeDesc.data task.shapeDesc.scheme = none ∨
      ∃ shape, env.parseObj task.shapeDesc.data task.shapeDesc.scheme = some shape ∧
        ((shape.scheme ≠ Scheme.kCatmark ∧ shape.scheme ≠ Scheme.kLoop) ∨
          shape.uvs.isEmpty ≠ shape.faceuvs.isEmpty ∨
          shape.GetNumVertices = 0 ∨
          env.createRefiner shape b.options.fvarBoundary = none))
    (hfresh : task.meshDelta.numFacesWithDeltas = 0) :
    task.execute env cache b.options = some { status := false, task := task } ∧
    b.executeTask env cache g task
      = some ({ g with _completed := g._completed + 1 }, b, task) ∧
    (∀ (rest done : List RegressionTask),
      TasksBatch.executeLoop env cache (task :: rest) g b done
        = TasksBatch.executeLoop env cache rest { g with _completed := g._completed + 1 } b
            (done ++ [task])) ∧
    ∀ (g0 g1 : Globals) (b0 b1 : TasksBatch),
      (∀ t ∈ b0.tasks, t.meshDelta.numFacesWithDeltas = 0) →
      b0.execute env cache g0 = some (g1, b1) →
      b1.tasks.length = b0.tasks.length ∧
      b1.pass + b1.knownFail + b1.fail = b0.pass + b0.knownFail + b0.fail
        + ((b0.tasks.filter fun t =>
            (createMesh env b0.options t.shapeDesc).isSome).length : Int) := by
  have hmesh : createMesh env b.options task.shapeDesc = none :=
    (createMesh_eq_none_iff env b.options task.shapeDesc).mpr hcause
  have hex := execute_of_createMesh_none env cache b.options task hmesh hfresh
  have htask := TasksBatch.executeTask_uncounted env cache g b task _ hex rfl hfresh
  refine ⟨hex, htask, ?_, ?_⟩
  · intro rest done
    simp only [TasksBatch.executeLoop]
    rw [htask]
  · intro g0 g1 b0 b1 hf hrun
    exact TasksBatch.execute_counted env cache g0 g1 b0 b1 hf hrun

/-- Witness for C7 (amended): the rejecting parser on a fresh task. -/
theorem executeTask_input_error_uncounted_witness :
    (Examples.task "cube").execute Examples.brokenEnv Examples.cache
        (({} : TasksBatch).initTasks (Examples.singleShape "cube")).options
      = some { status := false, task := Examples.task "cube" } ∧
    (({} : TasksBatch).initTasks (Examples.singleShape "cube")).executeTask Examples.brokenEnv
        Examples.cache {} (Examples.task "cube")
      = some ({ ({} : Globals) with _completed := ({} : Globals)._completed + 1 },
          ({} : TasksBatch).initTasks (Examples.singleShape "cube"), Examples.task "cube") :=
  ⟨(executeTask_input_error_uncounted Examples.brokenEnv Examples.cache {}
      (({} : TasksBatch).initTasks (Examples.singleShape "cube")) (Examples.task "cube")
      (Or.inl rfl) rfl).1,
    (executeTask_input_error_uncounted Examples.brokenEnv Examples.cache {}
      (({} : TasksBatch).initTasks (Examples.singleShape "cube")) (Examples.task "cube")
      (Or.inl rfl) rfl).2.1⟩

/-- C7 (counterexample): a batch of one shape that the parser rejects. After `execute` the
batch holds one task while `pass`, `knownFail` and `fail` are all 0: the task is not counted
as a failure, and the three counters do not add up to the number of tasks. -/
theorem execute_input_error_leaves_counters_at_zero :
    ((({} : TasksBatch).initTasks (Examples.singleShape "cube")).execute Examples.brokenEnv
        Examples.cache {}).map (fun r => (r.2.pass, r.2.knownFail, r.2.fail, r.2.tasks.length))
      = some (0, 0, 0, 1) := by
  have htasks : (({} : TasksBatch).initTasks (Examples.singleShape "cube")).tasks
      = [Examples.task "cube"] := by decide
  have hstep := TasksBatch.executeTask_uncounted Examples.brokenEnv Examples.cache {}
    (({} : TasksBatch).initTasks (Examples.singleShape "cube")) (Examples.task "cube") _
    (execute_of_createMesh_none Examples.brokenEnv Examples.cache _ (Examples.task "cube") rfl
      rfl) rfl rfl
  unfold TasksBatch.execute
  rw [htasks]
  simp only [TasksBatch.executeLoop]
  rw [hstep]
  simp [TasksBatch.initTasks, List.mergeSort]


/-! ## Rotation tables -/

/-- C11: the second-derivative `applyDomainRotation` maps `(duu, duv, dvv)` to
`(dvv, -duv, duu)` for QUAD with `rot = 1` and `rot = 3`, returns the inputs unchanged for
QUAD with `rot = 0` and `rot = 2`, and returns them unchanged for TRIANGLE whatever the
rotation index. -/
theorem applyDomainRotation2_second_derivatives (duu duv dvv : Vec3) :
    applyDomainRotation2 tess.DomainMode.QUAD 1 duu duv dvv = some (dvv, -duv, duu) ∧
    applyDomainRotation2 tess.DomainMode.QUAD 3 duu duv dvv = some (dvv, -duv, duu) ∧
    applyDomainRotation2 tess.DomainMode.QUAD 0 duu duv dvv = some (duu, duv, dvv) ∧
    applyDomainRotation2 tess.DomainMode.QUAD 2 duu duv dvv = some (duu, duv, dvv) ∧
    ∀ rot : Int,
      applyDomainRotation2 tess.DomainMode.TRIANGLE rot duu duv dvv = some (duu, duv, dvv) := by
  simp [applyDomainRotation2, quadDomainRotate2]

/-- C12: `rotateDomain` maps `(u, v)` for QUAD to `(u, v)`, `(1 - v, u)`, `(1 - u, 1 - v)`,
`(v, 1 - u)` for `rot = 0, 1, 2, 3`, and for TRIANGLE to `(u, v)`, `(1 - u - v, u)`,
`(v, 1 - u - v)` for `rot = 0, 1, 2`. -/
theorem rotateDomain_table (u v : ℚ) :
    tess.rotateDomain tess.DomainMode.QUAD 0 u v = some (u, v) ∧
    tess.rotateDomain tess.DomainMode.QUAD 1 u v = some (1 - v, u) ∧
    tess.rotateDomain tess.DomainMode.QUAD 2 u v = some (1 - u, 1 - v) ∧
    tess.rotateDomain tess.DomainMode.QUAD 3 u v = some (v, 1 - u) ∧
    tess.rotateDomain tess.DomainMode.TRIANGLE 0 u v = some (u, v) ∧
    tess.rotateDomain tess.DomainMode.TRIANGLE 1 u v = some (1 - u - v, u) ∧
    tess.rotateDomain tess.DomainMode.TRIANGLE 2 u v = some (v, 1 - u - v) := by
  simp [tess.rotateDomain, tess.toUint8, tess.rotateDomainQuad, tess.rotateDomainTriangle]

/-- The narrowing of the rotation index to eight bits keeps the value modulo 256. -/
theorem tess.toUint8_lt (rot : Int) : tess.toUint8 rot < 256 := by
  unfold tess.toUint8
  omega

/-- The QUAD rotation fails exactly when the narrowed index is 4 or more. -/
theorem tess.rotateDomain_quad_eq_none_iff (rot : Int) (u v : ℚ) :
    tess.rotateDomain tess.DomainMode.QUAD rot u v = none ↔ 4 ≤ rot % 256 := by
  have h0 : 0 ≤ rot % 256 := Int.emod_nonneg _ (by decide)
  have hlt : rot % 256 < 256 := Int.emod_lt_of_pos _ (by decide)
  obtain ⟨n, hn⟩ := Int.eq_ofNat_of_zero_le h0
  simp only [tess.rotateDomain, tess.toUint8, hn, Int.toNat_ofNat]
  match n with
  | 0 => simp [tess.rotateDomainQuad]
  | 1 => simp [tess.rotateDomainQuad]
  | 2 => simp [tess.rotateDomainQuad]
  | 3 => simp [tess.rotateDomainQuad]
  | k + 4 => simp [tess.rotateDomainQuad]

/-- The TRIANGLE rotation fails exactly when the narrowed index is 3 or more. -/
theorem tess.rotateDomain_triangle_eq_none_iff (rot : Int) (u v : ℚ) :
    tess.rotateDomain tess.DomainMode.TRIANGLE rot u v = none ↔ 3 ≤ rot % 256 := by
  have h0 : 0 ≤ rot % 256 := Int.emod_nonneg _ (by decide)
  obtain ⟨n, hn⟩ := Int.eq_ofNat_of_zero_le h0
  simp only [tess.rotateDomain, tess.toUint8, hn, Int.toNat_ofNat]
  match n with
  | 0 => simp [tess.rotateDomainTriangle]
  | 1 => simp [tess.rotateDomainTriangle]
  | 2 => simp [tess.rotateDomainTriangle]
  | k + 3 => simp [tess.rotateDomainTriangle]

/-- C13 (failing input): the entry points taking an `int` rotation accept indices outside
the valid range: 256 is treated as rotation 0, 257 as rotation 1 and -254 as rotation 2,
for QUAD and TRIANGLE, forward and inverse, at every `(u, v)`. -/
theorem rotateDomain_out_of_range_accepted (u v : ℚ) :
    tess.rotateDomain tess.DomainMode.QUAD 256 u v = some (u, v) ∧
    tess.rotateDomainInv tess.DomainMode.QUAD 257 u v = some (v, 1 - u) ∧
    tess.rotateDomain tess.DomainMode.TRIANGLE (-254) u v = some (v, 1 - u - v) ∧
    tess.rotateDomainInv tess.DomainMode.TRIANGLE 256 u v = some (u, v) := by
  simp [tess.rotateDomain, tess.rotateDomainInv, tess.toUint8, tess.rotateDomainQuad,
    tess.rotateDomainInvQuad, tess.rotateDomainTriangle, tess.rotateDomainInvTriangle]

/-! ## Fixed offsets -/

theorem Spec.offsetBy_length (delta : Vec3) (a : List Vec3) :
    (Spec.offsetBy delta a).length = a.length := by
  simp [Spec.offsetBy]

/-- Below the length of `a`, the sample of the offset sequence is the sample of `a` plus
the offset. -/
theorem Spec.offsetBy_getD (delta : Vec3) (a : List Vec3) (i : Nat) (hi : i < a.length) :
    (Spec.offsetBy delta a).getD i Vec3.zero = a.getD i Vec3.zero + delta := by
  have hi2 : i < (Spec.offsetBy delta a).length := by rw [Spec.offsetBy_length]; exact hi
  rw [List.getD_eq_getElem _ _ hi2, List.getD_eq_getElem _ _ hi]
  simp [Spec.offsetBy]

theorem Spec.lt_offsetMagnitude_iff (tol : ℚ) (delta : Vec3) :
    tol < Spec.offsetMagnitude delta ↔ tol < |delta.p0| ∨ tol < |delta.p1| ∨ tol < |delta.p2| := by
  simp [Spec.offsetMagnitude, lt_max_iff, or_assoc]

/-- A sample and its offset copy exceed the tolerance exactly when the offset magnitude
does; the three component deviations are the absolute components of the offset. -/
theorem Spec.exceeds_offset_iff (tol : ℚ) (delta x : Vec3) :
    Spec.exceeds tol x (x + delta) ↔ tol < Spec.offsetMagnitude delta := by
  rw [Spec.lt_offsetMagnitude_iff]
  cases x with
  | mk x0 x1 x2 =>
    cases delta with
    | mk d0 d1 d2 =>
      simp only [Spec.exceeds, Vec3.add_mk, sub_add_cancel_left, abs_neg]

theorem Spec.exceedingIndices_offset (tol : ℚ) (delta : Vec3) (a : List Vec3) :
    Spec.exceedingIndices tol a (Spec.offsetBy delta a) =
      if tol < Spec.offsetMagnitude delta then List.range a.length else [] := by
  unfold Spec.exceedingIndices
  split_ifs with h
  · rw [List.filter_eq_self]
    intro i hi
    rw [Spec.offsetBy_getD delta a i (List.mem_range.mp hi)]
    exact decide_eq_true ((Spec.exceeds_offset_iff tol delta _).mpr h)
  · rw [List.filter_eq_nil_iff]
    intro i hi
    rw [Spec.offsetBy_getD delta a i (List.mem_range.mp hi)]
    simpa using fun hx => h ((Spec.exceeds_offset_iff tol delta _).mp hx)

/-- Result of `Compare` on a sequence and its copy shifted by a fixed offset. -/
theorem VectorDelta.compare_offset (self : VectorDelta) (a : List Vec3) (delta : Vec3)
    (hne : a ≠ []) :
    ∃ r : VectorDelta, self.Compare a (Spec.offsetBy delta a) = some r ∧
      (self.tolerance < Spec.offsetMagnitude delta →
        r.numDeltas = (a.length : Int) ∧ r.maxDelta = Spec.offsetMagnitude delta) ∧
      (Spec.offsetMagnitude delta ≤ self.tolerance → r.numDeltas = 0 ∧ r.maxDelta = 0) := by
  obtain ⟨r, hr, _, _, _, hn, hub, hat⟩ :=
    VectorDelta.compare_summary self a (Spec.offsetBy delta a) (Spec.offsetBy_length delta a).symm
  rw [Spec.exceedingIndices_offset] at hn hub hat
  refine ⟨r, hr, ?_, ?_⟩
  · intro hlt
    rw [if_pos hlt] at hn hub hat
    have hpos : 0 < a.length := List.length_pos.mpr hne
    refine ⟨by simpa using hn, ?_⟩
    have h0 := hub 0 (List.mem_range.mpr hpos)
    rw [Spec.offsetBy_getD delta a 0 hpos] at h0
    have hd : ∀ x : Vec3, |x.p0 - (x + delta).p0| = |delta.p0| ∧
        |x.p1 - (x + delta).p1| = |delta.p1| ∧ |x.p2 - (x + delta).p2| = |delta.p2| := by
      intro x
      cases x with
      | mk x0 x1 x2 =>
        cases delta with
        | mk d0 d1 d2 => simp only [Vec3.add_mk, sub_add_cancel_left, abs_neg, and_self]
    rw [(hd _).1, (hd _).2.1, (hd _).2.2] at h0
    have hle : Spec.offsetMagnitude delta ≤ r.maxDelta :=
      max_le (max_le h0.1 h0.2.1) h0.2.2
    have hge : r.maxDelta ≤ Spec.offsetMagnitude delta := by
      rcases hat with hz | ⟨i, hi, hval⟩
      · rw [hz]
        exact le_trans (abs_nonneg delta.p2) (le_max_right _ _)
      · rw [Spec.offsetBy_getD delta a i (List.mem_range.mp hi), (hd _).1, (hd _).2.1,
          (hd _).2.2] at hval
        rcases hval with h | h | h <;> rw [h]
        · exact le_trans (le_max_left _ _) (le_max_left _ _)
        · exact le_trans (le_max_right _ _) (le_max_left _ _)
        · exact le_max_right _ _
    exact le_antisymm hge hle
  · intro hle
    rw [if_neg (not_lt.mpr hle)] at hn hat
    refine ⟨by simpa using hn, ?_⟩
    rcases hat with hz | ⟨i, hi, _⟩
    · exact hz
    · exact absurd hi (List.not_mem_nil i)

/-- C20 (counterexample): two samples shifted by `(0, 1/2, 0)` under tolerance 1: the offset
magnitude is 1/2, no sample is counted, and `maxDelta` is 0, not 1/2. -/
theorem compare_offset_below_tolerance_maxDelta_zero :
    Spec.offsetMagnitude ⟨0, 1 / 2, 0⟩ = 1 / 2 ∧
    ((VectorDelta.new 1).Compare [⟨1, 2, 3⟩, ⟨4, 5, 6⟩]
        (Spec.offsetBy ⟨0, 1 / 2, 0⟩ [⟨1, 2, 3⟩, ⟨4, 5, 6⟩])).map
      (fun r => (r.numDeltas, r.maxDelta)) = some (0, 0) := by
  have hd : Spec.offsetMagnitude ⟨0, 1 / 2, 0⟩ = 1 / 2 := by
    simp [Spec.offsetMagnitude, abs_of_pos]
  refine ⟨hd, ?_⟩
  obtain ⟨r, hr, _, hle⟩ := VectorDelta.compare_offset (VectorDelta.new 1)
    [⟨1, 2, 3⟩, ⟨4, 5, 6⟩] ⟨0, 1 / 2, 0⟩ (by simp)
  have h := hle (by rw [hd]; simp [VectorDelta.new]; norm_num)
  rw [hr, Option.map_some', h.1, h.2]

/-- C20 (amended): for a non-empty sequence `a` and `b[i] = a[i] + delta` with offset
magnitude `d = max_k |delta[k]|`, and any tolerance, `Compare a b` completes; when `d` exceeds the tolerance,
`numDeltas` is the length of `a` and `maxDelta` is `d`; when `d` does not exceed the
tolerance, `numDeltas` is 0 and `maxDelta` is 0. -/
theorem compare_fixed_offset (self : VectorDelta) (a : List Vec3) (delta : Vec3)
    (hne : a ≠ []) :
    ∃ r : VectorDelta, self.Compare a (Spec.offsetBy delta a) = some r ∧
      (self.tolerance < Spec.offsetMagnitude delta →
        r.numDeltas = (a.length : Int) ∧ r.maxDelta = Spec.offsetMagnitude delta) ∧
      (Spec.offsetMagnitude delta ≤ self.tolerance → r.numDeltas = 0 ∧ r.maxDelta = 0) :=
  VectorDelta.compare_offset self a delta hne

/-- Witness for C20 (amended): two samples shifted by `(0, 3, 0)` under tolerance 1. -/
theorem compare_fixed_offset_witness :
    ([⟨1, 2, 3⟩, ⟨4, 5, 6⟩] : List Vec3) ≠ [] ∧
    ∃ r : VectorDelta, (VectorDelta.new 1).Compare [⟨1, 2, 3⟩, ⟨4, 5, 6⟩]
        (Spec.offsetBy ⟨0, 3, 0⟩ [⟨1, 2, 3⟩, ⟨4, 5, 6⟩]) = some r ∧
      ((VectorDelta.new 1).tolerance < Spec.offsetMagnitude ⟨0, 3, 0⟩ →
        r.numDeltas = (([⟨1, 2, 3⟩, ⟨4, 5, 6⟩] : List Vec3).length : Int) ∧
          r.maxDelta = Spec.offsetMagnitude ⟨0, 3, 0⟩) ∧
      (Spec.offsetMagnitude ⟨0, 3, 0⟩ ≤ (VectorDelta.new 1).tolerance →
        r.numDeltas = 0 ∧ r.maxDelta = 0) :=
  ⟨by simp,
    compare_fixed_offset (VectorDelta.new 1) [⟨1, 2, 3⟩, ⟨4, 5, 6⟩] ⟨0, 3, 0⟩ (by simp)⟩

/-! ## Lists built block by block -/

/-- A list built from `n` blocks of equal length `L` has `n * L` entries. -/
theorem length_flatMap_range_const {α : Type} (f : Nat → List α) (L n : Nat)
    (h : ∀ i < n, (f i).length = L) : ((List.range n).flatMap f).length = n * L := by
  induction n with
  | zero => simp
  | succ n ih =>
    rw [List.range_succ, List.flatMap_append, List.length_append,
      ih fun i hi => h i (Nat.lt_succ_of_lt hi)]
    simp [h n (Nat.lt_succ_self n), Nat.succ_mul]

/-- Blocks laid out one after the other: with `off i` the position at which block `i`
starts, the list has `off n` entries and entry `off i + r` is entry `r` of block `i`. -/
theorem getD_flatMap_range_offset {α : Type} (f : Nat → List α) (off : Nat → Nat) (d : α)
    (h0 : off 0 = 0) (n : Nat) (hs : ∀ k < n, off (k + 1) = off k + (f k).length) :
    ((List.range n).flatMap f).length = off n ∧
    ∀ i r, i < n → r < (f i).length →
      ((List.range n).flatMap f).getD (off i + r) d = (f i).getD r d := by
  induction n with
  | zero => simp [h0]
  | succ n ih =>
    obtain ⟨hlen, hget⟩ := ih fun k hk => hs k (Nat.lt_succ_of_lt hk)
    have hmono : ∀ m, m ≤ n → ∀ i, i ≤ m → off i ≤ off m := by
      intro m
      induction m with
      | zero => intro _ i hi; rw [Nat.le_zero.mp hi]
      | succ m ihm =>
        intro hm i hi
        rcases Nat.lt_or_ge i (m + 1) with hlt | hge
        · have := ihm (Nat.le_of_succ_le hm) i (Nat.lt_succ_iff.mp hlt)
          have := hs m (by omega)
          omega
        · rw [Nat.le_antisymm hi hge]
    rw [List.range_succ, List.flatMap_append]
    refine ⟨?_, ?_⟩
    · rw [List.length_append, hlen, hs n (Nat.lt_succ_self n)]
      simp
    · intro i r hi hr
      rcases Nat.lt_or_ge i n with hlt | hge
      · have h1 : off (i + 1) ≤ off n := hmono n (le_refl n) (i + 1) hlt
        have h2 := hs i hi
        rw [List.getD_append _ _ _ _ (by rw [hlen]; omega)]
        exact hget i r hlt hr
      · have hin : i = n := by omega
        subst hin
        rw [List.getD_append_right _ _ _ _ (by rw [hlen]; omega), hlen]
        simp

/-- Blocks of equal length `L`: entry `i * L + r` is entry `r` of block `i`. -/
theorem getD_flatMap_range_const {α : Type} (f : Nat → List α) (L : Nat) (d : α) (n : Nat)
    (h : ∀ i < n, (f i).length = L) (i r : Nat) (hi : i < n) (hr : r < L) :
    ((List.range n).flatMap f).getD (i * L + r) d = (f i).getD r d := by
  have := (getD_flatMap_range_offset f (fun k => k * L) d (by simp) n
    (fun k hk => by simp [h k hk, Nat.succ_mul])).2 i r hi (by rw [h i hi]; exact hr)
  simpa using this

/-- A map over a list whose values all equal `c` sums to the length times `c`. -/
theorem sum_map_eq_length_mul {α : Type} (l : List α) (f : α → ℚ) (c : ℚ)
    (h : ∀ x ∈ l, f x = c) : (l.map f).sum = (l.length : ℚ) * c := by
  induction l with
  | nil => simp
  | cons a l ih =>
    rw [List.map_cons, List.sum_cons, h a (List.mem_cons_self _ _),
      ih fun x hx => h x (List.mem_cons_of_mem _ hx)]
    simp
    ring

/-! ## Triangles of an index list -/

theorem Spec.triples_length : ∀ l : List Int, (Spec.triples l).length = l.length / 3
  | [] => by simp [Spec.triples]
  | [_] => by simp [Spec.triples]
  | [_, _] => by simp [Spec.triples]
  | _ :: _ :: _ :: rest => by
    simp only [Spec.triples, List.length_cons, Spec.triples_length rest]
    omega

theorem Spec.triples_append : ∀ l1 l2 : List Int, l1.length % 3 = 0 →
    Spec.triples (l1 ++ l2) = Spec.triples l1 ++ Spec.triples l2
  | [], l2, _ => by simp [Spec.triples]
  | [_], _, h => by simp at h
  | [_, _], _, h => by simp at h
  | a :: b :: c :: rest, l2, h => by
    have hr : rest.length % 3 = 0 := by
      simp only [List.length_cons] at h
      omega
    have ih := Spec.triples_append rest l2 hr
    show Spec.triples (a :: b :: c :: (rest ++ l2)) = _
    simp only [Spec.triples, ih, List.cons_append]

/-- Blocks whose lengths are multiples of 3 are cut into triangles block by block. -/
theorem Spec.triples_flatMap {α : Type} (f : α → List Int) :
    ∀ l : List α, (∀ x ∈ l, (f x).length % 3 = 0) →
      (l.flatMap f).length % 3 = 0 ∧
      Spec.triples (l.flatMap f) = l.flatMap fun x => Spec.triples (f x) := by
  intro l
  induction l with
  | nil => intro _; simp [Spec.triples]
  | cons a l ih =>
    intro h
    obtain ⟨h1, h2⟩ := ih fun x hx => h x (List.mem_cons_of_mem _ hx)
    have ha := h a (List.mem_cons_self _ _)
    refine ⟨?_, ?_⟩
    · rw [List.flatMap_cons, List.length_append]
      omega
    · rw [List.flatMap_cons, List.flatMap_cons, Spec.triples_append _ _ ha, h2]

/-- Every entry of an index list of length a multiple of 3 is a corner of one of its
triangles, and conversely. -/
theorem Spec.mem_iff_mem_triples : ∀ (l : List Int) (x : Int), l.length % 3 = 0 →
    (x ∈ l ↔ ∃ t ∈ Spec.triples l, x = t.1 ∨ x = t.2.1 ∨ x = t.2.2)
  | [], x, _ => by simp [Spec.triples]
  | [_], _, h => by simp at h
  | [_, _], _, h => by simp at h
  | a :: b :: c :: rest, x, h => by
    have hr : rest.length % 3 = 0 := by
      simp only [List.length_cons] at h
      omega
    have ih := Spec.mem_iff_mem_triples rest x hr
    simp only [Spec.triples, List.mem_cons, ih]
    constructor
    · rintro (h1 | h1 | h1 | ⟨t, ht, hx⟩)
      · exact ⟨(a, b, c), Or.inl rfl, Or.inl h1⟩
      · exact ⟨(a, b, c), Or.inl rfl, Or.inr (Or.inl h1)⟩
      · exact ⟨(a, b, c), Or.inl rfl, Or.inr (Or.inr h1)⟩
      · exact ⟨t, Or.inr ht, hx⟩
    · rintro ⟨t, rfl | ht, hx⟩
      · rcases hx with h1 | h1 | h1
        · exact Or.inl h1
        · exact Or.inr (Or.inl h1)
        · exact Or.inr (Or.inr (Or.inl h1))
      · exact Or.inr (Or.inr (Or.inr ⟨t, ht, hx⟩))

/-! ## The QUAD pattern -/

namespace tess.uniform

/-- The index list of the QUAD pattern consists of the two triangles of every grid cell. -/
theorem quadIndices_triples (lod : Int) :
    (quadIndices lod).length = ((lod - 1).toNat * (lod - 1).toNat) * 6 ∧
    (quadIndices lod).length % 3 = 0 ∧
    Spec.triples (quadIndices lod) =
      (List.range (lod - 1).toNat).flatMap fun i =>
        (List.range (lod - 1).toNat).flatMap fun j => Spec.quadCell lod i j := by
  have hinner : ∀ i : Nat, ((List.range (lod - 1).toNat).flatMap fun (j : Nat) =>
      let idx0 : Int := (j : Int) * lod + (i : Int)
      let idx1 := idx0 + lod
      let idx2 := idx1 + 1
      let idx3 := idx0 + 1
      [idx0, idx2, idx1, idx0, idx3, idx2]).length = (lod - 1).toNat * 6 :=
    fun i => length_flatMap_range_const _ 6 _ fun j _ => rfl
  refine ⟨?_, ?_, ?_⟩
  · unfold quadIndices
    rw [length_flatMap_range_const _ ((lod - 1).toNat * 6) _ fun i _ => hinner i]
    ring
  · unfold quadIndices
    rw [length_flatMap_range_const _ ((lod - 1).toNat * 6) _ fun i _ => hinner i,
      show (lod - 1).toNat * ((lod - 1).toNat * 6) =
        3 * ((lod - 1).toNat * (lod - 1).toNat * 2) by ring]
    exact Nat.mul_mod_right _ _
  · unfold quadIndices
    rw [(Spec.triples_flatMap _ _ fun i _ => by rw [hinner i]; omega).2]
    congr 1
    funext i
    rw [(Spec.triples_flatMap _ _ fun j _ => by simp).2]
    rfl

theorem quadU_length (lod : Int) : (quadU lod).length = lod.toNat * lod.toNat :=
  length_flatMap_range_const _ _ _ fun _ _ => by simp

theorem quadV_length (lod : Int) : (quadV lod).length = lod.toNat * lod.toNat :=
  length_flatMap_range_const _ _ _ fun _ _ => by simp

/-- Coordinate `u` of the vertex with index `j*lod + i`. -/
theorem quadU_getD (lod : Int) (i j : Nat) (hi : i < lod.toNat) (hj : j < lod.toNat) :
    (quadU lod).getD (j * lod.toNat + i) 0 = (i : ℚ) / ((lod : ℚ) - 1) := by
  unfold quadU
  rw [getD_flatMap_range_const _ lod.toNat 0 _ (fun _ _ => by simp) j i hj hi,
    List.getD_eq_getElem _ _ (by simpa using hi)]
  simp

/-- Coordinate `v` of the vertex with index `j*lod + i`. -/
theorem quadV_getD (lod : Int) (i j : Nat) (hi : i < lod.toNat) (hj : j < lod.toNat) :
    (quadV lod).getD (j * lod.toNat + i) 0 = (j : ℚ) / ((lod : ℚ) - 1) := by
  unfold quadV
  rw [getD_flatMap_range_const _ lod.toNat 0 _ (fun _ _ => by simp) j i hj hi,
    List.getD_eq_getElem _ _ (by simpa using hi)]
  simp

/-- The patch produced for QUAD at a level of 2 or more. -/
theorem tessellate_quad (lod : Int) (h : 2 ≤ lod) (patch : Patch) :
    tessellate DomainMode.QUAD lod patch =
      { indices := quadIndices lod, u := quadU lod, v := quadV lod } := by
  unfold tessellate
  rw [if_pos rfl, if_neg (by omega)]

/-- The patch produced for QUAD at a level of 1 or less. -/
theorem tessellate_quad_degenerate (lod : Int) (h : lod ≤ 1) (patch : Patch) :
    tessellate DomainMode.QUAD lod patch =
      { indices := [0, 2, 1, 0, 3, 2], u := [0, 0, 1, 1], v := [0, 1, 1, 0] } := by
  unfold tessellate
  rw [if_pos rfl, if_pos h]

/-- Position of the grid vertex `(i, j)` of a QUAD patch of level 2 or more. -/
theorem point_quad (lod : Int) (h : 2 ≤ lod) (patch : Patch) (i j : Nat)
    (hi : (i : Int) < lod) (hj : (j : Int) < lod) :
    Spec.point (tessellate DomainMode.QUAD lod patch) ((j : Int) * lod + (i : Int)) =
      ((i : ℚ) / ((lod : ℚ) - 1), (j : ℚ) / ((lod : ℚ) - 1)) := by
  rw [tessellate_quad lod h]
  have hk : ((j : Int) * lod + (i : Int)).toNat = j * lod.toNat + i := by
    have : ((j * lod.toNat + i : Nat) : Int) = (j : Int) * lod + (i : Int) := by
      push_cast
      rw [Int.toNat_of_nonneg (by omega)]
    rw [← this, Int.toNat_ofNat]
  simp only [Spec.point, hk]
  rw [quadU_getD lod i j (by omega) (by omega), quadV_getD lod i j (by omega) (by omega)]

end tess.uniform

namespace tess.uniform

/-- The triangles of a QUAD patch of level 2 or more, cell by cell. -/
theorem triangles_quad (lod : Int) (h : 2 ≤ lod) (patch : Patch) :
    Spec.triangles (tessellate DomainMode.QUAD lod patch) =
      (List.range (lod - 1).toNat).flatMap fun i =>
        (List.range (lod - 1).toNat).flatMap fun j => Spec.quadCell lod i j := by
  rw [tessellate_quad lod h]
  exact (quadIndices_triples lod).2.2

theorem mem_triangles_quad (lod : Int) (h : 2 ≤ lod) (patch : Patch) (t : Int × Int × Int) :
    t ∈ Spec.triangles (tessellate DomainMode.QUAD lod patch) ↔
      ∃ i j : Nat, (i : Int) + 1 < lod ∧ (j : Int) + 1 < lod ∧ t ∈ Spec.quadCell lod i j := by
  rw [triangles_quad lod h]
  simp only [List.mem_flatMap, List.mem_range]
  constructor
  · rintro ⟨i, hi, j, hj, ht⟩
    exact ⟨i, j, by omega, by omega, ht⟩
  · rintro ⟨i, j, hi, hj, ht⟩
    exact ⟨i, by omega, j, by omega, ht⟩

/-- Number of triangles of a QUAD patch of level 2 or more. -/
theorem triangles_quad_length (lod : Int) (h : 2 ≤ lod) (patch : Patch) :
    ((Spec.triangles (tessellate DomainMode.QUAD lod patch)).length : Int) =
      2 * (lod - 1) * (lod - 1) := by
  rw [tessellate_quad lod h]
  unfold Spec.triangles
  rw [Spec.triples_length, (quadIndices_triples lod).1]
  have h6 : (lod - 1).toNat * (lod - 1).toNat * 6 / 3 = 2 * ((lod - 1).toNat * (lod - 1).toNat) := by
    omega
  rw [h6]
  push_cast
  rw [Int.toNat_of_nonneg (by omega)]
  ring

/-- Both triangles of a grid cell of a QUAD patch of level 2 or more have the signed area
form `1 / (lod - 1)^2`. -/
theorem orientation_quadCell (lod : Int) (h : 2 ≤ lod) (patch : Patch) (i j : Nat)
    (hi : (i : Int) + 1 < lod) (hj : (j : Int) + 1 < lod) (t : Int × Int × Int)
    (ht : t ∈ Spec.quadCell lod i j) :
    Spec.orientation (tessellate DomainMode.QUAD lod patch) t =
      1 / (((lod : ℚ) - 1) * ((lod : ℚ) - 1)) := by
  have e11 : ((j + 1 : Nat) : Int) * lod + (i : Int) + 1 =
      ((j + 1 : Nat) : Int) * lod + ((i + 1 : Nat) : Int) := by push_cast; ring
  have e01 : (j : Int) * lod + (i : Int) + lod = ((j + 1 : Nat) : Int) * lod + (i : Int) := by
    push_cast; ring
  have e10 : (j : Int) * lod + (i : Int) + 1 = (j : Int) * lod + ((i + 1 : Nat) : Int) := by
    push_cast; ring
  have p00 := point_quad lod h patch i j (by omega) (by omega)
  have p11 := point_quad lod h patch (i + 1) (j + 1) (by push_cast; omega) (by push_cast; omega)
  have p01 := point_quad lod h patch i (j + 1) (by omega) (by push_cast; omega)
  have p10 := point_quad lod h patch (i + 1) j (by push_cast; omega) (by omega)
  have hl : (lod : ℚ) - 1 ≠ 0 := by
    have : (2 : ℚ) ≤ (lod : ℚ) := by exact_mod_cast h
    intro h0
    linarith
  simp only [Spec.quadCell, List.mem_cons, List.mem_singleton, List.not_mem_nil, or_false] at ht
  rcases ht with rfl | rfl
  · simp only [Spec.orientation, e01, e11, p00, p11, p01]
    push_cast
    field_simp
  · simp only [Spec.orientation, e10, e01, e11, p00, p11, p10]
    push_cast
    field_simp

end tess.uniform

/-! ## The TRIANGLE pattern -/

theorem Spec.rowStart_succ_cast (n i : Nat) (h : i ≤ n) :
    ((Spec.rowStart n (i + 1) : Nat) : Int) = (Spec.rowStart n i : Int) + ((n : Int) - (i : Int)) := by
  simp only [Spec.rowStart]
  omega

theorem Spec.rowStart_mono (n : Nat) : ∀ m i : Nat, i ≤ m → Spec.rowStart n i ≤ Spec.rowStart n m := by
  intro m
  induction m with
  | zero => intro i hi; rw [Nat.le_zero.mp hi]
  | succ m ih =>
    intro i hi
    rcases Nat.lt_or_ge i (m + 1) with hlt | hge
    · have := ih i (Nat.lt_succ_iff.mp hlt)
      simp only [Spec.rowStart]
      omega
    · rw [Nat.le_antisymm hi hge]

/-- Twice the start of row `m` is `m * (2n + 1 - m)`. -/
theorem Spec.two_mul_rowStart (n : Nat) : ∀ m : Nat, m ≤ n →
    2 * (Spec.rowStart n m : Int) = (m : Int) * (2 * (n : Int) + 1 - (m : Int)) := by
  intro m
  induction m with
  | zero => intro _; simp [Spec.rowStart]
  | succ m ih =>
    intro hm
    rw [Spec.rowStart_succ_cast n m (by omega), mul_add, ih (by omega)]
    push_cast
    ring

/-- The vertex `j` of row `i` has an index below the number of vertices. -/
theorem Spec.rowStart_add_lt (n i j : Nat) (hi : i < n) (hj : j < n - i) :
    Spec.rowStart n i + j < Spec.rowStart n n := by
  have h1 := Spec.rowStart_mono n n (i + 1) hi
  simp only [Spec.rowStart] at h1
  omega

/-- Every index below the start of row `m` is the index of a vertex `j` of a row `i < m`. -/
theorem Spec.exists_row_of_lt (n : Nat) : ∀ m : Nat, ∀ k : Nat, k < Spec.rowStart n m →
    ∃ i j : Nat, i < m ∧ j < n - i ∧ k = Spec.rowStart n i + j := by
  intro m
  induction m with
  | zero => intro k hk; simp [Spec.rowStart] at hk
  | succ m ih =>
    intro k hk
    rcases Nat.lt_or_ge k (Spec.rowStart n m) with hlt | hge
    · obtain ⟨i, j, hi, hj, he⟩ := ih k hlt
      exact ⟨i, j, Nat.lt_succ_of_lt hi, hj, he⟩
    · simp only [Spec.rowStart] at hk
      exact ⟨m, k - Spec.rowStart n m, Nat.lt_succ_self m, by omega, by omega⟩

namespace tess.uniform

/-- State of the TRIANGLE index loop after `m` rows. -/
theorem foldl_triIndexRow (n : Nat) : ∀ m : Nat, m ≤ n →
    (List.range m).foldl (fun st _i => triIndexRow st)
        { ncols := (n : Int), idxbase := 0, indices := [] } =
      { ncols := (n : Int) - (m : Int), idxbase := (Spec.rowStart n m : Int),
        indices := (List.range m).flatMap (triangleRow n) } := by
  intro m
  induction m with
  | zero => intro _; simp [Spec.rowStart]
  | succ m ih =>
    intro hm
    rw [List.range_succ, List.foldl_append, ih (by omega), List.flatMap_append]
    simp only [List.foldl_cons, List.foldl_nil, triIndexRow, List.flatMap_cons, List.flatMap_nil,
      List.append_nil]
    have hc : ((n : Int) - (m : Int) - 1).toNat = n - 1 - m := by omega
    rw [hc, Spec.rowStart_succ_cast n m (by omega)]
    congr 1
    · push_cast; ring
    · congr 1
      unfold triangleRow
      congr 1
      funext j
      have hcond : ((j : Int) < (n : Int) - (m : Int) - 2) ↔ m + j + 2 < n := by omega
      simp only [hcond]

/-- Closed form of the TRIANGLE index loop. -/
theorem triangleIndices_eq (n : Nat) :
    triangleIndices (n : Int) = (List.range (n - 1)).flatMap (triangleRow n) := by
  unfold triangleIndices
  have hc : ((n : Int) - 1).toNat = n - 1 := by omega
  rw [hc, foldl_triIndexRow n (n - 1) (by omega)]

/-- The indices of a row are the corners of the triangles of its cells. -/
theorem triangleRow_triples (n i : Nat) :
    (triangleRow n i).length % 3 = 0 ∧
    Spec.triples (triangleRow n i) =
      (List.range (n - 1 - i)).flatMap fun j => Spec.triangleCell n i j := by
  unfold triangleRow
  have h3 := Spec.triples_flatMap (fun (j : Nat) =>
      let ncols : Int := (n : Int) - (i : Int)
      let idx0 : Int := (Spec.rowStart n i : Int) + (j : Int)
      [idx0, idx0 + ncols, idx0 + 1] ++
        (if i + j + 2 < n then [idx0 + 1, idx0 + ncols, idx0 + ncols + 1] else []))
    (List.range (n - 1 - i)) (fun j _ => by
      by_cases hc : i + j + 2 < n <;> simp [hc])
  refine ⟨h3.1, ?_⟩
  rw [h3.2]
  congr 1
  funext j
  by_cases hc : i + j + 2 < n <;> simp [hc, Spec.triples, Spec.triangleCell]

/-- The triangles of the TRIANGLE index loop, cell by cell. -/
theorem triangleIndices_triples (n : Nat) :
    (triangleIndices (n : Int)).length % 3 = 0 ∧
    Spec.triples (triangleIndices (n : Int)) =
      (List.range (n - 1)).flatMap fun i =>
        (List.range (n - 1 - i)).flatMap fun j => Spec.triangleCell n i j := by
  rw [triangleIndices_eq]
  have h3 := Spec.triples_flatMap (triangleRow n) (List.range (n - 1))
    fun i _ => (triangleRow_triples n i).1
  refine ⟨h3.1, ?_⟩
  rw [h3.2]
  congr 1
  funext i
  exact (triangleRow_triples n i).2

end tess.uniform

namespace tess.uniform

/-- Number of coordinate pairs, and the pair written for vertex `j` of row `i`, in the
TRIANGLE coordinate loop with `n` rows: `u = i/(n-1)` and `v = t * (1 - u)` with `t = 0` in
a row of one vertex and `t = j/(n-i-1)` otherwise. -/
theorem triangleUV_getD (n : Nat) :
    (triangleUV (n : Int)).length = Spec.rowStart n n ∧
    ∀ i j : Nat, i < n → j < n - i →
      (triangleUV (n : Int)).getD (Spec.rowStart n i + j) (0, 0) =
        ((i : ℚ) / ((n : ℚ) - 1),
          (if i + 1 = n then 0 else (j : ℚ) / ((n : ℚ) - (i : ℚ) - 1)) *
            (1 - (i : ℚ) / ((n : ℚ) - 1))) := by
  have hlen : ∀ i : Nat, i < n → ((List.range ((n : Int) - (i : Int)).toNat).map fun (j : Nat) =>
      let t : ℚ := if (n : Int) - (i : Int) = 1 then 0
        else (j : ℚ) / ((((n : Int) - (i : Int) - 1 : Int) : ℚ))
      ((i : ℚ) / ((((n : Int) - 1 : Int) : ℚ)),
        t * (1 - (i : ℚ) / ((((n : Int) - 1 : Int) : ℚ))))).length = n - i := by
    intro i _
    rw [List.length_map, List.length_range]
    omega
  have h := getD_flatMap_range_offset (fun (i : Nat) =>
      (List.range ((n : Int) - (i : Int)).toNat).map fun (j : Nat) =>
        let t : ℚ := if (n : Int) - (i : Int) = 1 then 0
          else (j : ℚ) / ((((n : Int) - (i : Int) - 1 : Int) : ℚ))
        ((i : ℚ) / ((((n : Int) - 1 : Int) : ℚ)),
          t * (1 - (i : ℚ) / ((((n : Int) - 1 : Int) : ℚ)))))
    (Spec.rowStart n) ((0 : ℚ), (0 : ℚ)) rfl n
    (fun k hk => by rw [hlen k hk]; rfl)
  have hn : (Int.toNat (n : Int)) = n := Int.toNat_ofNat n
  unfold triangleUV
  rw [hn]
  refine ⟨h.1, ?_⟩
  intro i j hi hj
  rw [h.2 i j hi (by rw [hlen i hi]; exact hj)]
  have hj2 : j < ((n : Int) - (i : Int)).toNat := by omega
  rw [List.getD_eq_getElem _ _ (by rw [List.length_map, List.length_range]; exact hj2)]
  have hcond : ((n : Int) - (i : Int) = 1) ↔ i + 1 = n := by omega
  simp only [List.getElem_map, List.getElem_range, hcond]
  push_cast
  rfl

/-- The patch produced for TRIANGLE at a level of 1 or more, `n = lod + 2`. -/
theorem tessellate_triangle (lod : Int) (n : Nat) (hn : (n : Int) = lod + 2) (h : 1 ≤ lod)
    (patch : Patch) :
    tessellate DomainMode.TRIANGLE lod patch =
      { indices := triangleIndices (n : Int),
        u := (triangleUV (n : Int)).map Prod.fst,
        v := (triangleUV (n : Int)).map Prod.snd } := by
  unfold tessellate
  rw [if_neg (by decide), if_pos rfl, if_neg (by omega), hn]

/-- The patch produced for TRIANGLE at a level below 1. -/
theorem tessellate_triangle_degenerate (lod : Int) (h : lod < 1) (patch : Patch) :
    tessellate DomainMode.TRIANGLE lod patch =
      { indices := [0, 1, 2], u := [0, 0, 1], v := [0, 1, 0] } := by
  unfold tessellate
  rw [if_neg (by decide), if_pos rfl, if_pos h]

/-- Position of vertex `j` of row `i` of a TRIANGLE patch of level 1 or more: in exact
arithmetic `(i/(n-1), j/(n-1))`. -/
theorem point_triangle (lod : Int) (n : Nat) (hn : (n : Int) = lod + 2) (h : 1 ≤ lod)
    (patch : Patch) (i j : Nat) (hi : i < n) (hj : j < n - i) :
    Spec.point (tessellate DomainMode.TRIANGLE lod patch)
        ((Spec.rowStart n i : Int) + (j : Int)) =
      ((i : ℚ) / ((n : ℚ) - 1), (j : ℚ) / ((n : ℚ) - 1)) := by
  rw [tessellate_triangle lod n hn h]
  obtain ⟨hlen, hget⟩ := triangleUV_getD n
  have hk : ((Spec.rowStart n i : Int) + (j : Int)).toNat = Spec.rowStart n i + j := by omega
  have hlt : Spec.rowStart n i + j < (triangleUV (n : Int)).length := by
    rw [hlen]; exact Spec.rowStart_add_lt n i j hi hj
  have hg := hget i j hi hj
  rw [List.getD_eq_getElem _ _ hlt] at hg
  simp only [Spec.point, hk]
  rw [List.getD_eq_getElem _ _ (by rw [List.length_map]; exact hlt),
    List.getD_eq_getElem _ _ (by rw [List.length_map]; exact hlt),
    List.getElem_map, List.getElem_map, hg]
  have hn1 : (n : ℚ) - 1 ≠ 0 := by
    have : (3 : ℚ) ≤ (n : ℚ) := by exact_mod_cast (show (3 : Int) ≤ (n : Int) by omega)
    intro h0
    linarith
  refine Prod.ext rfl ?_
  show (if i + 1 = n then 0 else (j : ℚ) / ((n : ℚ) - (i : ℚ) - 1)) *
      (1 - (i : ℚ) / ((n : ℚ) - 1)) = (j : ℚ) / ((n : ℚ) - 1)
  by_cases hl : i + 1 = n
  · have hj0 : j = 0 := by omega
    rw [if_pos hl, hj0]
    simp
  · rw [if_neg hl]
    have hni : (n : ℚ) - (i : ℚ) - 1 ≠ 0 := by
      have : ((i : Int) + 2 : Int) ≤ (n : Int) := by omega
      have : ((i : ℚ) + 2 : ℚ) ≤ (n : ℚ) := by exact_mod_cast this
      intro h0
      linarith
    field_simp
    ring

end tess.uniform

namespace tess.uniform

/-- The triangles of a TRIANGLE patch of level 1 or more, cell by cell. -/
theorem triangles_triangle (lod : Int) (n : Nat) (hn : (n : Int) = lod + 2) (h : 1 ≤ lod)
    (patch : Patch) :
    Spec.triangles (tessellate DomainMode.TRIANGLE lod patch) =
      (List.range (n - 1)).flatMap fun i =>
        (List.range (n - 1 - i)).flatMap fun j => Spec.triangleCell n i j := by
  rw [tessellate_triangle lod n hn h]
  exact (triangleIndices_triples n).2

theorem mem_triangles_triangle (lod : Int) (n : Nat) (hn : (n : Int) = lod + 2) (h : 1 ≤ lod)
    (patch : Patch) (t : Int × Int × Int) :
    t ∈ Spec.triangles (tessellate DomainMode.TRIANGLE lod patch) ↔
      ∃ i j : Nat, i + j + 1 < n ∧ t ∈ Spec.triangleCell n i j := by
  rw [triangles_triangle lod n hn h]
  simp only [List.mem_flatMap, List.mem_range]
  constructor
  · rintro ⟨i, hi, j, hj, ht⟩
    exact ⟨i, j, by omega, ht⟩
  · rintro ⟨i, j, hij, ht⟩
    exact ⟨i, by omega, j, by omega, ht⟩

/-- A row of `c + 1` cells holds `2c + 1` triangles: every cell but the last has two. -/
theorem triangleCell_row_length (n i : Nat) (hi : i + 1 < n) :
    ((List.range (n - 1 - i)).flatMap fun j => Spec.triangleCell n i j).length =
      2 * (n - 1 - i) - 1 := by
  obtain ⟨c, hc⟩ : ∃ c : Nat, n - 1 - i = c + 1 := ⟨n - 2 - i, by omega⟩
  rw [hc, List.range_succ, List.flatMap_append, List.length_append,
    length_flatMap_range_const _ 2 c (fun j hj => by
      have : i + j + 2 < n := by omega
      simp [Spec.triangleCell, this])]
  have : ¬ i + c + 2 < n := by omega
  simp [Spec.triangleCell, this]
  omega

/-- The first `m` rows hold `m * (2n - 2 - m)` triangles. -/
theorem triangleCell_rows_length (n : Nat) : ∀ m : Nat, m + 1 ≤ n →
    ((((List.range m).flatMap fun i =>
      (List.range (n - 1 - i)).flatMap fun j => Spec.triangleCell n i j).length : Nat) : Int) =
      (m : Int) * (2 * (n : Int) - 2 - (m : Int)) := by
  intro m
  induction m with
  | zero => intro _; simp
  | succ m ih =>
    intro hm
    rw [List.range_succ, List.flatMap_append, List.length_append]
    simp only [List.flatMap_cons, List.flatMap_nil, List.append_nil]
    rw [triangleCell_row_length n m (by omega)]
    have hrow : ((2 * (n - 1 - m) - 1 : Nat) : Int) = 2 * ((n : Int) - 1 - (m : Int)) - 1 := by
      omega
    rw [Nat.cast_add, ih (by omega), hrow]
    push_cast
    ring

/-- Number of triangles of a TRIANGLE patch of level 1 or more. -/
theorem triangles_triangle_length (lod : Int) (h : 1 ≤ lod) (patch : Patch) :
    ((Spec.triangles (tessellate DomainMode.TRIANGLE lod patch)).length : Int) =
      (lod + 1) * (lod + 1) := by
  obtain ⟨n, hn⟩ : ∃ n : Nat, (n : Int) = lod + 2 := ⟨(lod + 2).toNat, by omega⟩
  rw [triangles_triangle lod n hn h, triangleCell_rows_length n (n - 1) (by omega)]
  have : ((n - 1 : Nat) : Int) = lod + 1 := by omega
  rw [this, hn]
  ring

/-- Every triangle of a cell of a TRIANGLE patch of level 1 or more has the signed area
form `1 / (n - 1)^2`, `n = lod + 2`. -/
theorem orientation_triangleCell (lod : Int) (n : Nat) (hn : (n : Int) = lod + 2)
    (h : 1 ≤ lod) (patch : Patch) (i j : Nat) (hij : i + j + 1 < n) (t : Int × Int × Int)
    (ht : t ∈ Spec.triangleCell n i j) :
    Spec.orientation (tessellate DomainMode.TRIANGLE lod patch) t =
      1 / (((n : ℚ) - 1) * ((n : ℚ) - 1)) := by
  have e10 : (Spec.rowStart n i : Int) + (j : Int) + ((n : Int) - (i : Int)) =
      ((Spec.rowStart n (i + 1) : Nat) : Int) + (j : Int) := by
    rw [Spec.rowStart_succ_cast n i (by omega)]; ring
  have e01 : (Spec.rowStart n i : Int) + (j : Int) + 1 =
      (Spec.rowStart n i : Int) + ((j + 1 : Nat) : Int) := by push_cast; ring
  have e11 : ((Spec.rowStart n (i + 1) : Nat) : Int) + (j : Int) + 1 =
      ((Spec.rowStart n (i + 1) : Nat) : Int) + ((j + 1 : Nat) : Int) := by push_cast; ring
  have p00 := point_triangle lod n hn h patch i j (by omega) (by omega)
  have p10 := point_triangle lod n hn h patch (i + 1) j (by omega) (by omega)
  have p01 := point_triangle lod n hn h patch i (j + 1) (by omega) (by omega)
  have hn1 : (n : ℚ) - 1 ≠ 0 := by
    have : (3 : ℚ) ≤ (n : ℚ) := by exact_mod_cast (show (3 : Int) ≤ (n : Int) by omega)
    intro h0
    linarith
  simp only [Spec.triangleCell, List.mem_cons] at ht
  rcases ht with rfl | ht
  · simp only [Spec.orientation, e10, e01, p00, p10, p01]
    push_cast
    field_simp
  · by_cases hc : i + j + 2 < n
    · have p11 := point_triangle lod n hn h patch (i + 1) (j + 1) (by omega) (by omega)
      rw [if_pos hc, List.mem_singleton] at ht
      subst ht
      simp only [Spec.orientation, e10, e01, e11, p10, p01, p11]
      push_cast
      field_simp
    · rw [if_neg hc] at ht
      exact absurd ht (List.not_mem_nil _)

end tess.uniform

/-! ## Well-formed index lists -/

namespace tess.uniform

theorem numTriangles_eq (p : Patch) : p.numTriangles = ((Spec.triangles p).length : Int) := by
  unfold Patch.numTriangles Spec.triangles
  rw [Spec.triples_length]
  omega

theorem wellFormed_quad_degenerate (lod : Int) (h : lod ≤ 1) (patch : Patch) :
    Spec.WellFormed (tessellate DomainMode.QUAD lod patch) := by
  rw [tessellate_quad_degenerate lod h]
  decide

theorem wellFormed_triangle_degenerate (lod : Int) (h : lod < 1) (patch : Patch) :
    Spec.WellFormed (tessellate DomainMode.TRIANGLE lod patch) := by
  rw [tessellate_triangle_degenerate lod h]
  decide

/-- The corners of the two triangles of a grid cell are grid vertices, pairwise distinct
within each triangle. -/
theorem quadCell_corners (lod : Int) (h : 2 ≤ lod) (i j : Nat)
    (hi : (i : Int) + 1 < lod) (hj : (j : Int) + 1 < lod) (t : Int × Int × Int)
    (ht : t ∈ Spec.quadCell lod i j) :
    (0 ≤ t.1 ∧ t.1 < lod * lod) ∧ (0 ≤ t.2.1 ∧ t.2.1 < lod * lod) ∧
    (0 ≤ t.2.2 ∧ t.2.2 < lod * lod) ∧ t.1 ≠ t.2.1 ∧ t.1 ≠ t.2.2 ∧ t.2.1 ≠ t.2.2 := by
  have h0 : 0 ≤ (j : Int) * lod := mul_nonneg (by omega) (by omega)
  have h1 : ((j : Int) + 2) * lod ≤ lod * lod := by
    rw [mul_comm lod lod]
    exact mul_le_mul_of_nonneg_right (by omega) (by omega)
  have h2 : ((j : Int) + 2) * lod = (j : Int) * lod + 2 * lod := by ring
  simp only [Spec.quadCell, List.mem_cons, List.mem_singleton, List.not_mem_nil, or_false] at ht
  rcases ht with rfl | rfl
  · refine ⟨⟨?_, ?_⟩, ⟨?_, ?_⟩, ⟨?_, ?_⟩, ?_, ?_, ?_⟩ <;> simp only <;> omega
  · refine ⟨⟨?_, ?_⟩, ⟨?_, ?_⟩, ⟨?_, ?_⟩, ?_, ?_, ?_⟩ <;> simp only <;> omega

/-- Every grid vertex is a corner of a triangle of some grid cell. -/
theorem quad_vertex_covered (lod : Int) (h : 2 ≤ lod) (i j : Nat)
    (hi : (i : Int) < lod) (hj : (j : Int) < lod) :
    ∃ a b : Nat, (a : Int) + 1 < lod ∧ (b : Int) + 1 < lod ∧
      ∃ t ∈ Spec.quadCell lod a b,
        (j : Int) * lod + (i : Int) = t.1 ∨ (j : Int) * lod + (i : Int) = t.2.1 ∨
          (j : Int) * lod + (i : Int) = t.2.2 := by
  by_cases hi1 : (i : Int) + 1 < lod
  · by_cases hj1 : (j : Int) + 1 < lod
    · exact ⟨i, j, hi1, hj1, _, List.mem_cons_self _ _, Or.inl rfl⟩
    · obtain ⟨b, hb⟩ : ∃ b : Nat, j = b + 1 := ⟨j - 1, by omega⟩
      subst hb
      refine ⟨i, b, hi1, by push_cast at hj; omega, _, List.mem_cons_self _ _,
        Or.inr (Or.inr ?_)⟩
      push_cast
      ring
  · obtain ⟨a, ha⟩ : ∃ a : Nat, i = a + 1 := ⟨i - 1, by omega⟩
    subst ha
    by_cases hj1 : (j : Int) + 1 < lod
    · refine ⟨a, j, by push_cast at hi; omega, hj1, _,
        List.mem_cons_of_mem _ (List.mem_cons_self _ _), Or.inr (Or.inl ?_)⟩
      push_cast
      ring
    · obtain ⟨b, hb⟩ : ∃ b : Nat, j = b + 1 := ⟨j - 1, by omega⟩
      subst hb
      refine ⟨a, b, by push_cast at hi; omega, by push_cast at hj; omega, _,
        List.mem_cons_self _ _, Or.inr (Or.inl ?_)⟩
      push_cast
      ring

theorem wellFormed_quad (lod : Int) (h : 2 ≤ lod) (patch : Patch) :
    Spec.WellFormed (tessellate DomainMode.QUAD lod patch) := by
  have hmem := mem_triangles_quad lod h patch
  have hidx : (tessellate DomainMode.QUAD lod patch).indices.length % 3 = 0 := by
    rw [tessellate_quad lod h]; exact (quadIndices_triples lod).2.1
  have hu : ((tessellate DomainMode.QUAD lod patch).u.length : Int) = lod * lod := by
    rw [tessellate_quad lod h]
    simp only [quadU_length]
    push_cast
    rw [Int.toNat_of_nonneg (by omega)]
  refine ⟨hidx, ?_, ?_, ?_⟩
  · intro k hk
    obtain ⟨t, ht, hkt⟩ := (Spec.mem_iff_mem_triples _ k hidx).mp hk
    obtain ⟨i, j, hi, hj, hc⟩ := (hmem t).mp ht
    have hco := quadCell_corners lod h i j hi hj t hc
    rw [hu]
    rcases hkt with rfl | rfl | rfl
    · exact hco.1
    · exact hco.2.1
    · exact hco.2.2.1
  · intro k hk
    obtain ⟨n, hn⟩ : ∃ n : Nat, lod = (n : Int) := ⟨lod.toNat, by omega⟩
    have hk2 : k < n * n := by
      have : ((k : Nat) : Int) < lod * lod := by rw [← hu]; exact_mod_cast hk
      rw [hn] at this
      exact_mod_cast this
    have hnpos : 0 < n := by omega
    have hdiv : k / n < n := Nat.div_lt_of_lt_mul hk2
    have hmod : k % n < n := Nat.mod_lt k hnpos
    have hk3 : (k : Int) = ((k / n : Nat) : Int) * lod + ((k % n : Nat) : Int) := by
      rw [hn]
      have := Nat.div_add_mod k n
      have h4 : ((n * (k / n) + k % n : Nat) : Int) = (k : Int) := by rw [this]
      rw [← h4]
      push_cast
      ring
    obtain ⟨a, b, ha, hb, t, ht, hkt⟩ := quad_vertex_covered lod h (k % n) (k / n)
      (by rw [hn]; exact_mod_cast hmod) (by rw [hn]; exact_mod_cast hdiv)
    rw [← hk3] at hkt
    exact (Spec.mem_iff_mem_triples _ (k : Int) hidx).mpr
      ⟨t, (hmem t).mpr ⟨a, b, ha, hb, ht⟩, hkt⟩
  · intro t ht
    obtain ⟨i, j, hi, hj, hc⟩ := (hmem t).mp ht
    exact (quadCell_corners lod h i j hi hj t hc).2.2.2

end tess.uniform

namespace tess.uniform

/-- The corners of the triangles of a cell of the TRIANGLE pattern are vertices of the
pattern, pairwise distinct within each triangle. -/
theorem triangleCell_corners (n i j : Nat) (hij : i + j + 1 < n) (t : Int × Int × Int)
    (ht : t ∈ Spec.triangleCell n i j) :
    (0 ≤ t.1 ∧ t.1 < (Spec.rowStart n n : Int)) ∧
    (0 ≤ t.2.1 ∧ t.2.1 < (Spec.rowStart n n : Int)) ∧
    (0 ≤ t.2.2 ∧ t.2.2 < (Spec.rowStart n n : Int)) ∧
    t.1 ≠ t.2.1 ∧ t.1 ≠ t.2.2 ∧ t.2.1 ≠ t.2.2 := by
  have hs := Spec.rowStart_succ_cast n i (by omega)
  have b0 : ((Spec.rowStart n i + (j + 1) : Nat) : Int) < (Spec.rowStart n n : Int) := by
    exact_mod_cast Spec.rowStart_add_lt n i (j + 1) (by omega) (by omega)
  have b1 : ((Spec.rowStart n (i + 1) + j : Nat) : Int) < (Spec.rowStart n n : Int) := by
    exact_mod_cast Spec.rowStart_add_lt n (i + 1) j (by omega) (by omega)
  push_cast at b0 b1
  simp only [Spec.triangleCell, List.mem_cons] at ht
  rcases ht with rfl | ht
  · refine ⟨⟨?_, ?_⟩, ⟨?_, ?_⟩, ⟨?_, ?_⟩, ?_, ?_, ?_⟩ <;> simp only <;> omega
  · by_cases hc : i + j + 2 < n
    · have b2 : ((Spec.rowStart n (i + 1) + (j + 1) : Nat) : Int) < (Spec.rowStart n n : Int) := by
        exact_mod_cast Spec.rowStart_add_lt n (i + 1) (j + 1) (by omega) (by omega)
      push_cast at b2
      rw [if_pos hc, List.mem_singleton] at ht
      subst ht
      refine ⟨⟨?_, ?_⟩, ⟨?_, ?_⟩, ⟨?_, ?_⟩, ?_, ?_, ?_⟩ <;> simp only <;> omega
    · rw [if_neg hc] at ht
      exact absurd ht (List.not_mem_nil _)

/-- Every vertex of the TRIANGLE pattern with at least two rows is a corner of the upward
triangle of some cell. -/
theorem triangle_vertex_covered (n i j : Nat) (hn : 2 ≤ n) (hi : i < n) (hj : j < n - i) :
    ∃ a b : Nat, a + b + 1 < n ∧
      ∃ t ∈ Spec.triangleCell n a b,
        (Spec.rowStart n i : Int) + (j : Int) = t.1 ∨
        (Spec.rowStart n i : Int) + (j : Int) = t.2.1 ∨
        (Spec.rowStart n i : Int) + (j : Int) = t.2.2 := by
  by_cases hc : i + j + 1 < n
  · exact ⟨i, j, hc, _, List.mem_cons_self _ _, Or.inl rfl⟩
  · by_cases hj0 : j = 0
    · obtain ⟨a, ha⟩ : ∃ a : Nat, i = a + 1 := ⟨i - 1, by omega⟩
      subst ha
      subst hj0
      refine ⟨a, 0, by omega, _, List.mem_cons_self _ _, Or.inr (Or.inl ?_)⟩
      rw [Spec.rowStart_succ_cast n a (by omega)]
      push_cast
      ring
    · obtain ⟨b, hb⟩ : ∃ b : Nat, j = b + 1 := ⟨j - 1, by omega⟩
      subst hb
      refine ⟨i, b, by omega, _, List.mem_cons_self _ _, Or.inr (Or.inr ?_)⟩
      push_cast
      ring

theorem wellFormed_triangle (lod : Int) (h : 1 ≤ lod) (patch : Patch) :
    Spec.WellFormed (tessellate DomainMode.TRIANGLE lod patch) := by
  obtain ⟨n, hn⟩ : ∃ n : Nat, (n : Int) = lod + 2 := ⟨(lod + 2).toNat, by omega⟩
  have hmem := mem_triangles_triangle lod n hn h patch
  have hidx : (tessellate DomainMode.TRIANGLE lod patch).indices.length % 3 = 0 := by
    rw [tessellate_triangle lod n hn h]; exact (triangleIndices_triples n).1
  have hu : (tessellate DomainMode.TRIANGLE lod patch).u.length = Spec.rowStart n n := by
    rw [tessellate_triangle lod n hn h]
    simp only [List.length_map]
    exact (triangleUV_getD n).1
  refine ⟨hidx, ?_, ?_, ?_⟩
  · intro k hk
    obtain ⟨t, ht, hkt⟩ := (Spec.mem_iff_mem_triples _ k hidx).mp hk
    obtain ⟨i, j, hij, hc⟩ := (hmem t).mp ht
    have hco := triangleCell_corners n i j hij t hc
    rw [hu]
    rcases hkt with rfl | rfl | rfl
    · exact hco.1
    · exact hco.2.1
    · exact hco.2.2.1
  · intro k hk
    rw [hu] at hk
    obtain ⟨i, j, hi, hj, hkij⟩ := Spec.exists_row_of_lt n n k hk
    obtain ⟨a, b, hab, t, ht, hkt⟩ := triangle_vertex_covered n i j (by omega) hi hj
    have hk3 : (k : Int) = (Spec.rowStart n i : Int) + (j : Int) := by
      rw [hkij]; push_cast; rfl
    rw [← hk3] at hkt
    exact (Spec.mem_iff_mem_triples _ (k : Int) hidx).mpr ⟨t, (hmem t).mpr ⟨a, b, hab, ht⟩, hkt⟩
  · intro t ht
    obtain ⟨i, j, hij, hc⟩ := (hmem t).mp ht
    exact (triangleCell_corners n i j hij t hc).2.2.2

end tess.uniform

/-! ## Orientation and area -/

namespace tess.uniform

theorem orientation_quad (lod : Int) (h : 2 ≤ lod) (patch : Patch) :
    ∀ t ∈ Spec.triangles (tessellate DomainMode.QUAD lod patch),
      Spec.orientation (tessellate DomainMode.QUAD lod patch) t =
        1 / (((lod : ℚ) - 1) * ((lod : ℚ) - 1)) := by
  intro t ht
  obtain ⟨i, j, hi, hj, hc⟩ := (mem_triangles_quad lod h patch t).mp ht
  exact orientation_quadCell lod h patch i j hi hj t hc

theorem orientation_quad_degenerate (lod : Int) (h : lod ≤ 1) (patch : Patch) :
    ∀ t ∈ Spec.triangles (tessellate DomainMode.QUAD lod patch),
      Spec.orientation (tessellate DomainMode.QUAD lod patch) t = 1 := by
  rw [tessellate_quad_degenerate lod h]
  intro t ht
  simp only [Spec.triangles, Spec.triples, List.mem_cons, List.mem_singleton, List.not_mem_nil,
    or_false] at ht
  rcases ht with rfl | rfl <;> simp [Spec.orientation, Spec.point]

theorem orientation_triangle (lod : Int) (h : 1 ≤ lod) (patch : Patch) :
    ∀ t ∈ Spec.triangles (tessellate DomainMode.TRIANGLE lod patch),
      Spec.orientation (tessellate DomainMode.TRIANGLE lod patch) t =
        1 / (((lod : ℚ) + 1) * ((lod : ℚ) + 1)) := by
  obtain ⟨n, hn⟩ : ∃ n : Nat, (n : Int) = lod + 2 := ⟨(lod + 2).toNat, by omega⟩
  intro t ht
  obtain ⟨i, j, hij, hc⟩ := (mem_triangles_triangle lod n hn h patch t).mp ht
  rw [orientation_triangleCell lod n hn h patch i j hij t hc]
  have hq : (n : ℚ) = (lod : ℚ) + 2 := by exact_mod_cast hn
  rw [hq]
  ring_nf

theorem orientation_triangle_degenerate (lod : Int) (h : lod < 1) (patch : Patch) :
    ∀ t ∈ Spec.triangles (tessellate DomainMode.TRIANGLE lod patch),
      Spec.orientation (tessellate DomainMode.TRIANGLE lod patch) t = -1 := by
  rw [tessellate_triangle_degenerate lod h]
  intro t ht
  simp only [Spec.triangles, Spec.triples, List.mem_singleton] at ht
  subst ht
  simp [Spec.orientation, Spec.point]

/-- Triangles that all have the same non-zero signed area form wind consistently. -/
theorem consistentWinding_of_const (p : Patch) (c : ℚ) (hc : c ≠ 0)
    (h : ∀ t ∈ Spec.triangles p, Spec.orientation p t = c) : Spec.ConsistentWinding p := by
  refine ⟨fun t ht => by rw [h t ht]; exact hc, fun t ht s hs => by rw [h t ht, h s hs]⟩

/-- Total area of triangles that all have the same signed area form. -/
theorem totalArea_of_const (p : Patch) (c : ℚ)
    (h : ∀ t ∈ Spec.triangles p, Spec.orientation p t = c) :
    Spec.totalArea p = ((Spec.triangles p).length : ℚ) * (|c| / 2) := by
  unfold Spec.totalArea
  exact sum_map_eq_length_mul _ _ _ fun t ht => by rw [Spec.area, h t ht]

theorem totalArea_quad (lod : Int) (patch : Patch) :
    Spec.totalArea (tessellate DomainMode.QUAD lod patch) = 1 := by
  rcases le_or_lt lod 1 with h | h
  · rw [totalArea_of_const _ 1 (orientation_quad_degenerate lod h patch),
      tessellate_quad_degenerate lod h]
    simp [Spec.triangles, Spec.triples]
  · have h2 : 2 ≤ lod := by omega
    rw [totalArea_of_const _ _ (orientation_quad lod h2 patch)]
    have hl := triangles_quad_length lod h2 patch
    have hq : (((Spec.triangles (tessellate DomainMode.QUAD lod patch)).length : Int) : ℚ) =
        2 * ((lod : ℚ) - 1) * ((lod : ℚ) - 1) := by rw [hl]; push_cast; ring
    rw [Int.cast_natCast] at hq
    rw [hq]
    have hpos : (0 : ℚ) < (lod : ℚ) - 1 := by
      have : (2 : ℚ) ≤ (lod : ℚ) := by exact_mod_cast h2
      linarith
    have hl1 : (lod : ℚ) - 1 ≠ 0 := ne_of_gt hpos
    rw [abs_of_pos (div_pos one_pos (mul_pos hpos hpos))]
    field_simp
    ring

theorem totalArea_triangle (lod : Int) (patch : Patch) :
    Spec.totalArea (tessellate DomainMode.TRIANGLE lod patch) = 1 / 2 := by
  rcases lt_or_le lod 1 with h | h
  · rw [totalArea_of_const _ (-1) (orientation_triangle_degenerate lod h patch),
      tessellate_triangle_degenerate lod h]
    simp [Spec.triangles, Spec.triples]
  · rw [totalArea_of_const _ _ (orientation_triangle lod h patch)]
    have hl := triangles_triangle_length lod h patch
    have hq : (((Spec.triangles (tessellate DomainMode.TRIANGLE lod patch)).length : Int) : ℚ) =
        ((lod : ℚ) + 1) * ((lod : ℚ) + 1) := by rw [hl]; push_cast; ring
    rw [Int.cast_natCast] at hq
    rw [hq]
    have hpos : (0 : ℚ) < (lod : ℚ) + 1 := by
      have : (1 : ℚ) ≤ (lod : ℚ) := by exact_mod_cast h
      linarith
    have hl1 : (lod : ℚ) + 1 ≠ 0 := ne_of_gt hpos
    rw [abs_of_pos (div_pos one_pos (mul_pos hpos hpos))]
    field_simp

end tess.uniform

/-! ## Sizes and reference patterns -/

namespace tess.uniform

/-- Vertex counts of a QUAD patch of level 2 or more. -/
theorem quad_lengths (lod : Int) (h : 2 ≤ lod) (patch : Patch) :
    ((tessellate DomainMode.QUAD lod patch).u.length : Int) = lod * lod ∧
    ((tessellate DomainMode.QUAD lod patch).v.length : Int) = lod * lod := by
  rw [tessellate_quad lod h]
  simp only [quadU_length, quadV_length]
  push_cast
  rw [Int.toNat_of_nonneg (by omega)]
  exact ⟨rfl, rfl⟩

/-- Vertex counts of a TRIANGLE patch of level 1 or more, `n = lod + 2`. -/
theorem triangle_lengths (lod : Int) (n : Nat) (hn : (n : Int) = lod + 2) (h : 1 ≤ lod)
    (patch : Patch) :
    (tessellate DomainMode.TRIANGLE lod patch).u.length = Spec.rowStart n n ∧
    (tessellate DomainMode.TRIANGLE lod patch).v.length = Spec.rowStart n n := by
  rw [tessellate_triangle lod n hn h]
  simp only [List.length_map]
  exact ⟨(triangleUV_getD n).1, (triangleUV_getD n).1⟩

/-- Every index list that `tessellate` produces for QUAD or TRIANGLE holds three indices
per triangle. -/
theorem indices_length_eq (domain : DomainMode) (lod : Int) (patch : Patch)
    (hd : domain = DomainMode.QUAD ∨ domain = DomainMode.TRIANGLE) :
    (tessellate domain lod patch).indices.length =
      3 * (Spec.triangles (tessellate domain lod patch)).length := by
  have h3 : (tessellate domain lod patch).indices.length % 3 = 0 := by
    rcases hd with rfl | rfl
    · rcases le_or_lt lod 1 with h | h
      · exact (wellFormed_quad_degenerate lod h patch).1
      · exact (wellFormed_quad lod (by omega) patch).1
    · rcases lt_or_le lod 1 with h | h
      · exact (wellFormed_triangle_degenerate lod h patch).1
      · exact (wellFormed_triangle lod h patch).1
  unfold Spec.triangles
  rw [Spec.triples_length]
  omega

end tess.uniform

namespace tess.uniform

/-- An exact value inside the 32-bit range is not changed by the wrap-around. -/
theorem toInt32_of_range (x : Int) (hlo : -2147483648 ≤ x) (hhi : x ≤ 2147483647) :
    toInt32 x = x := by
  unfold toInt32
  omega

/-- Up to level 32768 the QUAD counts of `patchSize` are the exact `2 * (lod - 1)^2` and
`lod^2`. -/
theorem patchSize_quad_exact (lod : Int) (h2 : 2 ≤ lod) (hmax : lod ≤ 32768) :
    patchSize DomainMode.QUAD lod = some (2 * (lod - 1) * (lod - 1), lod * lod) := by
  have hsq : (lod - 1) * (lod - 1) ≤ 32767 * 32767 :=
    mul_le_mul (by omega) (by omega) (by omega) (by decide)
  have hsq0 : 0 ≤ (lod - 1) * (lod - 1) := mul_self_nonneg _
  have hll : lod * lod ≤ 32768 * 32768 :=
    mul_le_mul hmax hmax (by omega) (by decide)
  have hll0 : 0 ≤ lod * lod := mul_self_nonneg _
  have e1 : toInt32 (lod - 1) = lod - 1 := toInt32_of_range _ (by omega) (by omega)
  have e2 : toInt32 (2 * (lod - 1)) = 2 * (lod - 1) :=
    toInt32_of_range _ (by omega) (by omega)
  have e3 : toInt32 (2 * (lod - 1) * (lod - 1)) = 2 * (lod - 1) * (lod - 1) :=
    toInt32_of_range _ (by rw [mul_assoc]; omega) (by rw [mul_assoc]; omega)
  have e4 : toInt32 (lod * lod) = lod * lod := toInt32_of_range _ (by omega) (by omega)
  have hgt : lod > 1 := by omega
  simp only [patchSize, if_pos hgt, e1, e2, e3, e4]

/-- Up to level 46338 the TRIANGLE counts of `patchSize` are the exact `(lod + 1)^2` and
`(lod + 2) * (lod + 3) / 2`. -/
theorem patchSize_triangle_exact (lod : Int) (h0 : 0 ≤ lod) (hmax : lod ≤ 46338) :
    patchSize DomainMode.TRIANGLE lod =
      some ((lod + 1) * (lod + 1), Int.tdiv ((lod + 2) * (lod + 2 + 1)) 2) := by
  have hsq : (lod + 1) * (lod + 1) ≤ 46339 * 46339 :=
    mul_le_mul (by omega) (by omega) (by omega) (by decide)
  have hsq0 : 0 ≤ (lod + 1) * (lod + 1) := mul_self_nonneg _
  have hp : (lod + 2) * (lod + 2 + 1) ≤ 46340 * 46341 :=
    mul_le_mul (by omega) (by omega) (by omega) (by decide)
  have hp0 : 0 ≤ (lod + 2) * (lod + 2 + 1) := mul_nonneg (by omega) (by omega)
  have e1 : toInt32 (lod + 1) = lod + 1 := toInt32_of_range _ (by omega) (by omega)
  have e2 : toInt32 ((lod + 1) * (lod + 1)) = (lod + 1) * (lod + 1) :=
    toInt32_of_range _ (by omega) (by omega)
  have e3 : toInt32 (lod + 2) = lod + 2 := toInt32_of_range _ (by omega) (by omega)
  have e4 : toInt32 (lod + 2 + 1) = lod + 2 + 1 := toInt32_of_range _ (by omega) (by omega)
  have e5 : toInt32 ((lod + 2) * (lod + 2 + 1)) = (lod + 2) * (lod + 2 + 1) :=
    toInt32_of_range _ (by omega) (by omega)
  simp only [patchSize, e1, e2, e3, e4, e5]

end tess.uniform

/-- Counterexample to C14 as stated: at the level 32769, which is at least 1,
`patchSize QUAD` returns the triangle count -2147483648 (the 32-bit value of
`2 * 32768 * 32768`), which is not the triangle count of the patch of that level, nor of
any patch. -/
theorem patchSize_quad_wraps_at_32769 :
    (1 : Int) ≤ 32769 ∧
    tess.uniform.patchSize tess.DomainMode.QUAD 32769 = some (-2147483648, 1073807361) ∧
    tess.uniform.patchSize tess.DomainMode.QUAD 32769 ≠
      some ((tess.uniform.tessellate tess.DomainMode.QUAD 32769 {}).numTriangles,
        (tess.uniform.tessellate tess.DomainMode.QUAD 32769 {}).numVertices) ∧
    ∀ patch : tess.Patch, patch.numTriangles ≠ -2147483648 := by
  have hp : tess.uniform.patchSize tess.DomainMode.QUAD 32769 =
      some (-2147483648, 1073807361) := by decide
  have hn : ∀ patch : tess.Patch, patch.numTriangles ≠ -2147483648 := by
    intro patch h
    have h0 : 0 ≤ patch.numTriangles := by
      unfold tess.Patch.numTriangles
      omega
    omega
  refine ⟨by decide, hp, ?_, hn⟩
  rw [hp]
  intro h
  injection h with h
  injection h with h1 _
  exact hn _ h1.symm

/-- C14 (amended): for QUAD and TRIANGLE and every level `1 <= lod <= maxLevel domain`
(18919 for QUAD, 26753 for TRIANGLE: the levels at which the `int` arithmetic of
`tessellate` and `patchSize` stays within 32 bits), `patchSize domain lod` returns the
number of triangles (`indices.size() / 3`) and the number of vertices (`u.size()`) of the
patch that `tessellate domain lod` produces, and that patch has `u.size() == v.size()`. -/
theorem patchSize_eq_tessellate_counts (domain : tess.DomainMode) (lod : Int)
    (patch : tess.Patch)
    (hd : domain = tess.DomainMode.QUAD ∨ domain = tess.DomainMode.TRIANGLE)
    (hlod : 1 ≤ lod) (hmax : lod ≤ Spec.maxLevel domain) :
    tess.uniform.patchSize domain lod =
      some ((tess.uniform.tessellate domain lod patch).numTriangles,
        (tess.uniform.tessellate domain lod patch).numVertices) ∧
    (tess.uniform.tessellate domain lod patch).u.length =
      (tess.uniform.tessellate domain lod patch).v.length := by
  rcases hd with rfl | rfl
  · have hmax1 : lod ≤ 18919 := hmax
    rcases le_or_lt lod 1 with h | h
    · have h1 : lod = 1 := by omega
      subst h1
      rw [tess.uniform.tessellate_quad_degenerate 1 (le_refl 1)]
      simp [tess.uniform.patchSize, tess.Patch.numTriangles, tess.Patch.numVertices]
    · have h2 : 2 ≤ lod := by omega
      obtain ⟨hu, hv⟩ := tess.uniform.quad_lengths lod h2 patch
      refine ⟨?_, by exact_mod_cast hu.trans hv.symm⟩
      rw [tess.uniform.numTriangles_eq, tess.uniform.triangles_quad_length lod h2,
        tess.uniform.patchSize_quad_exact lod h2 (by omega)]
      simp only [tess.Patch.numVertices, hu]
  · have hmax1 : lod ≤ 26753 := hmax
    obtain ⟨n, hn⟩ : ∃ n : Nat, (n : Int) = lod + 2 := ⟨(lod + 2).toNat, by omega⟩
    obtain ⟨hu, hv⟩ := tess.uniform.triangle_lengths lod n hn hlod patch
    refine ⟨?_, hu.trans hv.symm⟩
    rw [tess.uniform.numTriangles_eq, tess.uniform.triangles_triangle_length lod hlod,
      tess.uniform.patchSize_triangle_exact lod (by omega) (by omega)]
    have h2 := Spec.two_mul_rowStart n n (le_refl n)
    have h3 : (lod + 2) * (lod + 2 + 1) = 2 * (Spec.rowStart n n : Int) := by
      rw [h2, ← hn]; ring
    simp only [tess.Patch.numVertices, hu, h3,
      Int.mul_tdiv_cancel_left _ (show (2 : Int) ≠ 0 by decide)]

/-- Witness for C14: TRIANGLE at level 2 (9 triangles, 10 vertices). -/
theorem patchSize_eq_tessellate_counts_witness :
    (tess.DomainMode.TRIANGLE = tess.DomainMode.QUAD ∨
      tess.DomainMode.TRIANGLE = tess.DomainMode.TRIANGLE) ∧ (1 : Int) ≤ 2 ∧
    (2 : Int) ≤ Spec.maxLevel tess.DomainMode.TRIANGLE ∧
    tess.uniform.patchSize tess.DomainMode.TRIANGLE 2 =
      some ((tess.uniform.tessellate tess.DomainMode.TRIANGLE 2 {}).numTriangles,
        (tess.uniform.tessellate tess.DomainMode.TRIANGLE 2 {}).numVertices) ∧
    (tess.uniform.tessellate tess.DomainMode.TRIANGLE 2 {}).u.length =
      (tess.uniform.tessellate tess.DomainMode.TRIANGLE 2 {}).v.length :=
  ⟨Or.inr rfl, by decide, by decide,
    patchSize_eq_tessellate_counts tess.DomainMode.TRIANGLE 2 {} (Or.inr rfl) (by decide)
      (by decide)⟩

namespace tess.uniform

/-- The index list of every QUAD or TRIANGLE patch is well formed. -/
theorem wellFormed_tessellate (domain : DomainMode) (lod : Int) (patch : Patch)
    (hd : domain = DomainMode.QUAD ∨ domain = DomainMode.TRIANGLE) :
    Spec.WellFormed (tessellate domain lod patch) := by
  rcases hd with rfl | rfl
  · rcases le_or_lt lod 1 with h | h
    · exact wellFormed_quad_degenerate lod h patch
    · exact wellFormed_quad lod (by omega) patch
  · rcases lt_or_le lod 1 with h | h
    · exact wellFormed_triangle_degenerate lod h patch
    · exact wellFormed_triangle lod h patch

/-- All triangles of a QUAD or TRIANGLE patch have the same non-zero signed area form. -/
theorem orientation_tessellate (domain : DomainMode) (lod : Int) (patch : Patch)
    (hd : domain = DomainMode.QUAD ∨ domain = DomainMode.TRIANGLE) :
    ∃ c : ℚ, c ≠ 0 ∧ ∀ t ∈ Spec.triangles (tessellate domain lod patch),
      Spec.orientation (tessellate domain lod patch) t = c := by
  rcases hd with rfl | rfl
  · rcases le_or_lt lod 1 with h | h
    · exact ⟨1, one_ne_zero, orientation_quad_degenerate lod h patch⟩
    · have hpos : (0 : ℚ) < (lod : ℚ) - 1 := by
        have : (2 : ℚ) ≤ (lod : ℚ) := by exact_mod_cast (show (2 : Int) ≤ lod by omega)
        linarith
      exact ⟨_, ne_of_gt (div_pos one_pos (mul_pos hpos hpos)),
        orientation_quad lod (by omega) patch⟩
  · rcases lt_or_le lod 1 with h | h
    · exact ⟨-1, by norm_num, orientation_triangle_degenerate lod h patch⟩
    · have hpos : (0 : ℚ) < (lod : ℚ) + 1 := by
        have : (1 : ℚ) ≤ (lod : ℚ) := by exact_mod_cast h
        linarith
      exact ⟨_, ne_of_gt (div_pos one_pos (mul_pos hpos hpos)),
        orientation_triangle lod h patch⟩

end tess.uniform

/-- C21: for every sequence `a` and every tolerance `tol >= 0`, `Compare a a` completes with
`numDeltas = 0` and `maxDelta = 0`. -/
theorem compare_identical_sequences (self : VectorDelta) (a : List Vec3)
    (htol : 0 ≤ self.tolerance) :
    ∃ r : VectorDelta, self.Compare a a = some r ∧ r.numDeltas = 0 ∧ r.maxDelta = 0 := by
  obtain ⟨r, hr, hq⟩ := VectorDelta.compare_self_quiet self a htol
  exact ⟨r, hr, hq.1, hq.2.1⟩

/-- Witness for C21: two samples compared with themselves under tolerance 0. -/
theorem compare_identical_sequences_witness :
    0 ≤ (VectorDelta.new 0).tolerance ∧
    ∃ r : VectorDelta,
      (VectorDelta.new 0).Compare [⟨1, 2, 3⟩, ⟨-4, 5, 6⟩] [⟨1, 2, 3⟩, ⟨-4, 5, 6⟩] = some r ∧
      r.numDeltas = 0 ∧ r.maxDelta = 0 :=
  ⟨by simp [VectorDelta.new],
    compare_identical_sequences (VectorDelta.new 0) [⟨1, 2, 3⟩, ⟨-4, 5, 6⟩]
      (by simp [VectorDelta.new])⟩

/-- C22: `Compare a b` fails (the assertion, no result) exactly when the lengths of `a` and
`b` differ; with equal lengths it completes with a count between 0 and the common length,
and two empty sequences give the count 0. -/
theorem compare_fails_iff_length_mismatch (self : VectorDelta) (a b : List Vec3) :
    (self.Compare a b = none ↔ a.length ≠ b.length) ∧
    (a.length = b.length →
      ∃ r : VectorDelta, self.Compare a b = some r ∧
        0 ≤ r.numDeltas ∧ r.numDeltas ≤ (a.length : Int)) ∧
    (self.Compare [] []).map (fun r => (r.numDeltas, r.maxDelta)) = some (0, 0) := by
  refine ⟨?_, ?_, ?_⟩
  · unfold VectorDelta.Compare
    split_ifs with h
    · exact ⟨fun _ => h, fun _ => rfl⟩
    · exact ⟨fun h1 => absurd h1 (by simp), fun h1 => absurd h1 h⟩
  · intro hlen
    obtain ⟨r, hr, _, _, _, hn, _, _⟩ := VectorDelta.compare_summary self a b hlen
    refine ⟨r, hr, by rw [hn]; exact Int.natCast_nonneg _, ?_⟩
    rw [hn]
    have : (Spec.exceedingIndices self.tolerance a b).length ≤ (List.range a.length).length :=
      List.length_filter_le _ _
    rw [List.length_range] at this
    exact_mod_cast this
  · simp [VectorDelta.Compare]

/-- Witness for C22: sequences of lengths 1 and 2 are rejected, two sequences of length 1
are compared. -/
theorem compare_fails_iff_length_mismatch_witness :
    (VectorDelta.new 1).Compare [⟨0, 0, 0⟩] [⟨0, 0, 0⟩, ⟨9, 9, 9⟩] = none ∧
    ∃ r : VectorDelta, (VectorDelta.new 1).Compare [⟨0, 0, 0⟩] [⟨9, 9, 9⟩] = some r ∧
      0 ≤ r.numDeltas ∧ r.numDeltas ≤ (([⟨0, 0, 0⟩] : List Vec3).length : Int) :=
  ⟨(compare_fails_iff_length_mismatch (VectorDelta.new 1) [⟨0, 0, 0⟩]
      [⟨0, 0, 0⟩, ⟨9, 9, 9⟩]).1.mpr (by decide),
    (compare_fails_iff_length_mismatch (VectorDelta.new 1) [⟨0, 0, 0⟩] [⟨9, 9, 9⟩]).2.1 rfl⟩

/-- C29: the first-derivative `applyDomainRotation` with rotation index 0 returns `(du, dv)`
unchanged, for the QUAD and for the TRIANGLE domain. -/
theorem applyDomainRotation_zero_identity (du dv : Vec3) :
    applyDomainRotation tess.DomainMode.QUAD 0 du dv = some (du, dv) ∧
    applyDomainRotation tess.DomainMode.TRIANGLE 0 du dv = some (du, dv) := by
  simp [applyDomainRotation, quadDomainRotate, triangleDomainRotate]

/-! ## Mesh summaries -/

theorem boolToInt_nonneg (b : Bool) : 0 ≤ boolToInt b := by
  cases b <;> simp [boolToInt]

theorem Spec.meshLe_refl (a : MeshDelta) : Spec.meshLe a a :=
  ⟨le_refl _, le_refl _, le_refl _, le_refl _, le_refl _, le_refl _, le_refl _, le_refl _,
    le_refl _, le_refl _⟩

theorem Spec.meshLe_trans (a b c : MeshDelta) (h1 : Spec.meshLe a b) (h2 : Spec.meshLe b c) :
    Spec.meshLe a c := by
  obtain ⟨a1, a2, a3, a4, a5, a6, a7, a8, a9, a10⟩ := h1
  obtain ⟨b1, b2, b3, b4, b5, b6, b7, b8, b9, b10⟩ := h2
  exact ⟨le_trans a1 b1, le_trans a2 b2, le_trans a3 b3, le_trans a4 b4, le_trans a5 b5,
    le_trans a6 b6, le_trans a7 b7, le_trans a8 b8, le_trans a9 b9, le_trans a10 b10⟩

/-- One `AddFace` never lowers a counter or a maximum. -/
theorem MeshDelta.meshLe_addFace (m : MeshDelta) (f : FaceDelta) :
    Spec.meshLe m (m.AddFace f) := by
  unfold Spec.meshLe MeshDelta.AddFace
  refine ⟨?_, ?_, ?_, ?_, ?_, ?_, le_max_left _ _, le_max_left _ _, le_max_left _ _,
    le_max_left _ _⟩ <;> exact le_add_of_nonneg_right (boolToInt_nonneg _)

/-- No sequence of `AddFace` calls lowers a counter or a maximum. -/
theorem MeshDelta.meshLe_foldl_addFace (l : List FaceDelta) :
    ∀ m : MeshDelta, Spec.meshLe m (l.foldl MeshDelta.AddFace m) := by
  induction l with
  | nil => intro m; exact Spec.meshLe_refl m
  | cons f l ih =>
    intro m
    exact Spec.meshLe_trans _ _ _ (MeshDelta.meshLe_addFace m f) (ih (m.AddFace f))

theorem max_swap_right (a b c : ℚ) : max (max a b) c = max (max a c) b := by
  rw [max_assoc, max_assoc, max_comm b c]

/-- The order of two consecutive `AddFace` calls does not matter. -/
theorem MeshDelta.addFace_comm (m : MeshDelta) (f g : FaceDelta) :
    (m.AddFace f).AddFace g = (m.AddFace g).AddFace f := by
  simp only [MeshDelta.AddFace, MeshDelta.mk.injEq]
  refine ⟨?_, ?_, ?_, ?_, ?_, ?_, ?_, ?_, ?_, ?_⟩ <;>
    first
    | exact add_right_comm _ _ _
    | exact max_swap_right _ _ _

/-- C25: folding `AddFace` over a list of face summaries and over any permutation of it
gives the same mesh summary from every starting state, and aggregating `l1` and then `l2`
is aggregating `l1 ++ l2` in one pass. -/
theorem addFace_order_independent (m : MeshDelta) (l1 l2 : List FaceDelta)
    (hperm : l1.Perm l2) :
    l1.foldl MeshDelta.AddFace m = l2.foldl MeshDelta.AddFace m ∧
    l2.foldl MeshDelta.AddFace (l1.foldl MeshDelta.AddFace m) =
      (l1 ++ l2).foldl MeshDelta.AddFace m :=
  ⟨hperm.foldl_eq' (fun x _ y _ z => MeshDelta.addFace_comm z x y) m,
    (List.foldl_append _ _ _ _).symm⟩

/-- Witness for C25: three face summaries aggregated as `[F1, F2, F3]` and as
`[F3, F1, F2]`. -/
theorem addFace_order_independent_witness :
    [Examples.faceP, Examples.faceUV, Examples.faceNone].Perm
      [Examples.faceNone, Examples.faceP, Examples.faceUV] ∧
    [Examples.faceP, Examples.faceUV, Examples.faceNone].foldl MeshDelta.AddFace {} =
      [Examples.faceNone, Examples.faceP, Examples.faceUV].foldl MeshDelta.AddFace {} ∧
    [Examples.faceNone, Examples.faceP, Examples.faceUV].foldl MeshDelta.AddFace
        ([Examples.faceP, Examples.faceUV, Examples.faceNone].foldl MeshDelta.AddFace {}) =
      ([Examples.faceP, Examples.faceUV, Examples.faceNone] ++
        [Examples.faceNone, Examples.faceP, Examples.faceUV]).foldl MeshDelta.AddFace {} :=
  ⟨(List.perm_append_comm :
      ([Examples.faceP, Examples.faceUV] ++ [Examples.faceNone]).Perm
        ([Examples.faceNone] ++ [Examples.faceP, Examples.faceUV])),
    addFace_order_independent {} [Examples.faceP, Examples.faceUV, Examples.faceNone]
      [Examples.faceNone, Examples.faceP, Examples.faceUV]
      (List.perm_append_comm :
        ([Examples.faceP, Examples.faceUV] ++ [Examples.faceNone]).Perm
          ([Examples.faceNone] ++ [Examples.faceP, Examples.faceUV]))⟩

/-! ## Relative tolerance -/

/-- The running maximum of absolute values bounds its start and every element, and is
one of them. -/
theorem foldl_max_abs (xs : List ℚ) : ∀ m0 : ℚ,
    m0 ≤ xs.foldl (fun m d => max m |d|) m0 ∧
    (∀ x ∈ xs, |x| ≤ xs.foldl (fun m d => max m |d|) m0) ∧
    (xs.foldl (fun m d => max m |d|) m0 = m0 ∨
      ∃ x ∈ xs, xs.foldl (fun m d => max m |d|) m0 = |x|) := by
  induction xs with
  | nil => intro m0; simp
  | cons a xs ih =>
    intro m0
    obtain ⟨h1, h2, h3⟩ := ih (max m0 |a|)
    simp only [List.foldl_cons]
    refine ⟨le_trans (le_max_left _ _) h1, ?_, ?_⟩
    · intro x hx
      rcases List.mem_cons.mp hx with rfl | hx
      · exact le_trans (le_max_right _ _) h1
      · exact h2 x hx
    · rcases h3 with h | ⟨x, hx, h⟩
      · rcases max_choice m0 |a| with hm | hm
        · left; rw [h, hm]
        · right; exact ⟨a, List.mem_cons_self _ _, by rw [h, hm]⟩
      · right; exact ⟨x, List.mem_cons_of_mem _ hx, h⟩

/-- Entry `i` of the diagonal of a box with as many `max` as `min` values. -/
theorem Box.diagonal_getD (box : Box) (hlen : box.max.length = box.min.length) (i : Nat)
    (hi : i < box.min.length) :
    box.diagonal.length = box.min.length ∧
    box.diagonal.getD i 0 = box.max.getD i 0 - box.min.getD i 0 := by
  have hl : box.diagonal.length = box.min.length := by
    simp [Box.diagonal, hlen]
  refine ⟨hl, ?_⟩
  rw [List.getD_eq_getElem _ _ (by rw [hl]; exact hi),
    List.getD_eq_getElem _ _ (by rw [hlen]; exact hi), List.getD_eq_getElem _ _ hi]
  simp [Box.diagonal]

/-- The factor that `getRelativeTolerance` applies to the scale is the largest extent of the
box. -/
theorem getRelativeTolerance_maxExtent (box : Box) (scale : ℚ)
    (hlen : box.max.length = box.min.length) (hn : 1 ≤ box.min.length) :
    ∃ m : ℚ, Spec.IsMaxExtent box m ∧ getRelativeTolerance box scale = max scale (m * scale) := by
  have hdl : box.diagonal.length = box.min.length := (Box.diagonal_getD box hlen 0 hn).1
  obtain ⟨d0, ds, hd⟩ : ∃ d0 ds, box.diagonal = d0 :: ds := by
    cases hb : box.diagonal with
    | nil => rw [hb] at hdl; simp at hdl; omega
    | cons d0 ds => exact ⟨d0, ds, rfl⟩
  obtain ⟨h1, h2, h3⟩ := foldl_max_abs ds |d0|
  have hget : ∀ i, i < box.min.length →
      (d0 :: ds).getD i 0 = box.max.getD i 0 - box.min.getD i 0 := by
    intro i hi
    rw [← hd]
    exact (Box.diagonal_getD box hlen i hi).2
  have hlen2 : (d0 :: ds).length = box.min.length := by rw [← hd]; exact hdl
  refine ⟨ds.foldl (fun m d => max m |d|) |d0|, ⟨?_, ?_⟩, ?_⟩
  · intro i hi
    rw [← hget i hi]
    cases i with
    | zero => simpa using h1
    | succ k =>
      have hk : k < ds.length := by simp at hlen2; omega
      have : (d0 :: ds).getD (k + 1) 0 = ds[k] := by
        rw [List.getD_eq_getElem _ _ (by simp; omega)]
        simp
      rw [this]
      exact h2 _ (List.getElem_mem _)
  · rcases h3 with h | ⟨x, hx, h⟩
    · refine ⟨0, hn, ?_⟩
      rw [← hget 0 hn, h]
      simp
    · obtain ⟨k, hk, hxk⟩ := List.getElem_of_mem hx
      have hk1 : k + 1 < box.min.length := by simp at hlen2; omega
      refine ⟨k + 1, hk1, ?_⟩
      rw [← hget (k + 1) hk1, h, ← hxk, List.getD_eq_getElem _ _ (by simp; omega)]
      simp
  · simp only [getRelativeTolerance, hd, List.headD_cons, List.tail_cons]

/-- C28: for a box with `n >= 2` axes and every scale (exact arithmetic),
`getRelativeTolerance box scale = max scale (m * scale)` with `m` the maximum over the axes
of `|max[i] - min[i]|`; the result is never below the scale, and for `scale >= 0` it equals
the scale when every extent of the box is at most 1. -/
theorem getRelativeTolerance_eq_max (box : Box) (scale : ℚ)
    (hlen : box.max.length = box.min.length) (hn : 2 ≤ box.min.length) :
    (∃ m : ℚ, Spec.IsMaxExtent box m ∧
      getRelativeTolerance box scale = max scale (m * scale)) ∧
    scale ≤ getRelativeTolerance box scale ∧
    (0 ≤ scale →
      (∀ i, i < box.min.length → |box.max.getD i 0 - box.min.getD i 0| ≤ 1) →
      getRelativeTolerance box scale = scale) := by
  obtain ⟨m, hm, heq⟩ := getRelativeTolerance_maxExtent box scale hlen (by omega)
  refine ⟨⟨m, hm, heq⟩, by rw [heq]; exact le_max_left _ _, ?_⟩
  intro hs hext
  obtain ⟨i, hi, hmi⟩ := hm.2
  have hm1 : m ≤ 1 := by rw [hmi]; exact hext i hi
  rw [heq]
  exact max_eq_left (by nlinarith)

/-- Witness for C28: the box from `(0, 0, -1)` to `(2, 1, 3)` with scale 1/10: the largest
extent is 4 and the tolerance used is 4/10. -/
theorem getRelativeTolerance_eq_max_witness :
    (⟨[0, 0, -1], [2, 1, 3]⟩ : Box).max.length = (⟨[0, 0, -1], [2, 1, 3]⟩ : Box).min.length ∧
    2 ≤ (⟨[0, 0, -1], [2, 1, 3]⟩ : Box).min.length ∧
    (∃ m : ℚ, Spec.IsMaxExtent ⟨[0, 0, -1], [2, 1, 3]⟩ m ∧
      getRelativeTolerance ⟨[0, 0, -1], [2, 1, 3]⟩ (1 / 10) = max (1 / 10) (m * (1 / 10))) ∧
    (1 / 10 : ℚ) ≤ getRelativeTolerance ⟨[0, 0, -1], [2, 1, 3]⟩ (1 / 10) ∧
    ((0 : ℚ) ≤ 1 / 10 →
      (∀ i, i < (⟨[0, 0, -1], [2, 1, 3]⟩ : Box).min.length →
        |(⟨[0, 0, -1], [2, 1, 3]⟩ : Box).max.getD i 0 -
          (⟨[0, 0, -1], [2, 1, 3]⟩ : Box).min.getD i 0| ≤ 1) →
      getRelativeTolerance ⟨[0, 0, -1], [2, 1, 3]⟩ (1 / 10) = 1 / 10) :=
  ⟨rfl, by decide, getRelativeTolerance_eq_max ⟨[0, 0, -1], [2, 1, 3]⟩ (1 / 10) rfl (by decide)⟩

/-! ## Face summaries -/

namespace FaceDelta

/-- Fields of the summary after `AddPDelta`. -/
theorem addPDelta_fields (s : FaceDelta) (x : VectorDelta) :
    (s.AddPDelta x).hasDeltas = (s.hasDeltas || decide (x.numDeltas ≠ 0)) ∧
    (s.AddPDelta x).hasGeomDeltas = (s.hasGeomDeltas || decide (x.numDeltas ≠ 0)) ∧
    (s.AddPDelta x).hasUVDeltas = s.hasUVDeltas ∧
    (s.AddPDelta x).numPDeltas = (if x.numDeltas ≠ 0 then x.numDeltas else s.numPDeltas) ∧
    (s.AddPDelta x).numD1Deltas = s.numD1Deltas ∧
    (s.AddPDelta x).numD2Deltas = s.numD2Deltas ∧
    (s.AddPDelta x).numUVDeltas = s.numUVDeltas ∧
    (s.AddPDelta x).maxPDelta = (if x.numDeltas ≠ 0 then x.maxDelta else s.maxPDelta) ∧
    (s.AddPDelta x).maxD1Delta = s.maxD1Delta ∧
    (s.AddPDelta x).maxD2Delta = s.maxD2Delta ∧
    (s.AddPDelta x).maxUVDelta = s.maxUVDelta := by
  unfold AddPDelta
  split_ifs with h <;> simp_all

/-- Fields of the summary after `AddDuDelta`. -/
theorem addDuDelta_fields (s : FaceDelta) (x : VectorDelta) :
    (s.AddDuDelta x).hasDeltas = (s.hasDeltas || decide (x.numDeltas ≠ 0)) ∧
    (s.AddDuDelta x).hasGeomDeltas = (s.hasGeomDeltas || decide (x.numDeltas ≠ 0)) ∧
    (s.AddDuDelta x).hasUVDeltas = s.hasUVDeltas ∧
    (s.AddDuDelta x).numPDeltas = s.numPDeltas ∧
    (s.AddDuDelta x).numD1Deltas = s.numD1Deltas + x.numDeltas ∧
    (s.AddDuDelta x).numD2Deltas = s.numD2Deltas ∧
    (s.AddDuDelta x).numUVDeltas = s.numUVDeltas ∧
    (s.AddDuDelta x).maxPDelta = s.maxPDelta ∧
    (s.AddDuDelta x).maxD1Delta = (if x.numDeltas ≠ 0 then max s.maxD1Delta x.maxDelta else s.maxD1Delta) ∧
    (s.AddDuDelta x).maxD2Delta = s.maxD2Delta ∧
    (s.AddDuDelta x).maxUVDelta = s.maxUVDelta := by
  unfold AddDuDelta
  split_ifs with h <;> simp_all

/-- Fields of the summary after `AddDvDelta`. -/
theorem addDvDelta_fields (s : FaceDelta) (x : VectorDelta) :
    (s.AddDvDelta x).hasDeltas = (s.hasDeltas || decide (x.numDeltas ≠ 0)) ∧
    (s.AddDvDelta x).hasGeomDeltas = (s.hasGeomDeltas || decide (x.numDeltas ≠ 0)) ∧
    (s.AddDvDelta x).hasUVDeltas = s.hasUVDeltas ∧
    (s.AddDvDelta x).numPDeltas = s.numPDeltas ∧
    (s.AddDvDelta x).numD1Deltas = s.numD1Deltas + x.numDeltas ∧
    (s.AddDvDelta x).numD2Deltas = s.numD2Deltas ∧
    (s.AddDvDelta x).numUVDeltas = s.numUVDeltas ∧
    (s.AddDvDelta x).maxPDelta = s.maxPDelta ∧
    (s.AddDvDelta x).maxD1Delta = (if x.numDeltas ≠ 0 then max s.maxD1Delta x.maxDelta else s.maxD1Delta) ∧
    (s.AddDvDelta x).maxD2Delta = s.maxD2Delta ∧
    (s.AddDvDelta x).maxUVDelta = s.maxUVDelta := by
  unfold AddDvDelta
  split_ifs with h <;> simp_all

/-- Fields of the summary after `AddDuuDelta`. -/
theorem addDuuDelta_fields (s : FaceDelta) (x : VectorDelta) :
    (s.AddDuuDelta x).hasDeltas = (s.hasDeltas || decide (x.numDeltas ≠ 0)) ∧
    (s.AddDuuDelta x).hasGeomDeltas = (s.hasGeomDeltas || decide (x.numDeltas ≠ 0)) ∧
    (s.AddDuuDelta x).hasUVDeltas = s.hasUVDeltas ∧
    (s.AddDuuDelta x).numPDeltas = s.numPDeltas ∧
    (s.AddDuuDelta x).numD1Deltas = s.numD1Deltas ∧
    (s.AddDuuDelta x).numD2Deltas = s.numD2Deltas + x.numDeltas ∧
    (s.AddDuuDelta x).numUVDeltas = s.numUVDeltas ∧
    (s.AddDuuDelta x).maxPDelta = s.maxPDelta ∧
    (s.AddDuuDelta x).maxD1Delta = s.maxD1Delta ∧
    (s.AddDuuDelta x).maxD2Delta = (if x.numDeltas ≠ 0 then max s.maxD2Delta x.maxDelta else s.maxD2Delta) ∧
    (s.AddDuuDelta x).maxUVDelta = s.maxUVDelta := by
  unfold AddDuuDelta
  split_ifs with h <;> simp_all

/-- Fields of the summary after `AddDuvDelta`. -/
theorem addDuvDelta_fields (s : FaceDelta) (x : VectorDelta) :
    (s.AddDuvDelta x).hasDeltas = (s.hasDeltas || decide (x.numDeltas ≠ 0)) ∧
    (s.AddDuvDelta x).hasGeomDeltas = (s.hasGeomDeltas || decide (x.numDeltas ≠ 0)) ∧
    (s.AddDuvDelta x).hasUVDeltas = s.hasUVDeltas ∧
    (s.AddDuvDelta x).numPDeltas = s.numPDeltas ∧
    (s.AddDuvDelta x).numD1Deltas = s.numD1Deltas ∧
    (s.AddDuvDelta x).numD2Deltas = s.numD2Deltas + x.numDeltas ∧
    (s.AddDuvDelta x).numUVDeltas = s.numUVDeltas ∧
    (s.AddDuvDelta x).maxPDelta = s.maxPDelta ∧
    (s.AddDuvDelta x).maxD1Delta = s.maxD1Delta ∧
    (s.AddDuvDelta x).maxD2Delta = (if x.numDeltas ≠ 0 then max s.maxD2Delta x.maxDelta else s.maxD2Delta) ∧
    (s.AddDuvDelta x).maxUVDelta = s.maxUVDelta := by
  unfold AddDuvDelta
  split_ifs with h <;> simp_all

/-- Fields of the summary after `AddDvvDelta`. -/
theorem addDvvDelta_fields (s : FaceDelta) (x : VectorDelta) :
    (s.AddDvvDelta x).hasDeltas = (s.hasDeltas || decide (x.numDeltas ≠ 0)) ∧
    (s.AddDvvDelta x).hasGeomDeltas = (s.hasGeomDeltas || decide (x.numDeltas ≠ 0)) ∧
    (s.AddDvvDelta x).hasUVDeltas = s.hasUVDeltas ∧
    (s.AddDvvDelta x).numPDeltas = s.numPDeltas ∧
    (s.AddDvvDelta x).numD1Deltas = s.numD1Deltas ∧
    (s.AddDvvDelta x).numD2Deltas = s.numD2Deltas + x.numDeltas ∧
    (s.AddDvvDelta x).numUVDeltas = s.numUVDeltas ∧
    (s.AddDvvDelta x).maxPDelta = s.maxPDelta ∧
    (s.AddDvvDelta x).maxD1Delta = s.maxD1Delta ∧
    (s.AddDvvDelta x).maxD2Delta = (if x.numDeltas ≠ 0 then max s.maxD2Delta x.maxDelta else s.maxD2Delta) ∧
    (s.AddDvvDelta x).maxUVDelta = s.maxUVDelta := by
  unfold AddDvvDelta
  split_ifs with h <;> simp_all

/-- Fields of the summary after `AddUVDelta`. -/
theorem addUVDelta_fields (s : FaceDelta) (x : VectorDelta) :
    (s.AddUVDelta x).hasDeltas = (s.hasDeltas || decide (x.numDeltas ≠ 0)) ∧
    (s.AddUVDelta x).hasGeomDeltas = s.hasGeomDeltas ∧
    (s.AddUVDelta x).hasUVDeltas = (s.hasUVDeltas || decide (x.numDeltas ≠ 0)) ∧
    (s.AddUVDelta x).numPDeltas = s.numPDeltas ∧
    (s.AddUVDelta x).numD1Deltas = s.numD1Deltas ∧
    (s.AddUVDelta x).numD2Deltas = s.numD2Deltas ∧
    (s.AddUVDelta x).numUVDeltas = (if x.numDeltas ≠ 0 then x.numDeltas else s.numUVDeltas) ∧
    (s.AddUVDelta x).maxPDelta = s.maxPDelta ∧
    (s.AddUVDelta x).maxD1Delta = s.maxD1Delta ∧
    (s.AddUVDelta x).maxD2Delta = s.maxD2Delta ∧
    (s.AddUVDelta x).maxUVDelta = (if x.numDeltas ≠ 0 then x.maxDelta else s.maxUVDelta) := by
  unfold AddUVDelta
  split_ifs with h <;> simp_all

/-- The fields that `AddDeltaVectors` writes; the previous contents of the summary do not
occur in them. -/
theorem addDeltaVectors_fields (fd : FaceDelta) (d : FaceDeltaVectors) :
    (fd.AddDeltaVectors d).hasGeomDeltas =
      (decide (d.pDelta.numDeltas ≠ 0) || decide (d.duDelta.numDeltas ≠ 0)
        || decide (d.dvDelta.numDeltas ≠ 0) || decide (d.duuDelta.numDeltas ≠ 0)
        || decide (d.duvDelta.numDeltas ≠ 0) || decide (d.dvvDelta.numDeltas ≠ 0)) ∧
    (fd.AddDeltaVectors d).hasUVDeltas = decide (d.uvDelta.numDeltas ≠ 0) ∧
    (fd.AddDeltaVectors d).numPDeltas = d.pDelta.numDeltas ∧
    (fd.AddDeltaVectors d).numD1Deltas = d.duDelta.numDeltas + d.dvDelta.numDeltas ∧
    (fd.AddDeltaVectors d).numD2Deltas =
      d.duuDelta.numDeltas + d.duvDelta.numDeltas + d.dvvDelta.numDeltas ∧
    (fd.AddDeltaVectors d).numUVDeltas = d.uvDelta.numDeltas ∧
    (fd.AddDeltaVectors d).maxPDelta =
      (if d.pDelta.numDeltas ≠ 0 then d.pDelta.maxDelta else 0) ∧
    (fd.AddDeltaVectors d).maxD1Delta =
      (if d.dvDelta.numDeltas ≠ 0 then
        max (if d.duDelta.numDeltas ≠ 0 then max 0 d.duDelta.maxDelta else 0)
          d.dvDelta.maxDelta
      else if d.duDelta.numDeltas ≠ 0 then max 0 d.duDelta.maxDelta else 0) ∧
    (fd.AddDeltaVectors d).maxD2Delta =
      (if d.dvvDelta.numDeltas ≠ 0 then
        max (if d.duvDelta.numDeltas ≠ 0 then
            max (if d.duuDelta.numDeltas ≠ 0 then max 0 d.duuDelta.maxDelta else 0)
              d.duvDelta.maxDelta
          else if d.duuDelta.numDeltas ≠ 0 then max 0 d.duuDelta.maxDelta else 0)
          d.dvvDelta.maxDelta
      else if d.duvDelta.numDeltas ≠ 0 then
        max (if d.duuDelta.numDeltas ≠ 0 then max 0 d.duuDelta.maxDelta else 0)
          d.duvDelta.maxDelta
      else if d.duuDelta.numDeltas ≠ 0 then max 0 d.duuDelta.maxDelta else 0) ∧
    (fd.AddDeltaVectors d).maxUVDelta =
      (if d.uvDelta.numDeltas ≠ 0 then d.uvDelta.maxDelta else 0) := by
  unfold AddDeltaVectors
  have h0 : fd.Clear = {} := rfl
  rw [h0]
  generalize hs1 : ({} : FaceDelta).AddPDelta d.pDelta = s1
  have h1 := addPDelta_fields {} d.pDelta
  rw [hs1] at h1
  generalize hs2 : s1.AddDuDelta d.duDelta = s2
  have h2 := addDuDelta_fields s1 d.duDelta
  rw [hs2] at h2
  generalize hs3 : s2.AddDvDelta d.dvDelta = s3
  have h3 := addDvDelta_fields s2 d.dvDelta
  rw [hs3] at h3
  generalize hs4 : s3.AddDuuDelta d.duuDelta = s4
  have h4 := addDuuDelta_fields s3 d.duuDelta
  rw [hs4] at h4
  generalize hs5 : s4.AddDuvDelta d.duvDelta = s5
  have h5 := addDuvDelta_fields s4 d.duvDelta
  rw [hs5] at h5
  generalize hs6 : s5.AddDvvDelta d.dvvDelta = s6
  have h6 := addDvvDelta_fields s5 d.dvvDelta
  rw [hs6] at h6
  have h7 := addUVDelta_fields s6 d.uvDelta
  obtain ⟨_, a2, a3, a4, a5, a6, a7, a8, a9, a10, a11⟩ := h1
  obtain ⟨_, b2, b3, b4, b5, b6, b7, b8, b9, b10, b11⟩ := h2
  obtain ⟨_, c2, c3, c4, c5, c6, c7, c8, c9, c10, c11⟩ := h3
  obtain ⟨_, e2, e3, e4, e5, e6, e7, e8, e9, e10, e11⟩ := h4
  obtain ⟨_, f2, f3, f4, f5, f6, f7, f8, f9, f10, f11⟩ := h5
  obtain ⟨_, g2, g3, g4, g5, g6, g7, g8, g9, g10, g11⟩ := h6
  obtain ⟨_, k2, k3, k4, k5, k6, k7, k8, k9, k10, k11⟩ := h7
  refine ⟨?_, ?_, ?_, ?_, ?_, ?_, ?_, ?_, ?_, ?_⟩
  · rw [k2, g2, f2, e2, c2, b2, a2]; simp
  · rw [k3, g3, f3, e3, c3, b3, a3]; simp
  · rw [k4, g4, f4, e4, c4, b4, a4]
    by_cases h : d.pDelta.numDeltas = 0 <;> simp [h]
  · rw [k5, g5, f5, e5, c5, b5, a5]; simp
  · rw [k6, g6, f6, e6, c6, b6, a6]; simp
  · rw [k7]
    by_cases h : d.uvDelta.numDeltas = 0
    · rw [g7, f7, e7, c7, b7, a7]; simp [h]
    · simp [h]
  · rw [k8, g8, f8, e8, c8, b8, a8]
  · rw [k9, g9, f9, e9, c9, b9, a9]
  · rw [k10, g10, f10, e10, c10, b10, a10]
  · rw [k11, g11, f11, e11, c11, b11, a11]

end FaceDelta

theorem Spec.categoryMax_one (a : VectorDelta) :
    Spec.categoryMax [a] = if a.numDeltas ≠ 0 then a.maxDelta else 0 := by
  by_cases h : a.numDeltas = 0 <;> simp [Spec.categoryMax, h]

/-- The maximum of a category of two members with non-negative `maxDelta` values. -/
theorem Spec.categoryMax_two (a b : VectorDelta) (ha : 0 ≤ a.maxDelta) (hb : 0 ≤ b.maxDelta) :
    Spec.categoryMax [a, b] =
      if b.numDeltas ≠ 0 then max (if a.numDeltas ≠ 0 then max 0 a.maxDelta else 0) b.maxDelta
      else if a.numDeltas ≠ 0 then max 0 a.maxDelta else 0 := by
  by_cases h1 : a.numDeltas = 0 <;> by_cases h2 : b.numDeltas = 0 <;>
    simp [Spec.categoryMax, h1, h2, max_eq_right ha, max_eq_right hb]

/-- The maximum of a category of three members with non-negative `maxDelta` values. -/
theorem Spec.categoryMax_three (a b c : VectorDelta) (ha : 0 ≤ a.maxDelta)
    (hb : 0 ≤ b.maxDelta) (hc : 0 ≤ c.maxDelta) :
    Spec.categoryMax [a, b, c] =
      if c.numDeltas ≠ 0 then
        max (if b.numDeltas ≠ 0 then
            max (if a.numDeltas ≠ 0 then max 0 a.maxDelta else 0) b.maxDelta
          else if a.numDeltas ≠ 0 then max 0 a.maxDelta else 0) c.maxDelta
      else if b.numDeltas ≠ 0 then
        max (if a.numDeltas ≠ 0 then max 0 a.maxDelta else 0) b.maxDelta
      else if a.numDeltas ≠ 0 then max 0 a.maxDelta else 0 := by
  by_cases h1 : a.numDeltas = 0 <;> by_cases h2 : b.numDeltas = 0 <;>
    by_cases h3 : c.numDeltas = 0 <;>
    simp [Spec.categoryMax, h1, h2, h3, max_eq_right ha, max_eq_right hb, max_eq_right hc]

/-- The face loop over `l1 ++ l2` is the loop over `l1` followed by the loop over `l2`,
started at the surface index reached after `l1`. -/
theorem processFaces_append (options : Options) (farEval tmrEval : Evaluator)
    (regFaceSize : Nat) (patch patchHalf : tess.Patch) (l1 l2 : List BaseFace) :
    ∀ (surfIndex : Nat) (st : FaceLoopState),
      processFaces options farEval tmrEval regFaceSize patch patchHalf (l1 ++ l2) surfIndex st =
        (processFaces options farEval tmrEval regFaceSize patch patchHalf l1 surfIndex st).bind
          fun st1 => processFaces options farEval tmrEval regFaceSize patch patchHalf l2
            (surfIndex + Spec.surfaceBase regFaceSize l1) st1 := by
  induction l1 with
  | nil => intro surfIndex st; simp [processFaces, Spec.surfaceBase]
  | cons face rest ih =>
    intro surfIndex st
    simp only [List.cons_append, processFaces]
    split
    · rfl
    · rename_i st1 _
      rw [List.append_eq, ih]
      have hb : surfIndex + (if decide (face.size = regFaceSize) = true then 1 else face.size) +
          Spec.surfaceBase regFaceSize rest =
          surfIndex + Spec.surfaceBase regFaceSize (face :: rest) := by
        simp only [Spec.surfaceBase, List.map_cons, List.sum_cons, decide_eq_true_eq]
        omega
      rw [hb]

/-- The loop step of a hole changes nothing in the loop state: no evaluator call, no
comparison, no `AddFace`, no `LogFace`. -/
theorem processFaces_hole (options : Options) (farEval tmrEval : Evaluator)
    (regFaceSize : Nat) (patch patchHalf : tess.Patch) (hole : BaseFace)
    (hh : hole.isHole = true) (surfIndex : Nat) (st : FaceLoopState) :
    processFaces options farEval tmrEval regFaceSize patch patchHalf [hole] surfIndex st =
      some st := by
  simp [processFaces, hh]

/-- C26: in the face loop of `RegressionTask::execute`, a face without a limit surface (a
hole) is skipped: its own loop step returns the loop state unchanged (results of both
evaluators, comparisons, face summary, `meshDelta` and logged faces), and the run over
`pre ++ hole :: post` is the run over `pre` followed directly by the run over `post`, which
starts from the state left by `pre` at the surface index past the hole. -/
theorem processFaces_skips_hole (options : Options) (farEval tmrEval : Evaluator)
    (regFaceSize : Nat) (patch patchHalf : tess.Patch) (pre post : List BaseFace)
    (hole : BaseFace) (hh : hole.isHole = true) (surfIndex : Nat) (st : FaceLoopState) :
    processFaces options farEval tmrEval regFaceSize patch patchHalf [hole] surfIndex st =
      some st ∧
    processFaces options farEval tmrEval regFaceSize patch patchHalf (pre ++ hole :: post)
        surfIndex st =
      (processFaces options farEval tmrEval regFaceSize patch patchHalf pre surfIndex st).bind
        fun st1 => processFaces options farEval tmrEval regFaceSize patch patchHalf post
          (surfIndex + Spec.surfaceBase regFaceSize (pre ++ [hole])) st1 := by
  refine ⟨processFaces_hole options farEval tmrEval regFaceSize patch patchHalf hole hh
    surfIndex st, ?_⟩
  have happ : pre ++ hole :: post = (pre ++ [hole]) ++ post := by simp
  rw [happ, processFaces_append, processFaces_append options farEval tmrEval regFaceSize patch
    patchHalf pre [hole]]
  cases hpre : processFaces options farEval tmrEval regFaceSize patch patchHalf pre surfIndex
    st with
  | none => rfl
  | some st1 =>
    simp only [Option.some_bind]
    rw [processFaces_hole options farEval tmrEval regFaceSize patch patchHalf hole hh]
    rfl

/-- Witness for C26: the mesh `quad, hole, quad`, the Tmr evaluator off by 1. -/
theorem processFaces_skips_hole_witness :
    Examples.holeFace.isHole = true ∧
    processFaces Examples.positionOnly (Examples.constEvaluator 0) (Examples.constEvaluator 1) 4
        Examples.cache.patchQuad Examples.cache.patchQuadHalf [Examples.holeFace] 0
        Examples.holeLoopState = some Examples.holeLoopState ∧
    processFaces Examples.positionOnly (Examples.constEvaluator 0) (Examples.constEvaluator 1) 4
        Examples.cache.patchQuad Examples.cache.patchQuadHalf
        ([Examples.quadFace] ++ Examples.holeFace :: [Examples.quadFace]) 0
        Examples.holeLoopState =
      (processFaces Examples.positionOnly (Examples.constEvaluator 0)
          (Examples.constEvaluator 1) 4 Examples.cache.patchQuad Examples.cache.patchQuadHalf
          [Examples.quadFace] 0 Examples.holeLoopState).bind
        fun st1 => processFaces Examples.positionOnly (Examples.constEvaluator 0)
          (Examples.constEvaluator 1) 4 Examples.cache.patchQuad Examples.cache.patchQuadHalf
          [Examples.quadFace]
          (0 + Spec.surfaceBase 4 ([Examples.quadFace] ++ [Examples.holeFace])) st1 :=
  ⟨rfl, processFaces_skips_hole Examples.positionOnly (Examples.constEvaluator 0)
    (Examples.constEvaluator 1) 4 Examples.cache.patchQuad Examples.cache.patchQuadHalf
    [Examples.quadFace] [Examples.quadFace] Examples.holeFace rfl 0 Examples.holeLoopState⟩

/-- The lambda `evaluate` reads the options only through the three evaluation flags. -/
theorem evaluate_congr_options (o1 o2 : Options) (h1 : o1.evaluateD1 = o2.evaluateD1)
    (h2 : o1.evaluateD2 = o2.evaluateD2) (h3 : o1.evaluateUV = o2.evaluateUV)
    (farEval tmrEval : Evaluator) (st : FaceLoopState) (surfIndex : Nat) (p : tess.Patch) :
    evaluate o1 farEval tmrEval st surfIndex p = evaluate o2 farEval tmrEval st surfIndex p := by
  simp only [evaluate, compareD1, compareD2, compareUV, h1, h2, h3]

/-- The face loop reads the options only through the three evaluation flags. -/
theorem processFaces_congr_options (o1 o2 : Options) (h1 : o1.evaluateD1 = o2.evaluateD1)
    (h2 : o1.evaluateD2 = o2.evaluateD2) (h3 : o1.evaluateUV = o2.evaluateUV)
    (farEval tmrEval : Evaluator) (regFaceSize : Nat) (patch patchHalf : tess.Patch)
    (faces : List BaseFace) :
    ∀ (surfIndex : Nat) (st : FaceLoopState),
      processFaces o1 farEval tmrEval regFaceSize patch patchHalf faces surfIndex st =
        processFaces o2 farEval tmrEval regFaceSize patch patchHalf faces surfIndex st := by
  have hev : evaluate o1 farEval tmrEval = evaluate o2 farEval tmrEval := by
    funext st surfIndex p
    exact evaluate_congr_options o1 o2 h1 h2 h3 farEval tmrEval st surfIndex p
  induction faces with
  | nil => intro _ _; rfl
  | cons face rest ih =>
    intro surfIndex st
    simp only [processFaces, evaluateCorners, hev, ih]

/-- A run of `execute(bool)` does not depend on the logging flag, nor on the logging mode
held in the options when the evaluators built from them do not. -/
theorem executeLog_congr_logging (env : Env) (cache : TessCache) (options : Options)
    (m1 m2 : MayaLog) (b1 b2 : Bool) (task : RegressionTask)
    (hfar : env.farEvaluate { options with mayaLog := m1 } =
      env.farEvaluate { options with mayaLog := m2 })
    (htmr : env.tmrEvaluate { options with mayaLog := m1 } =
      env.tmrEvaluate { options with mayaLog := m2 }) :
    task.executeLog env cache { options with mayaLog := m1 } b1 =
      task.executeLog env cache { options with mayaLog := m2 } b2 := by
  have hmesh : createMesh env { options with mayaLog := m1 } task.shapeDesc =
      createMesh env { options with mayaLog := m2 } task.shapeDesc := rfl
  unfold RegressionTask.executeLog
  rw [hmesh]
  cases createMesh env { options with mayaLog := m2 } task.shapeDesc with
  | none => rfl
  | some mesh =>
    have hp : processMesh env cache { options with mayaLog := m1 } mesh
        (initialLoopState { options with mayaLog := m1 } mesh task.meshDelta) =
        processMesh env cache { options with mayaLog := m2 } mesh
          (initialLoopState { options with mayaLog := m2 } mesh task.meshDelta) := by
      have hi : initialLoopState { options with mayaLog := m1 } mesh task.meshDelta =
          initialLoopState { options with mayaLog := m2 } mesh task.meshDelta := rfl
      rw [hi]
      unfold processMesh
      simp only [hfar, htmr]
      exact processFaces_congr_options { options with mayaLog := m1 }
        { options with mayaLog := m2 } rfl rfl rfl _ _ _ _ _ _ _ _
    simp only [hp]

/-- C27: for a task whose `meshDelta` starts at zero and evaluators that do not depend on the
logging mode, `execute()` in the mode `kFailure` returns the same status and leaves the same
task (all counters and maxima of `meshDelta`) as `execute()` in the mode `kNever`, and it
completes exactly when the latter does. -/
theorem execute_log_on_failure_same_outcome (env : Env) (cache : TessCache)
    (options : Options) (task : RegressionTask) (hfresh : task.meshDelta = {})
    (hfar : env.farEvaluate { options with mayaLog := MayaLog.kFailure } =
      env.farEvaluate { options with mayaLog := MayaLog.kNever })
    (htmr : env.tmrEvaluate { options with mayaLog := MayaLog.kFailure } =
      env.tmrEvaluate { options with mayaLog := MayaLog.kNever }) :
    (task.execute env cache { options with mayaLog := MayaLog.kFailure }).map
        (fun r => (r.status, r.task)) =
      (task.execute env cache { options with mayaLog := MayaLog.kNever }).map
        (fun r => (r.status, r.task)) := by
  have hN : task.execute env cache { options with mayaLog := MayaLog.kNever } =
      task.executeLog env cache { options with mayaLog := MayaLog.kNever } false := rfl
  have hcongr : ∀ (t : RegressionTask) (b1 b2 : Bool),
      t.executeLog env cache { options with mayaLog := MayaLog.kFailure } b1 =
        t.executeLog env cache { options with mayaLog := MayaLog.kNever } b2 :=
    fun t b1 b2 => executeLog_congr_logging env cache options _ _ b1 b2 t hfar htmr
  have hF : task.execute env cache { options with mayaLog := MayaLog.kFailure } =
      match task.executeLog env cache { options with mayaLog := MayaLog.kFailure } false with
      | none => none
      | some first =>
        if first.task.meshDelta.numFacesWithDeltas > 0 then
          match ({ first.task with meshDelta := {} } : RegressionTask).executeLog env cache
              { options with mayaLog := MayaLog.kFailure } true with
          | none => none
          | some second =>
            some { status := first.status && second.status, task := second.task,
                   logFaceCalls := first.logFaceCalls ++ second.logFaceCalls }
        else some first := rfl
  rw [hN, hF, hcongr task false false]
  cases hfirst : task.executeLog env cache { options with mayaLog := MayaLog.kNever } false with
  | none => rfl
  | some first =>
    simp only
    split_ifs with hpos
    · obtain ⟨hs, hk, _, _⟩ := executeLog_keeps env cache _ task false first hfirst
      have hreset : ({ first.task with meshDelta := {} } : RegressionTask) = task := by
        cases task with
        | mk sd md kf =>
          cases hft : first.task with
          | mk sd1 md1 kf1 =>
            rw [hft] at hs hk
            simp only at hs hk hfresh
            simp [hs, hk, hfresh]
      rw [hreset, hcongr task true false, hfirst]
      simp
    · rfl

/-- Witness for C27: the pentagon task with a Tmr evaluator off by 1 (five surfaces with
deltas, so the logging run takes place). -/
theorem execute_log_on_failure_same_outcome_witness :
    (Examples.task "pentagon").meshDelta = {} ∧
    (Examples.env Examples.pentagon 1).farEvaluate
        { Examples.positionOnly with mayaLog := MayaLog.kFailure } =
      (Examples.env Examples.pentagon 1).farEvaluate
        { Examples.positionOnly with mayaLog := MayaLog.kNever } ∧
    (Examples.env Examples.pentagon 1).tmrEvaluate
        { Examples.positionOnly with mayaLog := MayaLog.kFailure } =
      (Examples.env Examples.pentagon 1).tmrEvaluate
        { Examples.positionOnly with mayaLog := MayaLog.kNever } ∧
    ((Examples.task "pentagon").execute (Examples.env Examples.pentagon 1) Examples.cache
        { Examples.positionOnly with mayaLog := MayaLog.kFailure }).map
        (fun r => (r.status, r.task)) =
      ((Examples.task "pentagon").execute (Examples.env Examples.pentagon 1) Examples.cache
        { Examples.positionOnly with mayaLog := MayaLog.kNever }).map
        (fun r => (r.status, r.task)) :=
  ⟨rfl, rfl, rfl,
    execute_log_on_failure_same_outcome (Examples.env Examples.pentagon 1) Examples.cache
      Examples.positionOnly (Examples.task "pentagon") rfl rfl rfl⟩

/-! ## Count and maximum of a comparison -/

/-- C37: for equal-length sequences and a tolerance `tol >= 0`, `Compare` completes and its
result satisfies: `numDeltas = 0` implies `maxDelta = 0`; `numDeltas > 0` implies
`maxDelta > tol`; `numDeltas > 0` if and only if `maxDelta > tol`; and
`0 <= numDeltas <= length`. -/
theorem compare_count_and_maximum (self : VectorDelta) (a b : List Vec3)
    (hlen : a.length = b.length) (htol : 0 ≤ self.tolerance) :
    ∃ r : VectorDelta, self.Compare a b = some r ∧
      (r.numDeltas = 0 → r.maxDelta = 0) ∧
      (0 < r.numDeltas → self.tolerance < r.maxDelta) ∧
      (0 < r.numDeltas ↔ self.tolerance < r.maxDelta) ∧
      0 ≤ r.numDeltas ∧ r.numDeltas ≤ (a.length : Int) := by
  obtain ⟨r, hr, _, _, _, hn, hub, hat⟩ := VectorDelta.compare_summary self a b hlen
  have hzero : r.numDeltas = 0 → r.maxDelta = 0 := by
    intro h0
    rw [hn] at h0
    have hnil : Spec.exceedingIndices self.tolerance a b = [] :=
      List.length_eq_zero.mp (by exact_mod_cast h0)
    rcases hat with h | ⟨i, hi, _⟩
    · exact h
    · rw [hnil] at hi
      exact absurd hi (List.not_mem_nil i)
  have hpos : 0 < r.numDeltas → self.tolerance < r.maxDelta := by
    intro h0
    rw [hn] at h0
    have hne : Spec.exceedingIndices self.tolerance a b ≠ [] := by
      intro hnil
      rw [hnil] at h0
      simp at h0
    obtain ⟨i, hi⟩ := List.exists_mem_of_ne_nil _ hne
    have hex := ((Spec.mem_exceedingIndices _ a b i).mp hi).2
    obtain ⟨h0', h1', h2'⟩ := hub i hi
    rcases hex with h | h | h
    · exact lt_of_lt_of_le h h0'
    · exact lt_of_lt_of_le h h1'
    · exact lt_of_lt_of_le h h2'
  have hnn : 0 ≤ r.numDeltas := by rw [hn]; exact Int.natCast_nonneg _
  refine ⟨r, hr, hzero, hpos, ⟨hpos, ?_⟩, hnn, ?_⟩
  · intro hlt
    rcases lt_or_eq_of_le hnn with h | h
    · exact h
    · have := hzero h.symm
      rw [this] at hlt
      exact absurd hlt (not_lt.mpr htol)
  · rw [hn]
    have : (Spec.exceedingIndices self.tolerance a b).length ≤ (List.range a.length).length :=
      List.length_filter_le _ _
    rw [List.length_range] at this
    exact_mod_cast this

/-- Witness for C37: two samples under tolerance 1, the second one off by 3. -/
theorem compare_count_and_maximum_witness :
    ([⟨0, 0, 0⟩, ⟨0, 0, 0⟩] : List Vec3).length = ([⟨0, 1, 0⟩, ⟨0, 0, 3⟩] : List Vec3).length ∧
    0 ≤ (VectorDelta.new 1).tolerance ∧
    ∃ r : VectorDelta,
      (VectorDelta.new 1).Compare [⟨0, 0, 0⟩, ⟨0, 0, 0⟩] [⟨0, 1, 0⟩, ⟨0, 0, 3⟩] = some r ∧
      (r.numDeltas = 0 → r.maxDelta = 0) ∧
      (0 < r.numDeltas → (VectorDelta.new 1).tolerance < r.maxDelta) ∧
      (0 < r.numDeltas ↔ (VectorDelta.new 1).tolerance < r.maxDelta) ∧
      0 ≤ r.numDeltas ∧
      r.numDeltas ≤ (([⟨0, 0, 0⟩, ⟨0, 0, 0⟩] : List Vec3).length : Int) :=
  ⟨rfl, by simp [VectorDelta.new],
    compare_count_and_maximum (VectorDelta.new 1) [⟨0, 0, 0⟩, ⟨0, 0, 0⟩]
      [⟨0, 1, 0⟩, ⟨0, 0, 3⟩] rfl (by simp [VectorDelta.new])⟩

/-! ## Counters of a mesh summary -/

/-- The amounts by which a face summary written by `AddDeltaVectors` from non-negative
counts raises the six counters are related like the counters themselves. -/
theorem FaceDelta.addDeltaVectors_increments (fd : FaceDelta) (d : FaceDeltaVectors)
    (hd : Spec.NonNegCounts d) :
    boolToInt (fd.AddDeltaVectors d).hasGeomDeltas ≤ boolToInt (fd.AddDeltaVectors d).hasDeltas ∧
    boolToInt (fd.AddDeltaVectors d).hasUVDeltas ≤ boolToInt (fd.AddDeltaVectors d).hasDeltas ∧
    boolToInt (fd.AddDeltaVectors d).hasDeltas ≤
      boolToInt (fd.AddDeltaVectors d).hasGeomDeltas +
        boolToInt (fd.AddDeltaVectors d).hasUVDeltas ∧
    boolToInt (decide ((fd.AddDeltaVectors d).numPDeltas > 0)) ≤
      boolToInt (fd.AddDeltaVectors d).hasGeomDeltas ∧
    boolToInt (decide ((fd.AddDeltaVectors d).numD1Deltas > 0)) ≤
      boolToInt (fd.AddDeltaVectors d).hasGeomDeltas ∧
    boolToInt (decide ((fd.AddDeltaVectors d).numD2Deltas > 0)) ≤
      boolToInt (fd.AddDeltaVectors d).hasGeomDeltas ∧
    boolToInt (fd.AddDeltaVectors d).hasGeomDeltas ≤
      boolToInt (decide ((fd.AddDeltaVectors d).numPDeltas > 0)) +
        boolToInt (decide ((fd.AddDeltaVectors d).numD1Deltas > 0)) +
        boolToInt (decide ((fd.AddDeltaVectors d).numD2Deltas > 0)) := by
  obtain ⟨c1, c2, c3, c4, c5, c6, _⟩ := hd
  obtain ⟨f1, f2, f3, f4, f5, _, _, _, _, _⟩ := FaceDelta.addDeltaVectors_fields fd d
  have f0 : (fd.AddDeltaVectors d).hasDeltas =
      ((fd.AddDeltaVectors d).hasGeomDeltas || (fd.AddDeltaVectors d).hasUVDeltas) := by
    rw [FaceDelta.addDeltaVectors_hasDeltas, f1, f2]
    rfl
  have hg : (fd.AddDeltaVectors d).hasGeomDeltas = true ↔
      (d.pDelta.numDeltas ≠ 0 ∨ d.duDelta.numDeltas ≠ 0 ∨ d.dvDelta.numDeltas ≠ 0 ∨
        d.duuDelta.numDeltas ≠ 0 ∨ d.duvDelta.numDeltas ≠ 0 ∨ d.dvvDelta.numDeltas ≠ 0) := by
    rw [f1]
    simp only [Bool.or_eq_true, decide_eq_true_eq, or_assoc]
  have hP : (0 < (fd.AddDeltaVectors d).numPDeltas) ↔ d.pDelta.numDeltas ≠ 0 := by
    rw [f3]; omega
  have h1 : (0 < (fd.AddDeltaVectors d).numD1Deltas) ↔
      (d.duDelta.numDeltas ≠ 0 ∨ d.dvDelta.numDeltas ≠ 0) := by
    rw [f4]; omega
  have h2 : (0 < (fd.AddDeltaVectors d).numD2Deltas) ↔
      (d.duuDelta.numDeltas ≠ 0 ∨ d.duvDelta.numDeltas ≠ 0 ∨ d.dvvDelta.numDeltas ≠ 0) := by
    rw [f5]; omega
  have hg2 : (fd.AddDeltaVectors d).hasGeomDeltas = true ↔
      (0 < (fd.AddDeltaVectors d).numPDeltas ∨ 0 < (fd.AddDeltaVectors d).numD1Deltas ∨
        0 < (fd.AddDeltaVectors d).numD2Deltas) := by
    rw [hg, hP, h1, h2]
    simp only [or_assoc]
  rw [f0]
  generalize (fd.AddDeltaVectors d).hasGeomDeltas = g at hg2 ⊢
  generalize (fd.AddDeltaVectors d).hasUVDeltas = u
  generalize (fd.AddDeltaVectors d).numPDeltas = np at hg2 ⊢
  generalize (fd.AddDeltaVectors d).numD1Deltas = n1 at hg2 ⊢
  generalize (fd.AddDeltaVectors d).numD2Deltas = n2 at hg2 ⊢
  simp only [gt_iff_lt]
  by_cases a : 0 < np <;> by_cases b : 0 < n1 <;> by_cases c : 0 < n2 <;>
    cases g <;> cases u <;> simp [a, b, c, boolToInt] at hg2 ⊢

/-- A face summary written by `AddDeltaVectors` from non-negative counts keeps the
relations between the counters when it is added to a mesh summary. -/
theorem MeshDelta.countersConsistent_addFace (m : MeshDelta) (fd : FaceDelta)
    (d : FaceDeltaVectors) (hm : Spec.CountersConsistent m) (hd : Spec.NonNegCounts d) :
    Spec.CountersConsistent (m.AddFace (fd.AddDeltaVectors d)) := by
  obtain ⟨m1, m2, m3, m4, m5, m6, m7⟩ := hm
  obtain ⟨i1, i2, i3, i4, i5, i6, i7⟩ := FaceDelta.addDeltaVectors_increments fd d hd
  unfold Spec.CountersConsistent MeshDelta.AddFace
  simp only
  refine ⟨?_, ?_, ?_, ?_, ?_, ?_, ?_⟩ <;> omega

theorem Vec3.smul_mk (x y z s : ℚ) : (⟨x, y, z⟩ : Vec3).smul s = ⟨x * s, y * s, z * s⟩ := rfl

/-- C39: with `N = 4` for QUAD and `N = 3` for TRIANGLE, for every valid index `k` and every
`(u, v)`: `rotateDomain domain k` is `rotateDomain domain 1` applied `k` times, applying
`rotateDomain domain 1` `N` times is the identity, and `rotateDomainInv domain k` is
`rotateDomain domain ((N - k) mod N)`. -/
theorem rotateDomain_cyclic (domain : tess.DomainMode) (k : Nat)
    (hk : Spec.ValidRotation domain k) (u v : ℚ) :
    tess.rotateDomain domain (k : Int) u v = Spec.rotateTimes domain k (u, v) ∧
    Spec.rotateTimes domain (Spec.numRotations domain) (u, v) = some (u, v) ∧
    tess.rotateDomainInv domain (k : Int) u v =
      tess.rotateDomain domain
        (((Spec.numRotations domain - k) % Spec.numRotations domain : Nat) : Int) u v := by
  obtain ⟨hd, hlt⟩ := hk
  rcases hd with rfl | rfl
  · have h4 : k = 0 ∨ k = 1 ∨ k = 2 ∨ k = 3 := by
      simp only [Spec.numRotations] at hlt; omega
    rcases h4 with rfl | rfl | rfl | rfl <;>
      simp [Spec.rotateTimes, Spec.numRotations, tess.rotateDomain, tess.rotateDomainInv,
        tess.toUint8, tess.rotateDomainQuad, tess.rotateDomainInvQuad]
  · have h3 : k = 0 ∨ k = 1 ∨ k = 2 := by
      simp only [Spec.numRotations] at hlt; omega
    rcases h3 with rfl | rfl | rfl <;>
      simp [Spec.rotateTimes, Spec.numRotations, tess.rotateDomain, tess.rotateDomainInv,
        tess.toUint8, tess.rotateDomainTriangle, tess.rotateDomainInvTriangle] <;>
      refine ⟨?_, ?_⟩ <;> (try refine ⟨?_, ?_⟩) <;> ring

/-- Witness for C39: TRIANGLE, `k = 2`, at `(1/4, 1/2)`. -/
theorem rotateDomain_cyclic_witness :
    Spec.ValidRotation tess.DomainMode.TRIANGLE 2 ∧
    tess.rotateDomain tess.DomainMode.TRIANGLE ((2 : Nat) : Int) (1 / 4) (1 / 2) =
      Spec.rotateTimes tess.DomainMode.TRIANGLE 2 (1 / 4, 1 / 2) ∧
    Spec.rotateTimes tess.DomainMode.TRIANGLE (Spec.numRotations tess.DomainMode.TRIANGLE)
      (1 / 4, 1 / 2) = some (1 / 4, 1 / 2) ∧
    tess.rotateDomainInv tess.DomainMode.TRIANGLE ((2 : Nat) : Int) (1 / 4) (1 / 2) =
      tess.rotateDomain tess.DomainMode.TRIANGLE
        (((Spec.numRotations tess.DomainMode.TRIANGLE - 2) %
          Spec.numRotations tess.DomainMode.TRIANGLE : Nat) : Int) (1 / 4) (1 / 2) :=
  ⟨by decide, rotateDomain_cyclic tess.DomainMode.TRIANGLE 2 (by decide) (1 / 4) (1 / 2)⟩

/-- C34: for QUAD and TRIANGLE and every valid rotation index, the inverse coordinate
rotation `inv(s, t) = rotateDomainInv domain rot s t` is affine, and with
`(a, b) = inv(1,0) - inv(0,0)` and `(c, d) = inv(0,1) - inv(0,0)` the first-derivative
`applyDomainRotation domain rot du dv` returns `du' = a*du + b*dv` and
`dv' = c*du + d*dv`, for all vectors `du`, `dv`. -/
theorem applyDomainRotation_chain_rule (domain : tess.DomainMode) (rot : Nat)
    (hrot : Spec.ValidRotation domain rot) (du dv : Vec3) :
    ∃ o e1 e2 : ℚ × ℚ,
      tess.rotateDomainInv domain (rot : Int) 0 0 = some o ∧
      tess.rotateDomainInv domain (rot : Int) 1 0 = some e1 ∧
      tess.rotateDomainInv domain (rot : Int) 0 1 = some e2 ∧
      (∀ s t : ℚ, tess.rotateDomainInv domain (rot : Int) s t =
        some (o.1 + s * (e1.1 - o.1) + t * (e2.1 - o.1),
          o.2 + s * (e1.2 - o.2) + t * (e2.2 - o.2))) ∧
      applyDomainRotation domain (rot : Int) du dv =
        some (du.smul (e1.1 - o.1) + dv.smul (e1.2 - o.2),
          du.smul (e2.1 - o.1) + dv.smul (e2.2 - o.2)) := by
  obtain ⟨hd, hlt⟩ := hrot
  cases du with
  | mk x0 x1 x2 =>
    cases dv with
    | mk y0 y1 y2 =>
      rcases hd with rfl | rfl
      · have h4 : rot = 0 ∨ rot = 1 ∨ rot = 2 ∨ rot = 3 := by
          simp only [Spec.numRotations] at hlt; omega
        rcases h4 with rfl | rfl | rfl | rfl
        · refine ⟨(0, 0), (1, 0), (0, 1), ?_, ?_, ?_, ?_, ?_⟩ <;>
            simp [tess.rotateDomainInv, tess.toUint8, tess.rotateDomainInvQuad,
              applyDomainRotation, quadDomainRotate, Vec3.smul_mk, Vec3.add_mk, Vec3.neg_mk]
        · refine ⟨(0, 1), (0, 0), (1, 1), ?_, ?_, ?_, ?_, ?_⟩ <;>
            simp [tess.rotateDomainInv, tess.toUint8, tess.rotateDomainInvQuad,
              applyDomainRotation, quadDomainRotate, Vec3.smul_mk, Vec3.add_mk, Vec3.neg_mk]
          intros
          ring
        · refine ⟨(1, 1), (0, 1), (1, 0), ?_, ?_, ?_, ?_, ?_⟩ <;>
            simp [tess.rotateDomainInv, tess.toUint8, tess.rotateDomainInvQuad,
              applyDomainRotation, quadDomainRotate, Vec3.smul_mk, Vec3.add_mk, Vec3.neg_mk]
          intros
          constructor <;> ring
        · refine ⟨(1, 0), (1, 1), (0, 0), ?_, ?_, ?_, ?_, ?_⟩ <;>
            simp [tess.rotateDomainInv, tess.toUint8, tess.rotateDomainInvQuad,
              applyDomainRotation, quadDomainRotate, Vec3.smul_mk, Vec3.add_mk, Vec3.neg_mk]
          intros
          ring
      · have h3 : rot = 0 ∨ rot = 1 ∨ rot = 2 := by
          simp only [Spec.numRotations] at hlt; omega
        rcases h3 with rfl | rfl | rfl
        · refine ⟨(0, 0), (1, 0), (0, 1), ?_, ?_, ?_, ?_, ?_⟩ <;>
            simp [tess.rotateDomainInv, tess.toUint8, tess.rotateDomainInvTriangle,
              applyDomainRotation, triangleDomainRotate, Vec3.smul_mk, Vec3.add_mk,
              Vec3.neg_mk]
        · refine ⟨(0, 1), (0, 0), (1, 0), ?_, ?_, ?_, ?_, ?_⟩ <;>
            simp [tess.rotateDomainInv, tess.toUint8, tess.rotateDomainInvTriangle,
              applyDomainRotation, triangleDomainRotate, Vec3.smul_mk, Vec3.add_mk,
              Vec3.neg_mk]
          intros
          ring
        · refine ⟨(1, 0), (0, 1), (0, 0), ?_, ?_, ?_, ?_, ?_⟩ <;>
            simp [tess.rotateDomainInv, tess.toUint8, tess.rotateDomainInvTriangle,
              applyDomainRotation, triangleDomainRotate, Vec3.smul_mk, Vec3.add_mk,
              Vec3.neg_mk]
          · intros
            ring
          · refine ⟨?_, ?_, ?_⟩ <;> ring

/-- Witness for C34: TRIANGLE, `rot = 1`, `du = (1, 0, 0)`, `dv = (0, 1, 0)`. -/
theorem applyDomainRotation_chain_rule_witness :
    Spec.ValidRotation tess.DomainMode.TRIANGLE 1 ∧
    ∃ o e1 e2 : ℚ × ℚ,
      tess.rotateDomainInv tess.DomainMode.TRIANGLE ((1 : Nat) : Int) 0 0 = some o ∧
      tess.rotateDomainInv tess.DomainMode.TRIANGLE ((1 : Nat) : Int) 1 0 = some e1 ∧
      tess.rotateDomainInv tess.DomainMode.TRIANGLE ((1 : Nat) : Int) 0 1 = some e2 ∧
      (∀ s t : ℚ, tess.rotateDomainInv tess.DomainMode.TRIANGLE ((1 : Nat) : Int) s t =
        some (o.1 + s * (e1.1 - o.1) + t * (e2.1 - o.1),
          o.2 + s * (e1.2 - o.2) + t * (e2.2 - o.2))) ∧
      applyDomainRotation tess.DomainMode.TRIANGLE ((1 : Nat) : Int) ⟨1, 0, 0⟩ ⟨0, 1, 0⟩ =
        some ((⟨1, 0, 0⟩ : Vec3).smul (e1.1 - o.1) + (⟨0, 1, 0⟩ : Vec3).smul (e1.2 - o.2),
          (⟨1, 0, 0⟩ : Vec3).smul (e2.1 - o.1) + (⟨0, 1, 0⟩ : Vec3).smul (e2.2 - o.2)) :=
  ⟨by decide,
    applyDomainRotation_chain_rule tess.DomainMode.TRIANGLE 1 (by decide) ⟨1, 0, 0⟩ ⟨0, 1, 0⟩⟩

/-! ## Degenerate levels -/

namespace tess.uniform

/-- In the degenerate range of QUAD, and at level 0 of TRIANGLE, `patchSize` returns the
counts of the degenerate patch. -/
theorem patchSize_degenerate (patch : Patch) :
    (∀ lod : Int, lod ≤ 1 →
      patchSize DomainMode.QUAD lod = some (2, 4) ∧
      (tessellate DomainMode.QUAD lod patch).numTriangles = 2 ∧
      (tessellate DomainMode.QUAD lod patch).numVertices = 4) ∧
    (∀ lod : Int, lod < 1 →
      (tessellate DomainMode.TRIANGLE lod patch).numTriangles = 1 ∧
      (tessellate DomainMode.TRIANGLE lod patch).numVertices = 3) ∧
    patchSize DomainMode.TRIANGLE 0 = some (1, 3) := by
  refine ⟨fun lod h => ?_, fun lod h => ?_, by decide⟩
  · rw [tessellate_quad_degenerate lod h]
    have h1 : ¬ lod > 1 := by omega
    simp [patchSize, h1, Patch.numTriangles, Patch.numVertices]
  · rw [tessellate_triangle_degenerate lod h]
    simp [Patch.numTriangles, Patch.numVertices]

/-- Every triangle of a QUAD patch, and of a TRIANGLE patch of level 1 or more, has a
positive signed area form. -/
theorem orientation_pos (lod : Int) (patch : Patch) :
    (∀ t ∈ Spec.triangles (tessellate DomainMode.QUAD lod patch),
      0 < Spec.orientation (tessellate DomainMode.QUAD lod patch) t) ∧
    (1 ≤ lod → ∀ t ∈ Spec.triangles (tessellate DomainMode.TRIANGLE lod patch),
      0 < Spec.orientation (tessellate DomainMode.TRIANGLE lod patch) t) := by
  refine ⟨fun t ht => ?_, fun h t ht => ?_⟩
  · rcases le_or_lt lod 1 with h | h
    · rw [orientation_quad_degenerate lod h patch t ht]
      exact one_pos
    · have hpos : (0 : ℚ) < (lod : ℚ) - 1 := by
        have : (2 : ℚ) ≤ (lod : ℚ) := by exact_mod_cast (show (2 : Int) ≤ lod by omega)
        linarith
      rw [orientation_quad lod (by omega) patch t ht]
      exact div_pos one_pos (mul_pos hpos hpos)
  · have hpos : (0 : ℚ) < (lod : ℚ) + 1 := by
      have : (1 : ℚ) ≤ (lod : ℚ) := by exact_mod_cast h
      linarith
    rw [orientation_triangle lod h patch t ht]
    exact div_pos one_pos (mul_pos hpos hpos)

end tess.uniform

/-- C33 (failing input): for TRIANGLE at level -1, `patchSize` returns (0 triangles,
1 vertex), while the degenerate patch that `tessellate` produces has 1 triangle and
3 vertices. -/
theorem patchSize_triangle_negative_level :
    tess.uniform.patchSize tess.DomainMode.TRIANGLE (-1) = some (0, 1) ∧
    (tess.uniform.tessellate tess.DomainMode.TRIANGLE (-1) {}).numTriangles = 1 ∧
    (tess.uniform.tessellate tess.DomainMode.TRIANGLE (-1) {}).numVertices = 3 := by
  refine ⟨by decide, ?_, ?_⟩ <;>
    simp [tess.uniform.tessellate, tess.Patch.numTriangles, tess.Patch.numVertices]

/-- C35 (failing input): the single triangle `(0, 1, 2)` of the degenerate TRIANGLE patch
(level 0) has the signed area form -1, while every triangle of the TRIANGLE patch of
level 1 has a positive one. -/
theorem tessellate_triangle_degenerate_winding :
    Spec.triangles (tess.uniform.tessellate tess.DomainMode.TRIANGLE 0 {}) = [(0, 1, 2)] ∧
    Spec.orientation (tess.uniform.tessellate tess.DomainMode.TRIANGLE 0 {}) (0, 1, 2) = -1 ∧
    ∀ t ∈ Spec.triangles (tess.uniform.tessellate tess.DomainMode.TRIANGLE 1 {}),
      0 < Spec.orientation (tess.uniform.tessellate tess.DomainMode.TRIANGLE 1 {}) t := by
  refine ⟨rfl, ?_, (tess.uniform.orientation_pos 1 {}).2 (le_refl 1)⟩
  exact tess.uniform.orientation_triangle_degenerate 0 (by decide) {} (0, 1, 2)
    (by rw [tess.uniform.tessellate_triangle_degenerate 0 (by decide)]; simp [Spec.triangles,
      Spec.triples])

/-! ## Surface indices -/

/-- The step of the face loop for one face is the fold of `evaluate` over the comparisons
`Spec.faceVisits` of the face. -/
theorem foldlM_faceVisits (options : Options) (farEval tmrEval : Evaluator)
    (regFaceSize : Nat) (patch patchHalf : tess.Patch) (face : BaseFace) (surfIndex : Nat)
    (st : FaceLoopState) :
    (Spec.faceVisits regFaceSize patch patchHalf face surfIndex).foldlM
        (fun s v => evaluate options farEval tmrEval s v.1 v.2) st =
      if !face.isHole then
        if decide (face.size = regFaceSize) then
          evaluate options farEval tmrEval st surfIndex patch
        else evaluateCorners options farEval tmrEval patchHalf surfIndex face.size st
      else some st := by
  unfold Spec.faceVisits
  cases hh : face.isHole
  · by_cases hr : face.size = regFaceSize
    · simp [hr]
    · simp [hr, List.foldlM_map, evaluateCorners]
  · simp

/-- With the running index started at `surfIndex`, the face loop is the fold of `evaluate`
over the comparisons of the faces, face `k` having the first surface index
`surfIndex + Spec.surfaceBase regFaceSize (faces.take k)`. -/
theorem processFaces_eq_foldlM (options : Options) (farEval tmrEval : Evaluator)
    (regFaceSize : Nat) (patch patchHalf : tess.Patch) (faces : List BaseFace) :
    ∀ (surfIndex : Nat) (st : FaceLoopState),
      processFaces options farEval tmrEval regFaceSize patch patchHalf faces surfIndex st =
        ((List.range faces.length).flatMap fun k =>
          match faces[k]? with
          | some f => Spec.faceVisits regFaceSize patch patchHalf f
              (surfIndex + Spec.surfaceBase regFaceSize (faces.take k))
          | none => []).foldlM
          (fun s v => evaluate options farEval tmrEval s v.1 v.2) st := by
  induction faces with
  | nil => intro surfIndex st; rfl
  | cons face rest ih =>
    intro surfIndex st
    rw [List.length_cons, List.range_succ_eq_map, List.flatMap_cons, List.flatMap_map,
      List.foldlM_append]
    simp only [List.getElem?_cons_zero, List.take_zero, Spec.surfaceBase, List.map_nil,
      List.sum_nil, Nat.add_zero, Nat.succ_eq_add_one, List.getElem?_cons_succ,
      List.take_succ_cons, List.map_cons, List.sum_cons]
    rw [foldlM_faceVisits]
    simp only [processFaces]
    have hidx : ∀ k : Nat, surfIndex + ((if face.size = regFaceSize then 1 else face.size) +
        (List.map (fun g : BaseFace => if g.size = regFaceSize then 1 else g.size)
          (List.take k rest)).sum) =
        (surfIndex + (if decide (face.size = regFaceSize) = true then 1 else face.size)) +
          Spec.surfaceBase regFaceSize (rest.take k) := by
      intro k
      simp only [Spec.surfaceBase, decide_eq_true_eq]
      omega
    simp only [hidx]
    split
    · rename_i hv
      rw [hv]
      rfl
    · rename_i st1 hv
      rw [hv, ih]
      rfl

/-- The count of `countSurfaces` is the number of surface indices that the faces of the
refiner take up. -/
theorem countSurfaces_eq (refiner : Refiner) :
    countSurfaces refiner =
      Spec.surfaceBase (GetRegularFaceSize refiner.schemeType) refiner.faces := by
  have h : ∀ (l : List BaseFace) (n : Nat),
      l.foldl (fun surfCount face =>
        surfCount + (if face.size = GetRegularFaceSize refiner.schemeType then 1
          else face.size)) n =
        n + Spec.surfaceBase (GetRegularFaceSize refiner.schemeType) l := by
    intro l
    induction l with
    | nil => intro n; simp [Spec.surfaceBase]
    | cons f l ih =>
      intro n
      rw [List.foldl_cons, ih]
      simp only [Spec.surfaceBase, List.map_cons, List.sum_cons]
      omega
  unfold countSurfaces
  simp only [h, Nat.zero_add]

/-- C31: in the face loop of `RegressionTask::execute`, started at surface index 0, the
comparisons are exactly `Spec.visits`: for each face `f` in mesh order, with
`base(f)` the sum over the faces before `f` (holes included) of 1 for a regular face and
of the size otherwise, none for a hole, one at `base(f)` with the full-resolution patch
for a regular face, and `size(f)` at `base(f), ..., base(f) + size(f) - 1` with the
half-resolution patch for an irregular face; the running index after the last face, at
which a continuation of the loop would start, is `countSurfaces(refiner)`. -/
theorem processFaces_surface_indices (options : Options) (farEval tmrEval : Evaluator)
    (patch patchHalf : tess.Patch) (refiner : Refiner) (st : FaceLoopState) :
    processFaces options farEval tmrEval (GetRegularFaceSize refiner.schemeType) patch
        patchHalf refiner.faces 0 st =
      (Spec.visits (GetRegularFaceSize refiner.schemeType) patch patchHalf
        refiner.faces).foldlM (fun s v => evaluate options farEval tmrEval s v.1 v.2) st ∧
    countSurfaces refiner =
      Spec.surfaceBase (GetRegularFaceSize refiner.schemeType) refiner.faces ∧
    ∀ more : List BaseFace,
      processFaces options farEval tmrEval (GetRegularFaceSize refiner.schemeType) patch
          patchHalf (refiner.faces ++ more) 0 st =
        (processFaces options farEval tmrEval (GetRegularFaceSize refiner.schemeType) patch
          patchHalf refiner.faces 0 st).bind fun st1 =>
            processFaces options farEval tmrEval (GetRegularFaceSize refiner.schemeType)
              patch patchHalf more (countSurfaces refiner) st1 := by
  refine ⟨?_, countSurfaces_eq refiner, fun more => ?_⟩
  · rw [processFaces_eq_foldlM]
    simp only [Spec.visits, Nat.zero_add]
  · rw [processFaces_append, countSurfaces_eq, Nat.zero_add]

/-! ## The tessellation cache -/

/-- Setting the lowest bit: `r | 1` is `2 * (r / 2) + 1`. -/
theorem lor_one_eq (r : Nat) : r ||| 1 = 2 * (r / 2) + 1 := by
  apply Nat.eq_of_testBit_eq
  intro i
  rw [Nat.testBit_or]
  cases i with
  | zero => simp [Nat.testBit_zero, Nat.add_mod]
  | succ j =>
    have h1 : (2 * (r / 2) + 1) / 2 = r / 2 := by omega
    simp [Nat.testBit_succ, h1]

namespace tess.uniform

/-- For QUAD and TRIANGLE, `tessellate` overwrites the whole patch: the result does not
depend on what the patch held before. -/
theorem tessellate_overwrites (domain : DomainMode) (lod : Int) (patch : Patch)
    (hd : domain = DomainMode.QUAD ∨ domain = DomainMode.TRIANGLE) :
    tessellate domain lod patch = tessellate domain lod {} := by
  rcases hd with rfl | rfl <;> simp [tessellate]

end tess.uniform

/-- C32: for every tessellation rate `r` in 0..255, `populateTessCache r` uses the odd level
`L = r | 1`, with `1 <= L <= 255`, so the parity assertion of `populate` holds and the call
completes; the cache then holds `tessellate domain L` as full-resolution and
`tessellate domain (L / 2 + 1)` as half-resolution patch of QUAD and of TRIANGLE, and
`patches domain` returns the TRIANGLE pair for TRIANGLE and the QUAD pair otherwise. -/
theorem populateTessCache_levels (cache : TessCache) (r : Nat) (hr : r ≤ 255) :
    (1 ≤ (r ||| 1) ∧ (r ||| 1) ≤ 255 ∧ (r ||| 1) % 2 = 1 ∧ (r ||| 1) &&& 1 = 1) ∧
    ∃ c : TessCache, populateTessCache cache r = some c ∧
      c.patchQuad = tess.uniform.tessellate tess.DomainMode.QUAD ((r ||| 1 : Nat) : Int) {} ∧
      c.patchQuadHalf =
        tess.uniform.tessellate tess.DomainMode.QUAD (((r ||| 1) / 2 + 1 : Nat) : Int) {} ∧
      c.patchTri =
        tess.uniform.tessellate tess.DomainMode.TRIANGLE ((r ||| 1 : Nat) : Int) {} ∧
      c.patchTriHalf =
        tess.uniform.tessellate tess.DomainMode.TRIANGLE (((r ||| 1) / 2 + 1 : Nat) : Int) {} ∧
      c.patches tess.DomainMode.TRIANGLE = (c.patchTri, c.patchTriHalf) ∧
      ∀ domain : tess.DomainMode, domain ≠ tess.DomainMode.TRIANGLE →
        c.patches domain = (c.patchQuad, c.patchQuadHalf) := by
  have hL := lor_one_eq r
  have hand : (r ||| 1) &&& 1 = 1 := by
    rw [Nat.and_one_is_mod, hL]
    omega
  refine ⟨⟨by omega, by omega, by omega, hand⟩, ?_⟩
  have hp : populateTessCache cache r = some
      { patchQuad :=
          tess.uniform.tessellate tess.DomainMode.QUAD ((r ||| 1 : Nat) : Int) cache.patchQuad,
        patchQuadHalf :=
          tess.uniform.tessellate tess.DomainMode.QUAD (((r ||| 1) / 2 + 1 : Nat) : Int)
            cache.patchQuadHalf,
        patchTri :=
          tess.uniform.tessellate tess.DomainMode.TRIANGLE ((r ||| 1 : Nat) : Int)
            cache.patchTri,
        patchTriHalf :=
          tess.uniform.tessellate tess.DomainMode.TRIANGLE (((r ||| 1) / 2 + 1 : Nat) : Int)
            cache.patchTriHalf } := by
    unfold populateTessCache TessCache.populate
    rw [if_neg (not_not.mpr hand)]
  refine ⟨_, hp, ?_, ?_, ?_, ?_, ?_, ?_⟩
  · exact tess.uniform.tessellate_overwrites _ _ cache.patchQuad (Or.inl rfl)
  · exact tess.uniform.tessellate_overwrites _ _ cache.patchQuadHalf (Or.inl rfl)
  · exact tess.uniform.tessellate_overwrites _ _ cache.patchTri (Or.inr rfl)
  · exact tess.uniform.tessellate_overwrites tess.DomainMode.TRIANGLE
      (((r ||| 1) / 2 + 1 : Nat) : Int) cache.patchTriHalf (Or.inr rfl)
  · simp [TessCache.patches]
  · intro domain hd
    simp [TessCache.patches, hd]

/-- Witness for C32: the rate 100 is rounded to the level 101, with half level 51. -/
theorem populateTessCache_levels_witness :
    (100 : Nat) ≤ 255 ∧
    (1 ≤ (100 ||| 1) ∧ (100 ||| 1) ≤ 255 ∧ (100 ||| 1) % 2 = 1 ∧ (100 ||| 1) &&& 1 = 1) ∧
    ∃ c : TessCache, populateTessCache {} 100 = some c ∧
      c.patchQuad = tess.uniform.tessellate tess.DomainMode.QUAD ((100 ||| 1 : Nat) : Int) {} ∧
      c.patchQuadHalf =
        tess.uniform.tessellate tess.DomainMode.QUAD (((100 ||| 1) / 2 + 1 : Nat) : Int) {} ∧
      c.patchTri =
        tess.uniform.tessellate tess.DomainMode.TRIANGLE ((100 ||| 1 : Nat) : Int) {} ∧
      c.patchTriHalf =
        tess.uniform.tessellate tess.DomainMode.TRIANGLE
          (((100 ||| 1) / 2 + 1 : Nat) : Int) {} ∧
      c.patches tess.DomainMode.TRIANGLE = (c.patchTri, c.patchTriHalf) ∧
      ∀ domain : tess.DomainMode, domain ≠ tess.DomainMode.TRIANGLE →
        c.patches domain = (c.patchQuad, c.patchQuadHalf) :=
  ⟨by decide, populateTessCache_levels {} 100 (by decide)⟩

/-! ## Boundary vertices of the QUAD patches -/

theorem sum_map_ite_eq_mul_count (g : Nat → ℚ) (c : ℚ) (n : Nat) (l : List Nat) :
    (l.map fun (j : Nat) => if g j = c then n else 0).sum = n * (l.map g).count c := by
  induction l with
  | nil => simp
  | cons a rest ih =>
    simp only [List.map_cons, List.sum_cons, ih, List.count_cons]
    by_cases hg : g a = c
    · simp [hg]; ring
    · simp [hg]

theorem div_left_injective_of_pos (d : ℚ) (hd : 0 < d) :
    Function.Injective fun (i : Nat) => (i : ℚ) / d := by
  intro a b hab
  have h := (div_left_inj' (ne_of_gt hd)).mp hab
  exact_mod_cast h

theorem count_map_range_div (d : ℚ) (hd : 0 < d) (n k : Nat) (hk : k < n) :
    ((List.range n).map fun (i : Nat) => (i : ℚ) / d).count ((k : ℚ) / d) = 1 := by
  have h := List.count_map_of_injective (List.range n) (fun (i : Nat) => (i : ℚ) / d)
    (div_left_injective_of_pos d hd) k
  simp only at h
  rw [h]
  exact List.count_eq_one_of_mem (List.nodup_range n) (List.mem_range.mpr hk)

namespace tess.uniform

/-- Every coordinate `k / (lod - 1)` occurs `lod` times among the `u` coordinates. -/
theorem quadU_count (lod : Int) (h : 2 ≤ lod) (k : Nat) (hk : k < lod.toNat) :
    (quadU lod).count ((k : ℚ) / ((lod : ℚ) - 1)) = lod.toNat := by
  have hd : (0 : ℚ) < (lod : ℚ) - 1 := by
    have : (2 : ℚ) ≤ (lod : ℚ) := by exact_mod_cast h
    linarith
  unfold quadU
  rw [List.count_flatMap]
  have hc : (List.count ((k : ℚ) / ((lod : ℚ) - 1)) ∘ fun (_j : Nat) =>
      (List.range lod.toNat).map fun (i : Nat) => (i : ℚ) / ((lod : ℚ) - 1)) =
      fun _ => 1 := by
    funext j
    exact count_map_range_div _ hd _ _ hk
  rw [hc]
  simp

/-- Every coordinate `k / (lod - 1)` occurs `lod` times among the `v` coordinates. -/
theorem quadV_count (lod : Int) (h : 2 ≤ lod) (k : Nat) (hk : k < lod.toNat) :
    (quadV lod).count ((k : ℚ) / ((lod : ℚ) - 1)) = lod.toNat := by
  have hd : (0 : ℚ) < (lod : ℚ) - 1 := by
    have : (2 : ℚ) ≤ (lod : ℚ) := by exact_mod_cast h
    linarith
  unfold quadV
  rw [List.count_flatMap]
  have hc : (List.count ((k : ℚ) / ((lod : ℚ) - 1)) ∘ fun (j : Nat) =>
      (List.range lod.toNat).map fun (_i : Nat) => (j : ℚ) / ((lod : ℚ) - 1)) =
      fun (j : Nat) => if (j : ℚ) / ((lod : ℚ) - 1) = (k : ℚ) / ((lod : ℚ) - 1) then lod.toNat
        else 0 := by
    funext j
    simp [List.count_replicate]
  rw [hc, sum_map_ite_eq_mul_count (fun (j : Nat) => (j : ℚ) / ((lod : ℚ) - 1)),
    count_map_range_div _ hd _ _ hk]
  simp

/-- At a level of 2 or more the QUAD patch has `lod` vertices on each boundary edge. -/
theorem edgeVertexCounts_quad (lod : Int) (h : 2 ≤ lod) (patch : Patch) :
    Spec.edgeVertexCounts (tessellate DomainMode.QUAD lod patch) =
      [lod.toNat, lod.toNat, lod.toNat, lod.toNat] := by
  have hd : (lod : ℚ) - 1 ≠ 0 := by
    have : (2 : ℚ) ≤ (lod : ℚ) := by exact_mod_cast h
    intro h0
    linarith
  have h0 : (0 : ℚ) = ((0 : Nat) : ℚ) / ((lod : ℚ) - 1) := by simp
  have h1 : (1 : ℚ) = (((lod.toNat - 1 : Nat)) : ℚ) / ((lod : ℚ) - 1) := by
    have hc : (((lod.toNat - 1 : Nat)) : ℚ) = (lod : ℚ) - 1 := by
      have hn : ((lod.toNat : Nat) : Int) = lod := Int.toNat_of_nonneg (by omega)
      have h1le : 1 ≤ lod.toNat := by omega
      rw [Nat.cast_sub h1le]
      have : ((lod.toNat : Nat) : ℚ) = (lod : ℚ) := by exact_mod_cast hn
      rw [this]
      simp
    rw [hc, div_self hd]
  rw [tessellate_quad lod h]
  unfold Spec.edgeVertexCounts
  simp only
  have hk0 : 0 < lod.toNat := by omega
  have hk1 : lod.toNat - 1 < lod.toNat := by omega
  have e1 := quadV_count lod h 0 hk0
  have e2 := quadU_count lod h (lod.toNat - 1) hk1
  have e3 := quadV_count lod h (lod.toNat - 1) hk1
  have e4 := quadU_count lod h 0 hk0
  rw [← h0] at e1 e4
  rw [← h1] at e2 e3
  rw [e1, e2, e3, e4]

/-- At a level of 1 or less the QUAD patch has two vertices on each boundary edge. -/
theorem edgeVertexCounts_quad_degenerate (lod : Int) (h : lod ≤ 1) (patch : Patch) :
    Spec.edgeVertexCounts (tessellate DomainMode.QUAD lod patch) = [2, 2, 2, 2] := by
  rw [tessellate_quad_degenerate lod h]
  simp [Spec.edgeVertexCounts, List.count_cons]

end tess.uniform

/-- Counterexample to C36 as stated: the rate 1 gives the accepted odd level `L = 1`, where
the full-resolution and the half-resolution QUAD patch are both the one-segment patch, so
the half patch does not have half as many segments per boundary edge. -/
theorem halfSegments_fails_at_level_one :
    populateTessCache {} 1 = some Examples.cache ∧
    Examples.cache.patchQuad =
      tess.uniform.tessellate tess.DomainMode.QUAD ((1 ||| 1 : Nat) : Int) {} ∧
    Examples.cache.patchQuadHalf =
      tess.uniform.tessellate tess.DomainMode.QUAD (((1 ||| 1) / 2 + 1 : Nat) : Int) {} ∧
    Spec.edgeVertexCounts Examples.cache.patchQuad = [2, 2, 2, 2] ∧
    Spec.edgeVertexCounts Examples.cache.patchQuadHalf = [2, 2, 2, 2] ∧
    ¬ Spec.HalfSegments Examples.cache.patchQuadHalf Examples.cache.patchQuad := by
  refine ⟨Examples.populateTessCache_one, rfl, rfl, ?_, ?_, ?_⟩
  · exact tess.uniform.edgeVertexCounts_quad_degenerate _ (by decide) _
  · exact tess.uniform.edgeVertexCounts_quad_degenerate _ (by decide) _
  · intro hs
    have h0 := hs 0 (by decide)
    have e1 : Spec.edgeVertexCounts Examples.cache.patchQuadHalf = [2, 2, 2, 2] :=
      tess.uniform.edgeVertexCounts_quad_degenerate _ (by decide) _
    have e2 : Spec.edgeVertexCounts Examples.cache.patchQuad = [2, 2, 2, 2] :=
      tess.uniform.edgeVertexCounts_quad_degenerate _ (by decide) _
    rw [e1, e2] at h0
    simp at h0

/-- C36 (amended): for every odd level `L` of 3 or more, the half-resolution QUAD patch
`tessellate(QUAD, L / 2 + 1)` has `L / 2 + 1` vertices and the full-resolution patch
`tessellate(QUAD, L)` has `L` vertices on each boundary edge, so the half patch has exactly
half as many segments per boundary edge as the full patch. -/
theorem halfSegments_of_odd_level (L : Nat) (hodd : L % 2 = 1) (h3 : 3 ≤ L)
    (p q : tess.Patch) :
    Spec.edgeVertexCounts (tess.uniform.tessellate tess.DomainMode.QUAD (L : Int) p) =
      [L, L, L, L] ∧
    Spec.edgeVertexCounts
        (tess.uniform.tessellate tess.DomainMode.QUAD ((L / 2 + 1 : Nat) : Int) q) =
      [L / 2 + 1, L / 2 + 1, L / 2 + 1, L / 2 + 1] ∧
    Spec.HalfSegments
      (tess.uniform.tessellate tess.DomainMode.QUAD ((L / 2 + 1 : Nat) : Int) q)
      (tess.uniform.tessellate tess.DomainMode.QUAD (L : Int) p) := by
  have e1 := tess.uniform.edgeVertexCounts_quad (L : Int) (by omega) p
  have e2 := tess.uniform.edgeVertexCounts_quad ((L / 2 + 1 : Nat) : Int) (by omega) q
  rw [Int.toNat_ofNat] at e1 e2
  refine ⟨e1, e2, ?_⟩
  intro e he
  rw [e1, e2]
  interval_cases e <;> simp <;> omega

/-- Witness for C36 (amended): level 5 has five vertices per boundary edge, its half level 3
has three. -/
theorem halfSegments_of_odd_level_witness :
    5 % 2 = 1 ∧ 3 ≤ 5 ∧
    Spec.edgeVertexCounts (tess.uniform.tessellate tess.DomainMode.QUAD ((5 : Nat) : Int) {}) =
      [5, 5, 5, 5] ∧
    Spec.edgeVertexCounts
        (tess.uniform.tessellate tess.DomainMode.QUAD ((5 / 2 + 1 : Nat) : Int) {}) =
      [5 / 2 + 1, 5 / 2 + 1, 5 / 2 + 1, 5 / 2 + 1] ∧
    Spec.HalfSegments
      (tess.uniform.tessellate tess.DomainMode.QUAD ((5 / 2 + 1 : Nat) : Int) {})
      (tess.uniform.tessellate tess.DomainMode.QUAD ((5 : Nat) : Int) {}) :=
  ⟨by decide, by decide, halfSegments_of_odd_level 5 (by decide) (by decide) {} {}⟩

/-! ## The shape table -/

/-- C40 (evaluation at the failing input): `catmark_cube_corner0` is registered in the shape
table, yet `findShape("catmark_cube_corner0")` returns the entry `catmark_cube`, whose name
is a proper initial segment of the requested one; and the unregistered name
`catmark_cubeXYZ` is found as well, again as `catmark_cube`. -/
theorem findShape_returns_shorter_name (objData : String → String) :
    shapeEntry objData "catmark_cube_corner0" Scheme.kCatmark false ∈ _shapes objData ∧
    findShape objData "catmark_cube_corner0" =
      some (shapeEntry objData "catmark_cube" Scheme.kCatmark false) ∧
    (∀ shape ∈ _shapes objData, shape.name ≠ "catmark_cubeXYZ") ∧
    findShape objData "catmark_cubeXYZ" =
      some (shapeEntry objData "catmark_cube" Scheme.kCatmark false) := by
  refine ⟨?_, ?_, ?_, ?_⟩
  · simp [_shapes]
  · rfl
  · intro shape hs
    intro heq
    have hm : shape.name ∈ (_shapes objData).map ShapeDesc.name := List.mem_map_of_mem _ hs
    rw [heq] at hm
    revert hm
    simp [_shapes, shapeEntry]
  · rfl
end OsdRegression
